import Mathlib

/-!
Transaction engine (`transactions/engine.hpp`).

A shallow embedding of `tx::Engine` together with the process-wide commit log it
drives.  Every method runs under the engine's unique lock, so a method is one
atomic transition of the pair (engine, commit log).  A method that can throw is
a function into `Except Failure α × World`: the second component is the state
left behind, whether the method returned or threw.

Transaction ids are the values of a `SimpleCounter<uint64_t>`; they are modelled
as natural numbers: the counter is the spec's strictly increasing counter, and
wrapping its 64-bit range would take 2^64 calls of `begin`.
-/

namespace tx

/-- Transaction identifier (`Id`, a wrapper around the 64-bit counter value). -/
abbrev Id := Nat

/-- Modelled from the spec: the three outcomes a commit-log entry can hold
(`commit_log.hpp` is not among the sources; section 3, "CommitLog: mapping
TransactionId → {Unknown, Committed, Aborted}"). -/
inductive Status where
  | Unknown
  | Committed
  | Aborted
deriving DecidableEq, Repr

/-- What a method can fail with: `TransactionError` is the exception class
declared in `engine.hpp`; `ContractViolation` is the fatal assertion of the
commit log (spec section 7). -/
inductive Failure where
  | TransactionError (what : String)
  | ContractViolation
deriving DecidableEq, Repr

/-- Modelled from the spec: the two facts about `transaction.hpp` and
`commit_log.hpp` (neither is among the sources) that the spec leaves open.
`first_cid` is the command id the `Transaction` constructor starts from;
`asserts` says whether the commit log asserts on a double-set to a different
terminal state ("implementation may assert") or silently keeps the entry
("entries never revert"). Every theorem below holds for all values of both. -/
structure Absent where
  first_cid : Nat
  asserts : Bool
deriving DecidableEq, Repr

/-- Modelled from the spec: `Snapshot<Id>` (`snapshot.hpp` is not among the
sources), the collection of active transaction ids.  It is kept as a sequence
because the engine reads its `front()`. -/
abbrev Snapshot := List Id

/-- Modelled from the spec: `Snapshot::insert`, "inserts the new id into the
active set"; the id is put at the back. -/
def Snapshot.insert (s : Snapshot) (id : Id) : Snapshot :=
  s ++ [id]

/-- Modelled from the spec: `Snapshot::remove`, "removes id from the active
set". -/
def Snapshot.remove (s : Snapshot) (id : Id) : Snapshot :=
  s.filter (fun x => x != id)

/-- Modelled from the spec: `Snapshot::front`, the first id of the sequence
(nothing on an empty one). -/
def Snapshot.front (s : Snapshot) : Option Id :=
  s.head?

/-- Modelled from the spec: `Snapshot::size`, the number of ids held. -/
def Snapshot.size (s : Snapshot) : Nat :=
  s.length

/-- Modelled from the spec: `Transaction` (`transaction.hpp` is not among the
sources), section 3: "{id, command_id, snapshot: set of TransactionIds active at
start}". -/
structure Transaction where
  id : Id
  cid : Nat
  snapshot : Snapshot
deriving DecidableEq, Repr

/-- Modelled from the spec: `SimpleCounter<uint64_t>` (`simple_counter.hpp` is
not among the sources), the "strictly increasing counter" of section 4.1. -/
abbrev SimpleCounter := Nat

/-- Modelled from the spec: `SimpleCounter::next`, which moves the counter on
and returns the new value (the first id issued from `counter(0)` is 1, section
8). The pair is (returned value, counter afterwards). -/
def SimpleCounter.next (c : SimpleCounter) : Nat × SimpleCounter :=
  (c + 1, c + 1)

/-- Modelled from the spec: `SimpleCounter::count`, the current counter value. -/
def SimpleCounter.count (c : SimpleCounter) : Nat :=
  c

/-- Modelled from the spec: `TransactionCache` (`transaction_cache.hpp` is not
among the sources), the "id→Transaction lookup" of section 4.1. -/
abbrev TransactionCache := Id → Option Transaction

/-- Modelled from the spec: `TransactionCache::get`; `none` is the null
pointer. -/
def TransactionCache.get (c : TransactionCache) (id : Id) : Option Transaction :=
  c id

/-- Modelled from the spec: `TransactionCache::put`, "registers the transaction
in an id→Transaction lookup". -/
def TransactionCache.put (c : TransactionCache) (id : Id) (t : Transaction) :
    TransactionCache :=
  fun k => if k = id then some t else c k

/-- Modelled from the spec: `TransactionCache::del`, removal from the lookup
table. -/
def TransactionCache.del (c : TransactionCache) (id : Id) : TransactionCache :=
  fun k => if k = id then none else c k

/-- Modelled from the spec: `CommitLog` (`commit_log.hpp` is not among the
sources), section 3: "mapping TransactionId → {Unknown, Committed, Aborted}". -/
abbrev CommitLog := Id → Status

/-- Modelled from the spec: the transition behind `SetCommitted`/`SetAborted`
(section 4.2): "one-time transition from Unknown to a terminal state; calling
with an already-terminal id for a different state is a contract violation —
implementation may assert", and "entries never revert once set".  The result is
(outcome, commit log afterwards). -/
def CommitLog.set (cfg : Absent) (log : CommitLog) (id : Id) (s : Status) :
    Except Failure Unit × CommitLog :=
  match log id with
  | Status.Unknown => (Except.ok (), fun k => if k = id then s else log k)
  | cur =>
    if cur = s then (Except.ok (), log)
    else if cfg.asserts then (Except.error Failure.ContractViolation, log)
    else (Except.ok (), log)

/-- Modelled from the spec: `CommitLog::set_committed`. -/
def CommitLog.set_committed (cfg : Absent) (log : CommitLog) (id : Id) :
    Except Failure Unit × CommitLog :=
  CommitLog.set cfg log id Status.Committed

/-- Modelled from the spec: `CommitLog::set_aborted`. -/
def CommitLog.set_aborted (cfg : Absent) (log : CommitLog) (id : Id) :
    Except Failure Unit × CommitLog :=
  CommitLog.set cfg log id Status.Aborted

/-- The private members of `tx::Engine`. -/
structure Engine where
  counter : SimpleCounter
  active : Snapshot
  cache : TransactionCache

/-- The state the engine's methods act on: the engine and the process-wide
commit log (`CommitLog::get()`). -/
structure World where
  engine : Engine
  clog : CommitLog

/-- `Engine() : counter(0) {}` next to a commit log with no outcome recorded. -/
def fresh : World :=
  { engine := { counter := 0, active := [], cache := fun _ => none },
    clog := fun _ => Status.Unknown }

/-- `Engine::begin`. -/
def Engine.begin (cfg : Absent) (w : World) : Transaction × World :=
  let r := SimpleCounter.next w.engine.counter
  let id : Id := r.1
  let t : Transaction := { id := id, cid := cfg.first_cid, snapshot := w.engine.active }
  (t, { w with engine :=
        { counter := r.2,
          active := Snapshot.insert w.engine.active id,
          cache := TransactionCache.put w.engine.cache id t } })

/-- `Engine::advance`. -/
def Engine.advance (w : World) (id : Id) : Except Failure Transaction × World :=
  match TransactionCache.get w.engine.cache id with
  | none => (Except.error (Failure.TransactionError "transaction does not exist"), w)
  | some t =>
    let t1 : Transaction := { t with cid := t.cid + 1 }
    (Except.ok t1,
      { w with engine := { w.engine with cache := fun k => if k = id then some t1 else w.engine.cache k } })

/-- `Engine::finalize`. -/
def Engine.finalize (e : Engine) (t : Transaction) : Engine :=
  { e with active := Snapshot.remove e.active t.id,
           cache := TransactionCache.del e.cache t.id }

/-- `Engine::commit`. -/
def Engine.commit (cfg : Absent) (w : World) (t : Transaction) :
    Except Failure Unit × World :=
  match CommitLog.set_committed cfg w.clog t.id with
  | (Except.error f, log) => (Except.error f, { w with clog := log })
  | (Except.ok _, log) => (Except.ok (), { engine := Engine.finalize w.engine t, clog := log })

/-- `Engine::abort`. -/
def Engine.abort (cfg : Absent) (w : World) (t : Transaction) :
    Except Failure Unit × World :=
  match CommitLog.set_aborted cfg w.clog t.id with
  | (Except.error f, log) => (Except.error f, { w with clog := log })
  | (Except.ok _, log) => (Except.ok (), { engine := Engine.finalize w.engine t, clog := log })

/-- `Engine::last_known_active` (`active.front()`); `none` stands for the
undefined read of an empty sequence. -/
def Engine.last_known_active (w : World) : Option Id :=
  Snapshot.front w.engine.active

/-- `Engine::count`. -/
def Engine.count (w : World) : Nat :=
  SimpleCounter.count w.engine.counter

/-- `Engine::size`. -/
def Engine.size (w : World) : Nat :=
  Snapshot.size w.engine.active

/-- One call of a state-changing method of the engine. -/
inductive Call where
  | begin
  | advance (id : Id)
  | commit (t : Transaction)
  | abort (t : Transaction)
deriving DecidableEq, Repr

/-- The state a call leaves behind, whether it returned or threw. -/
def Engine.call (cfg : Absent) (w : World) : Call → World
  | Call.begin => (Engine.begin cfg w).2
  | Call.advance id => (Engine.advance w id).2
  | Call.commit t => (Engine.commit cfg w t).2
  | Call.abort t => (Engine.abort cfg w t).2

/-- The state after a sequence of calls, made one after the other. -/
def Engine.run (cfg : Absent) (cs : List Call) (w : World) : World :=
  cs.foldl (Engine.call cfg) w

/-- The isolation levels named in `storage/v2/isolation_level.cpp`. -/
inductive IsolationLevel where
  | SNAPSHOT_ISOLATION
  | READ_COMMITTED
  | READ_UNCOMMITTED
deriving DecidableEq, Repr

/-- Modelled from the spec: the visibility of a creator/expirer id `w` to the
requesting transaction `T` (section 4.3; the record accessor is not among the
sources). -/
def visible (level : IsolationLevel) (log : CommitLog) (T : Transaction) (w : Id) : Bool :=
  match level with
  | IsolationLevel.READ_UNCOMMITTED => true
  | IsolationLevel.READ_COMMITTED => w == T.id || log w == Status.Committed
  | IsolationLevel.SNAPSHOT_ISOLATION =>
    w == T.id || (!(T.snapshot.contains w) && log w == Status.Committed)

/-- A transaction is active when it has been begun and not yet committed or
aborted: its id is in the active set and the commit log holds no outcome for
it.  (Under disciplined use the second part follows from the first, see
`active_of_disciplined`.) -/
def Active (w : World) (t : Transaction) : Prop :=
  t.id ∈ w.engine.active ∧ w.clog t.id = Status.Unknown

/-- The relation between counter, active set and lookup that every state
reachable from a fresh engine satisfies. -/
def Inv (w : World) : Prop :=
  (∀ x ∈ w.engine.active, x ≤ w.engine.counter) ∧
  (∀ k, (w.engine.cache k).isSome = true ↔ k ∈ w.engine.active) ∧
  (∀ k t, w.engine.cache k = some t → t.id = k)

/-- A sequence of calls, made from state `w`, in which commit and abort are
only ever applied to a transaction whose id is in the active set at that moment
(the discipline of the transaction lifecycle: finalized exactly once). -/
def Engine.disciplined (cfg : Absent) : List Call → World → Prop
  | [], _ => True
  | Call.commit t :: cs, w =>
    t.id ∈ w.engine.active ∧ Engine.disciplined cfg cs (Engine.call cfg w (Call.commit t))
  | Call.abort t :: cs, w =>
    t.id ∈ w.engine.active ∧ Engine.disciplined cfg cs (Engine.call cfg w (Call.abort t))
  | c :: cs, w => Engine.disciplined cfg cs (Engine.call cfg w c)

/-- Companion of `Inv` for disciplined use: an id with a terminal commit-log
entry has been issued and is no longer in the active set. -/
def LogInv (w : World) : Prop :=
  ∀ x, w.clog x ≠ Status.Unknown → x ≤ w.engine.counter ∧ x ∉ w.engine.active

/-- The reading methods of the engine: each takes the lock, reads a member and
returns. -/
inductive Query where
  | last_known_active
  | count
  | size
deriving DecidableEq, Repr

/-- The value a reading method returns and the state it leaves behind. -/
def Engine.query (w : World) : Query → Option Nat × World
  | Query.last_known_active => (Engine.last_known_active w, w)
  | Query.count => (some (Engine.count w), w)
  | Query.size => (some (Engine.size w), w)

/-- Whether a call is a call of `begin`. -/
def Call.is_begin : Call → Bool
  | Call.begin => true
  | _ => false

/-- Whether a call finalizes a transaction (`commit` or `abort`). -/
def Call.is_final : Call → Bool
  | Call.commit _ => true
  | Call.abort _ => true
  | _ => false

/-- No outcome has been recorded for an id the engine has not issued yet.
It holds on a fresh engine and is kept by every call that finalizes only issued
ids. -/
def Unissued (w : World) : Prop :=
  ∀ k, w.engine.counter < k → w.clog k = Status.Unknown

end tx

/-!
Snapshot engine (`src/snapshot/snapshot_engine.cpp`).

`make_snapshot` and `import` are embedded as transitions of the members of
`SnapshotEngine`, the database they hold and the files under the snapshot
folder.  What the encoder writes, what the decoder reads, what the flushes
return and whether the write to the commit-file succeeds come from outside the
sources and are arguments of the methods.  Logging is left out.
-/

open tx

/-- The content of a file as the sequence of chunks written to it: the lines of
the commit-file, the records of a snapshot file. -/
abbrev FileContent := List String

/-- The files on disk, by path; `none` where there is no file. -/
abbrev Disk := String → Option FileContent

/-- `std::ofstream f(path, binary | trunc)` followed by the writes `c`: the
file holds exactly `c` afterwards. -/
def Disk.write (d : Disk) (path : String) (c : FileContent) : Disk :=
  fun q => if q = path then some c else d q

/-- The lines that `std::getline` reads back from the characters `cs` followed
by a line end: `cs` is cut at every newline it holds. -/
def split_lines : List Char → List (List Char)
  | [] => [[]]
  | c :: cs =>
    if c = '\n' then [] :: split_lines cs
    else
      match split_lines cs with
      | [] => [[c]]
      | l :: ls => (c :: l) :: ls

/-- The lines that `text << std::endl` adds to a file of lines. -/
def getlines (text : String) : List String :=
  (split_lines text.data).map String.mk

/-- `std::ofstream f(path, app); f << text << std::endl`.  Nothing in the
source checks the stream, so whether the open and the write succeed is an
outcome of the environment: `good` says that they did.  Then the text is put
after what the file held (a missing file is created), as the lines it makes up;
otherwise the file is as it was. -/
def Disk.append (d : Disk) (path : String) (text : String) (good : Bool) : Disk :=
  fun q => if q = path ∧ good = true then some ((d path).getD [] ++ getlines text) else d q

/-- `std::ifstream f(path)` read to its end with `std::getline`: the lines of
the file, none at all when the file cannot be opened. -/
def Disk.lines (d : Disk) (path : String) : List String :=
  (d path).getD []

/-- Modelled from the spec: a version of a vertex or an edge in the store,
"stamped with `created_by: TransactionId`" (section 3; the storage classes are
not among the sources). -/
structure Version where
  created_by : tx.Id
  content : String
deriving DecidableEq, Repr

/-- Modelled from the spec: `Db` as far as the snapshot engine uses it: its
name, its transaction engine (with the commit log), the versions of vertices and
edges in the store, and the index definitions, which belong to the database and
not to a transaction (`db.indexes()`). -/
structure Db where
  name : String
  tx_engine : tx.World
  vertices : List Version
  edges : List Version
  indexes : List String

/-- Modelled from the spec: `DbTransaction t(db)`, which begins a transaction
on the database's engine ("begins a dedicated read transaction", "opens a fresh
write transaction", section 4.5). -/
def Db.begin (cfg : Absent) (db : Db) : Transaction × Db :=
  ((Engine.begin cfg db.tx_engine).1, { db with tx_engine := (Engine.begin cfg db.tx_engine).2 })

/-- Modelled from the spec: `t.trans.commit()`, the engine's commit applied to
the transaction. -/
def Db.commit (cfg : Absent) (db : Db) (t : Transaction) : Except Failure Unit × Db :=
  ((Engine.commit cfg db.tx_engine t).1, { db with tx_engine := (Engine.commit cfg db.tx_engine t).2 })

/-- Modelled from the spec: `t.trans.abort()`, the engine's abort applied to
the transaction. -/
def Db.abort (cfg : Absent) (db : Db) (t : Transaction) : Except Failure Unit × Db :=
  ((Engine.abort cfg db.tx_engine t).1, { db with tx_engine := (Engine.abort cfg db.tx_engine t).2 })

/-- Modelled from the spec: `serialization::deserialize_vertex(t, snap)` for
each of the given records: a vertex is created through the accessor of
transaction `t`, so its version is stamped with `t.id`. -/
def Db.insert_vertices (db : Db) (t : Transaction) (items : List String) : Db :=
  { db with vertices := db.vertices ++ items.map (fun c => Version.mk t.id c) }

/-- Modelled from the spec: `serialization::deserialize_edge(t, snap, vertices)`
for each of the given records: an edge is created through the accessor of
transaction `t`, so its version is stamped with `t.id`. -/
def Db.insert_edges (db : Db) (t : Transaction) (items : List String) : Db :=
  { db with edges := db.edges ++ items.map (fun c => Version.mk t.id c) }

/-- Modelled from the spec: `db.indexes().add_index(definition)`: the definition
is added to the database unless it is there already (the `false` result that
`snapshot_load` ignores). -/
def Db.add_index (db : Db) (definition : String) : Db :=
  if definition ∈ db.indexes then db else { db with indexes := db.indexes ++ [definition] }

/-- How control leaves a method other than by `return`: a `std::exception`,
which the handlers of the snapshot engine catch, or the failure of an assertion
in the commit log, which nothing catches. -/
inductive Raised where
  | exception (what : String)
  | fatal (f : Failure)
deriving DecidableEq, Repr

/-- What `snapshot(t, snap, old_trans)` does to the stream of the snapshot file
in one call of `make_snapshot`: the records it writes, and the exception that
ends it, if any. -/
structure Encoding where
  written : FileContent
  thrown : Option String
deriving DecidableEq, Repr

/-- One section of a snapshot file as the decoder delivers it: the records that
decode, and the exception raised after them, if any. -/
structure Section where
  items : List String
  thrown : Option String
deriving DecidableEq, Repr

/-- What a `SnapshotDecoder` delivers from a snapshot file: the exception raised
by `load_init`, if any, and the sections of vertices, edges and indexes. -/
structure SnapshotDecoder where
  load_init : Option String
  vertices : Section
  edges : Section
  indexes : Section
deriving DecidableEq, Repr

/-- A snapshot file decodes without any exception. -/
def SnapshotDecoder.clean (snap : SnapshotDecoder) : Bool :=
  snap.load_init.isNone && snap.vertices.thrown.isNone && snap.edges.thrown.isNone
    && snap.indexes.thrown.isNone

/-- The members of `SnapshotEngine` (`snapshot_folder`, `db`,
`snapshoted_no_v`), the files on disk, and the record of the snapshot files
opened for reading so far (oldest first). -/
structure SnapshotEngine where
  snapshot_folder : String
  db : Db
  snapshoted_no_v : Nat
  disk : Disk
  opened : List String

/-- `SnapshotEngine::snapshot_db_dir` (the directories it makes sure exist are
not part of the model). -/
def SnapshotEngine.snapshot_db_dir (s : SnapshotEngine) : String :=
  s.snapshot_folder ++ "/" ++ s.db.name

/-- `SnapshotEngine::snapshot_file`. -/
def SnapshotEngine.snapshot_file (s : SnapshotEngine) (now : Int) (type : String) : String :=
  SnapshotEngine.snapshot_db_dir s ++ "/" ++ toString now ++ "_" ++ type

/-- `SnapshotEngine::snapshot_commit_file`. -/
def SnapshotEngine.snapshot_commit_file (s : SnapshotEngine) : String :=
  SnapshotEngine.snapshot_db_dir s ++ "/snapshot_commit.txt"

/-- `SnapshotEngine::make_snapshot(now, type)`.  `enc` is what `snapshot` does
to the file's stream, `res` the result of flushing the snapshot file,
`commit_res` the result of flushing the commit-file and `commit_good` whether
the open of the commit-file and the write to it succeeded (`success` is set
before the commit-file is opened, and neither is checked). -/
def SnapshotEngine.make_snapshot (cfg : Absent) (s : SnapshotEngine) (now : Int)
    (type : String) (enc : Encoding) (res commit_res : Int) (commit_good : Bool) :
    Except Raised Bool × SnapshotEngine :=
  let snapshot_file_name := SnapshotEngine.snapshot_file s now type
  let b := Db.begin cfg s.db
  let s1 : SnapshotEngine :=
    { s with db := b.2, disk := Disk.write s.disk snapshot_file_name enc.written }
  match enc.thrown with
  | some _ =>
    match Db.abort cfg s1.db b.1 with
    | (Except.error f, db) => (Except.error (Raised.fatal f), { s1 with db := db })
    | (Except.ok _, db) => (Except.ok false, { s1 with db := db })
  | none =>
    if res = 0 then
      match Db.commit cfg s1.db b.1 with
      | (Except.error f, db) => (Except.error (Raised.fatal f), { s1 with db := db })
      | (Except.ok _, db) =>
        let s2 : SnapshotEngine :=
          { s1 with db := db,
                    disk := Disk.append s1.disk (SnapshotEngine.snapshot_commit_file s)
                      snapshot_file_name commit_good }
        if commit_res = 0 then
          (Except.ok true, { s2 with snapshoted_no_v := s2.snapshoted_no_v + 1 })
        else (Except.ok true, s2)
    else
      match Db.abort cfg s1.db b.1 with
      | (Except.error f, db) => (Except.error (Raised.fatal f), { s1 with db := db })
      | (Except.ok _, db) => (Except.ok false, { s1 with db := db })

/-- `SnapshotEngine::snapshot_load(dt, snap)`: the result (or what is raised)
and the database left behind. -/
def SnapshotEngine.snapshot_load (db : Db) (t : Transaction) (snap : SnapshotDecoder) :
    Except Raised Bool × Db :=
  match snap.load_init with
  | some e => (Except.error (Raised.exception e), db)
  | none =>
    match snap.vertices.thrown with
    | some e => (Except.error (Raised.exception e), Db.insert_vertices db t snap.vertices.items)
    | none =>
      match snap.edges.thrown with
      | some e =>
        (Except.error (Raised.exception e),
          Db.insert_edges (Db.insert_vertices db t snap.vertices.items) t snap.edges.items)
      | none =>
        match snap.indexes.thrown with
        | some e =>
          (Except.error (Raised.exception e),
            snap.indexes.items.foldl Db.add_index
              (Db.insert_edges (Db.insert_vertices db t snap.vertices.items) t snap.edges.items))
        | none =>
          (Except.ok true,
            snap.indexes.items.foldl Db.add_index
              (Db.insert_edges (Db.insert_vertices db t snap.vertices.items) t snap.edges.items))

/-- The loop `while (snapshots.size() > 0)` of `SnapshotEngine::import`.  The
vector is used from its back, so the list given here is the vector reversed: its
head is `snapshots.back()`.  `decode` is what the decoder delivers from the
content of a file (`none`: the file cannot be opened). -/
def SnapshotEngine.import_loop (cfg : Absent) (decode : Option FileContent → SnapshotDecoder) :
    List String → SnapshotEngine → Except Raised Bool × SnapshotEngine
  | [], s => (Except.ok false, s)
  | back :: rest, s =>
    match SnapshotEngine.snapshot_load (Db.begin cfg s.db).2 (Db.begin cfg s.db).1
        (decode (s.disk back)) with
    | (Except.ok true, db) =>
      match Db.commit cfg db (Db.begin cfg s.db).1 with
      | (Except.error f, db2) =>
        (Except.error (Raised.fatal f), { s with db := db2, opened := s.opened ++ [back] })
      | (Except.ok _, db2) =>
        (Except.ok true, { s with db := db2, opened := s.opened ++ [back] })
    | (Except.error (Raised.fatal f), db) =>
      (Except.error (Raised.fatal f), { s with db := db, opened := s.opened ++ [back] })
    | (_, db) =>
      match Db.abort cfg db (Db.begin cfg s.db).1 with
      | (Except.error f, db2) =>
        (Except.error (Raised.fatal f), { s with db := db2, opened := s.opened ++ [back] })
      | (Except.ok _, db2) =>
        SnapshotEngine.import_loop cfg decode rest
          { s with db := db2, opened := s.opened ++ [back] }

/-- `SnapshotEngine::import`. -/
def SnapshotEngine.import_ (cfg : Absent) (decode : Option FileContent → SnapshotDecoder)
    (s : SnapshotEngine) : Except Raised Bool × SnapshotEngine :=
  match SnapshotEngine.import_loop cfg decode
      (Disk.lines s.disk (SnapshotEngine.snapshot_commit_file s)).reverse s with
  | (Except.error (Raised.exception _), s2) => (Except.ok false, s2)
  | r => r

/-- The arguments and the environment of one call of `make_snapshot`. -/
structure SnapshotCall where
  now : Int
  type : String
  enc : Encoding
  res : Int
  commit_res : Int
  commit_good : Bool
deriving DecidableEq, Repr

/-- A sequence of `make_snapshot` calls, made one after the other: the paths of
the snapshot files of the calls that returned true and whose write to the
commit-file succeeded, in the order of the calls, and the state left behind. -/
def SnapshotEngine.make_snapshots (cfg : Absent) :
    List SnapshotCall → SnapshotEngine → List String × SnapshotEngine
  | [], s => ([], s)
  | c :: cs, s =>
    let r := SnapshotEngine.make_snapshot cfg s c.now c.type c.enc c.res c.commit_res
      c.commit_good
    let rest := SnapshotEngine.make_snapshots cfg cs r.2
    match r.1, c.commit_good with
    | Except.ok true, true => (SnapshotEngine.snapshot_file s c.now c.type :: rest.1, rest.2)
    | _, _ => rest

/-- A snapshot engine over the folder "snap" and a database named "db" with a
fresh transaction engine, an empty store and no index, with no file on disk: the
starting state of the worked examples. -/
def SnapshotEngine.blank : SnapshotEngine :=
  { snapshot_folder := "snap",
    db := { name := "db", tx_engine := fresh, vertices := [], edges := [], indexes := [] },
    snapshoted_no_v := 0,
    disk := fun _ => none,
    opened := [] }

/-- The state `import` is in after an attempt on the snapshot file `p` whose
load threw: a transaction was begun and aborted, and what the load had applied
is still in the database. -/
def SnapshotEngine.after_failed (cfg : Absent) (decode : Option FileContent → SnapshotDecoder)
    (s : SnapshotEngine) (p : String) : SnapshotEngine :=
  { s with
    db := { (SnapshotEngine.snapshot_load (Db.begin cfg s.db).2 (Db.begin cfg s.db).1
              (decode (s.disk p))).2 with
            tx_engine := (Engine.abort cfg (Engine.begin cfg s.db.tx_engine).2
              (Engine.begin cfg s.db.tx_engine).1).2 },
    opened := s.opened ++ [p] }

/-- The state `import` is in after an attempt on the snapshot file `p` whose
load returned true: a transaction was begun and committed. -/
def SnapshotEngine.after_loaded (cfg : Absent) (decode : Option FileContent → SnapshotDecoder)
    (s : SnapshotEngine) (p : String) : SnapshotEngine :=
  { s with
    db := { (SnapshotEngine.snapshot_load (Db.begin cfg s.db).2 (Db.begin cfg s.db).1
              (decode (s.disk p))).2 with
            tx_engine := (Engine.commit cfg (Engine.begin cfg s.db.tx_engine).2
              (Engine.begin cfg s.db.tx_engine).1).2 },
    opened := s.opened ++ [p] }

/-- The blank engine with a commit-file that lists the snapshot file "old" and
then the snapshot file "new". -/
def SnapshotEngine.two_snapshots : SnapshotEngine :=
  { SnapshotEngine.blank with
    disk := fun q =>
      if q = "snap/db/snapshot_commit.txt" then some ["old", "new"]
      else if q = "old" then some ["good"]
      else if q = "new" then some ["bad"]
      else none }

/-- A decoder for the worked example: the content "good" decodes cleanly to one
vertex; any other content yields one vertex and one index definition and then
an exception in the section of indexes. -/
def SnapshotEngine.sample_decode (c : Option FileContent) : SnapshotDecoder :=
  if c = some ["good"] then
    { load_init := none, vertices := ⟨["a"], none⟩, edges := ⟨[], none⟩,
      indexes := ⟨[], none⟩ }
  else
    { load_init := none, vertices := ⟨["ghost"], none⟩, edges := ⟨[], none⟩,
      indexes := ⟨["idx"], some "unexpected end of file"⟩ }

/-- The state inside `Engine::commit` after `CommitLog::get().set_committed(t.id)`
and before `finalize(t)`: the outcome is recorded, the engine is as it was. -/
def tx.Engine.commit_recorded (cfg : Absent) (w : World) (t : Transaction) : World :=
  { w with clog := (CommitLog.set_committed cfg w.clog t.id).2 }

/-- The state inside `Engine::abort` after `CommitLog::get().set_aborted(t.id)`
and before `finalize(t)`. -/
def tx.Engine.abort_recorded (cfg : Absent) (w : World) (t : Transaction) : World :=
  { w with clog := (CommitLog.set_aborted cfg w.clog t.id).2 }

/-- Every id the engine has issued (1 up to the counter) is in the active set or
has a terminal entry in the commit log. -/
def tx.Settled (w : World) : Prop :=
  ∀ k, 1 ≤ k → k ≤ w.engine.counter → k ∈ w.engine.active ∨ w.clog k ≠ Status.Unknown

/-!
Server flags (`src/memgraph.cpp`) and isolation level names
(`src/storage/v2/isolation_level.cpp`).
-/

/-- `IsolationLevelToString(IsolationLevel)`. -/
def IsolationLevelToString : IsolationLevel → String
  | IsolationLevel.READ_COMMITTED => "READ_COMMITTED"
  | IsolationLevel.READ_UNCOMMITTED => "READ_UNCOMMITTED"
  | IsolationLevel.SNAPSHOT_ISOLATION => "SNAPSHOT_ISOLATION"

/-- `IsolationLevelToString(std::optional<IsolationLevel>)`. -/
def IsolationLevelToString_optional : Option IsolationLevel → String
  | some l => IsolationLevelToString l
  | none => ""

/-- The table `isolation_level_mappings` of `memgraph.cpp`. -/
def isolation_level_mappings : List (String × IsolationLevel) :=
  [("SNAPSHOT_ISOLATION", IsolationLevel.SNAPSHOT_ISOLATION),
   ("READ_COMMITTED", IsolationLevel.READ_COMMITTED),
   ("READ_UNCOMMITTED", IsolationLevel.READ_UNCOMMITTED)]

/-- Modelled from the spec: `utils::StringToEnum` (the enum utilities are not
among the sources): the value paired with the given name in a table of
mappings, nothing when the name is not in the table. -/
def StringToEnum (value : String) : List (String × IsolationLevel) → Option IsolationLevel
  | [] => none
  | (name, l) :: rest => if value = name then some l else StringToEnum value rest

/-- The two errors of `utils::ValidationError` that `memgraph.cpp` switches
on. -/
inductive ValidationError where
  | EmptyValue
  | InvalidValue
deriving DecidableEq, Repr

/-- Modelled from the spec: `utils::IsValidEnumValueString`: an empty value and a
value that is not a name of the table are errors. -/
def IsValidEnumValueString (value : String) (mappings : List (String × IsolationLevel)) :
    Except ValidationError Unit :=
  if value = "" then Except.error ValidationError.EmptyValue
  else if (StringToEnum value mappings).isSome then Except.ok ()
  else Except.error ValidationError.InvalidValue

/-- `ParseIsolationLevel`, for a given value of the flag `isolation_level`;
`none` is the failure of `MG_ASSERT`. -/
def ParseIsolationLevel (flag : String) : Option IsolationLevel :=
  StringToEnum flag isolation_level_mappings

/-- Conversion of an unsigned 64-bit value to `int64_t`. -/
def to_int64 (x : Nat) : Int :=
  if x % 2 ^ 64 < 2 ^ 63 then (x % 2 ^ 64 : Nat) else ((x % 2 ^ 64 : Nat) : Int) - 2 ^ 64

/-- `GetMemoryLimit`, for the value of the flag `memory_limit` and the results
of `sysinfo::TotalMemory()` and `sysinfo::SwapTotalMemory()` (unsigned 64-bit
values in KiB, or nothing); `none` is the failure of an `MG_ASSERT`.  Every
product is taken modulo 2^64. -/
def GetMemoryLimit (memory_limit : Nat) (maybe_total_memory maybe_swap_memory : Option Nat) :
    Option Int :=
  if memory_limit = 0 then
    match maybe_total_memory with
    | none => none
    | some total =>
      match maybe_swap_memory with
      | none => none
      | some swap =>
        if swap = 0 then some (to_int64 ((total * 9 % 2 ^ 64) / 10 * 1024 % 2 ^ 64))
        else some (to_int64 (total * 1024 % 2 ^ 64))
  else some (to_int64 ((memory_limit * 1024 % 2 ^ 64) * 1024 % 2 ^ 64))

/-- The value of a decimal digit character. -/
def digit_value (c : Char) : Nat :=
  c.toNat - 48

/-- The number read from a list of decimal digit characters, continuing the
number `a` read so far. -/
def decimal_value (a : Nat) (l : List Char) : Nat :=
  l.foldl (fun acc c => acc * 10 + digit_value c) a

/-!
The stream of a snapshot (`SnapshotEngine::snapshot` and
`SnapshotEngine::snapshot_load` of `src/snapshot/snapshot_engine.cpp`).

`snapshot` is embedded as the sequence of calls it makes on the
`SnapshotEncoder`, `snapshot_load` as a reader of such a sequence.  The encoder,
the decoder and the serialization of a record are not among the sources: a
record is kept as the data the spec lists for it, and the decoder is taken to
deliver what the encoder was given, section by section.
-/

/-- Modelled from the spec: a vertex as `serialize_vertex` writes it, "vertex
records (id, labels, properties)" (section 6). -/
structure VertexRecord where
  id : Nat
  labels : List String
  properties : List (String × String)
deriving DecidableEq, Repr

/-- Modelled from the spec: an edge as `serialize_edge` writes it, "edge records
(id, from, to, type, properties)" (section 6). -/
structure EdgeRecord where
  id : Nat
  from_id : Nat
  to_id : Nat
  edge_type : String
  properties : List (String × String)
deriving DecidableEq, Repr

/-- The calls that `snapshot` makes on the `SnapshotEncoder`, one constructor
for each method; `vertex` and `edge` stand for the calls of
`serialization::serialize_vertex` and `serialization::serialize_edge` with the
encoder, and `end_` for `snap.end()`. -/
inductive EncoderEvent where
  | property_name_init (name : String)
  | label_name_init (name : String)
  | edge_type_name_init (name : String)
  | start_vertices
  | vertex (va : VertexRecord)
  | start_edges
  | edge (ea : EdgeRecord)
  | start_indexes
  | index (definition : String)
  | end_
deriving DecidableEq, Repr

/-- What `snapshot(dt, snap, old_trans)` reads: the names in
`db.graph.vertices.property_family_access()`,
`db.graph.edges.property_family_access()`, `db.graph.label_store.access()` and
`db.graph.edge_type_store.access()`; the records delivered by
`t.vertex_access()` and `t.edge_access()`; the definitions passed by
`db.indexes().vertex_indexes` and `db.indexes().edge_indexes`; and, for each
record, whether `fill()` keeps it and what `is_visble_to(old_trans)` answers. -/
structure GraphView where
  vertex_property_family_access : List String
  edge_property_family_access : List String
  label_store : List String
  edge_type_store : List String
  vertex_access : List VertexRecord
  edge_access : List EdgeRecord
  vertex_indexes : List String
  edge_indexes : List String
  vertex_fill : VertexRecord → Bool
  edge_fill : EdgeRecord → Bool
  vertex_is_visble_to : VertexRecord → Bool
  edge_is_visble_to : EdgeRecord → Bool

/-- The vertices that reach `serialize_vertex` in `snapshot`:
`t.vertex_access().fill().filter([&](auto va) { return !va.is_visble_to(old_trans); })`,
where `filter` keeps the records on which the lambda returns true. -/
def GraphView.stored_vertices (g : GraphView) : List VertexRecord :=
  (g.vertex_access.filter g.vertex_fill).filter (fun va => !g.vertex_is_visble_to va)

/-- The edges that reach `serialize_edge` in `snapshot`:
`t.edge_access().fill().filter([&](auto va) { return !va.is_visble_to(old_trans); })`. -/
def GraphView.stored_edges (g : GraphView) : List EdgeRecord :=
  (g.edge_access.filter g.edge_fill).filter (fun va => !g.edge_is_visble_to va)

/-- `SnapshotEngine::snapshot(dt, snap, old_trans)`: the calls made on `snap`,
in order. -/
def SnapshotEngine.snapshot (g : GraphView) : List EncoderEvent :=
  (g.vertex_property_family_access.map EncoderEvent.property_name_init
    ++ g.edge_property_family_access.map EncoderEvent.property_name_init
    ++ g.label_store.map EncoderEvent.label_name_init
    ++ g.edge_type_store.map EncoderEvent.edge_type_name_init)
  ++ EncoderEvent.start_vertices
    :: (g.stored_vertices.map EncoderEvent.vertex
  ++ EncoderEvent.start_edges
    :: (g.stored_edges.map EncoderEvent.edge
  ++ EncoderEvent.start_indexes
    :: (g.vertex_indexes.map EncoderEvent.index
        ++ g.edge_indexes.map EncoderEvent.index
  ++ [EncoderEvent.end_])))

/-- The place of a call in the layout of a snapshot: name declarations,
`start_vertices`, vertices, `start_edges`, edges, `start_indexes`, index
definitions, `end`. -/
def EncoderEvent.place : EncoderEvent → Nat
  | EncoderEvent.property_name_init _ => 0
  | EncoderEvent.label_name_init _ => 0
  | EncoderEvent.edge_type_name_init _ => 0
  | EncoderEvent.start_vertices => 1
  | EncoderEvent.vertex _ => 2
  | EncoderEvent.start_edges => 3
  | EncoderEvent.edge _ => 4
  | EncoderEvent.start_indexes => 5
  | EncoderEvent.index _ => 6
  | EncoderEvent.end_ => 7

/-- A view with two vertices and two edges that `fill()` keeps, of which
`old_trans` sees the vertex 1 and the edge 10 and does not see the vertex 2 and
the edge 20. -/
def GraphView.half_seen : GraphView :=
  { vertex_property_family_access := ["name"],
    edge_property_family_access := ["since"],
    label_store := ["Person"],
    edge_type_store := ["KNOWS"],
    vertex_access := [VertexRecord.mk 1 ["Person"] [("name", "a")],
                      VertexRecord.mk 2 ["Person"] [("name", "b")]],
    edge_access := [EdgeRecord.mk 10 1 1 "KNOWS" [], EdgeRecord.mk 20 2 2 "KNOWS" []],
    vertex_indexes := ["vertex-index"],
    edge_indexes := ["edge-index"],
    vertex_fill := fun _ => true,
    edge_fill := fun _ => true,
    vertex_is_visble_to := fun va => decide (va.id = 1),
    edge_is_visble_to := fun ea => decide (ea.id = 10) }

/-- A view of which `old_trans` sees nothing: two vertices, an edge between
them and a loop, one index of each kind. -/
def GraphView.unseen : GraphView :=
  { vertex_property_family_access := ["name"],
    edge_property_family_access := ["since"],
    label_store := ["Person"],
    edge_type_store := ["KNOWS"],
    vertex_access := [VertexRecord.mk 7 ["Person"] [("name", "a")],
                      VertexRecord.mk 3 [] [("name", "b")]],
    edge_access := [EdgeRecord.mk 5 3 7 "KNOWS" [("since", "1")],
                    EdgeRecord.mk 4 7 7 "KNOWS" []],
    vertex_indexes := ["vertex-index"],
    edge_indexes := ["edge-index", "vertex-index"],
    vertex_fill := fun _ => true,
    edge_fill := fun _ => true,
    vertex_is_visble_to := fun _ => false,
    edge_is_visble_to := fun _ => false }

/-- A view with the vertices 1 and 2 and an edge from 2 to 1, all kept by
`fill()`, of which `old_trans` sees the vertex 1 only. -/
def GraphView.one_end_seen : GraphView :=
  { vertex_property_family_access := ["name"],
    edge_property_family_access := [],
    label_store := ["Person"],
    edge_type_store := ["KNOWS"],
    vertex_access := [VertexRecord.mk 1 ["Person"] [("name", "a")],
                      VertexRecord.mk 2 ["Person"] [("name", "b")]],
    edge_access := [EdgeRecord.mk 20 2 1 "KNOWS" []],
    vertex_indexes := [],
    edge_indexes := [],
    vertex_fill := fun _ => true,
    edge_fill := fun _ => true,
    vertex_is_visble_to := fun va => decide (va.id = 1),
    edge_is_visble_to := fun _ => false }

/-- Modelled from the spec: the graph of the database into which
`snapshot_load` loads, as records, with the counters from which the store gives
a new vertex or edge its id ("opaque ids unique within the store", section 3)
and the index definitions of the database. -/
structure GraphStore where
  vertices : List VertexRecord
  edges : List EdgeRecord
  indexes : List String
  vertex_counter : Nat
  edge_counter : Nat
deriving DecidableEq, Repr

/-- A store without vertices, edges and indexes. -/
def GraphStore.empty : GraphStore :=
  { vertices := [], edges := [], indexes := [], vertex_counter := 0, edge_counter := 0 }

/-- The local `std::unordered_map<uint64_t, VertexAccessor> vertices` of
`snapshot_load`: from the id a vertex has in the snapshot to the vertex created
for it, named by its id in the store. -/
abbrev VertexTable := Nat → Option Nat

/-- `vertices.insert(pair)` of `std::unordered_map`: the pair is put in the map
unless the key has an entry already. -/
def VertexTable.insert (tbl : VertexTable) (p : Nat × Nat) : VertexTable :=
  fun k => match tbl k with
    | some x => some x
    | none => if k = p.1 then some p.2 else none

/-- Modelled from the spec: `serialization::deserialize_vertex(t, snap)`
applied to the record the decoder delivers: a vertex with the labels and the
properties of the record is created in the store under a new id; the result
pairs the id of the record with the new vertex. -/
def deserialize_vertex (st : GraphStore) (r : VertexRecord) : (Nat × Nat) × GraphStore :=
  ((r.id, st.vertex_counter),
    { st with vertices := st.vertices ++ [{ r with id := st.vertex_counter }],
              vertex_counter := st.vertex_counter + 1 })

/-- Modelled from the spec: `serialization::deserialize_edge(t, snap, vertices)`
applied to the record the decoder delivers: the two ends are looked up in
`vertices` by the ids of the record, and an edge of the record's type and
properties is created between them under a new id; an end that is not in the
table is an exception. -/
def deserialize_edge (st : GraphStore) (vertices : VertexTable) (r : EdgeRecord) :
    Except Raised Unit × GraphStore :=
  match vertices r.from_id, vertices r.to_id with
  | some a, some b =>
    (Except.ok (),
      { st with edges := st.edges ++ [{ r with id := st.edge_counter, from_id := a, to_id := b }],
                edge_counter := st.edge_counter + 1 })
  | _, _ => (Except.error (Raised.exception "unknown vertex"), st)

/-- `db.indexes().add_index(definition)` on the store of records: the
definition is added unless it is there already. -/
def GraphStore.add_index (st : GraphStore) (definition : String) : GraphStore :=
  if definition ∈ st.indexes then st else { st with indexes := st.indexes ++ [definition] }

/-- A name declaration, which `load_init` reads. -/
def EncoderEvent.is_name : EncoderEvent → Bool
  | EncoderEvent.property_name_init _ => true
  | EncoderEvent.label_name_init _ => true
  | EncoderEvent.edge_type_name_init _ => true
  | _ => false

/-- The loop `while (!snap.end_vertices()) vertices.insert(deserialize_vertex(t, snap))`
of `snapshot_load`: the section of vertices ends where the next item of the
stream is not a vertex.  The result is the rest of the stream, the store and the
table. -/
def SnapshotEngine.load_vertices :
    List EncoderEvent → GraphStore → VertexTable → List EncoderEvent × GraphStore × VertexTable
  | [], st, tbl => ([], st, tbl)
  | ev :: rest, st, tbl =>
    match ev with
    | EncoderEvent.vertex r =>
      SnapshotEngine.load_vertices rest (deserialize_vertex st r).2
        (VertexTable.insert tbl (deserialize_vertex st r).1)
    | _ => (ev :: rest, st, tbl)

/-- The loop `while (!snap.end_edges()) deserialize_edge(t, snap, vertices)` of
`snapshot_load`: the rest of the stream, or the exception that ends the loop,
and the store. -/
def SnapshotEngine.load_edges :
    List EncoderEvent → GraphStore → VertexTable → Except Raised (List EncoderEvent) × GraphStore
  | [], st, _ => (Except.ok [], st)
  | ev :: rest, st, tbl =>
    match ev with
    | EncoderEvent.edge r =>
      match deserialize_edge st tbl r with
      | (Except.error e, st1) => (Except.error e, st1)
      | (Except.ok _, st1) => SnapshotEngine.load_edges rest st1 tbl
    | _ => (Except.ok (ev :: rest), st)

/-- The loop `while (!snap.end()) indexs.add_index(snap.load_index())` of
`snapshot_load`: it ends at the mark written by `snap.end()`; anything but an
index definition before that mark is an exception of the decoder. -/
def SnapshotEngine.load_indexes :
    List EncoderEvent → GraphStore → Except Raised Unit × GraphStore
  | [], st => (Except.error (Raised.exception "unexpected end of snapshot"), st)
  | ev :: rest, st =>
    match ev with
    | EncoderEvent.index d => SnapshotEngine.load_indexes rest (GraphStore.add_index st d)
    | EncoderEvent.end_ => (Except.ok (), st)
    | _ => (Except.error (Raised.exception "index definition expected"), st)

/-- `SnapshotEngine::snapshot_load(dt, snap)` on records, with the decoder
reading the calls an encoder received: `load_init` reads the name declarations,
`begin_vertices`, `begin_edges` and `start_indexes` each expect the mark of
their section and raise an exception on anything else.  The result (or what is
raised) and the store left behind. -/
def SnapshotEngine.snapshot_load_records (st : GraphStore) (stream : List EncoderEvent) :
    Except Raised Bool × GraphStore :=
  match stream.dropWhile EncoderEvent.is_name with
  | EncoderEvent.start_vertices :: s1 =>
    match (SnapshotEngine.load_vertices s1 st (fun _ => none)).1 with
    | EncoderEvent.start_edges :: s2 =>
      match SnapshotEngine.load_edges s2 (SnapshotEngine.load_vertices s1 st (fun _ => none)).2.1
          (SnapshotEngine.load_vertices s1 st (fun _ => none)).2.2 with
      | (Except.error e, st2) => (Except.error e, st2)
      | (Except.ok s3, st2) =>
        match s3 with
        | EncoderEvent.start_indexes :: s4 =>
          match SnapshotEngine.load_indexes s4 st2 with
          | (Except.error e, st3) => (Except.error e, st3)
          | (Except.ok _, st3) => (Except.ok true, st3)
        | _ => (Except.error (Raised.exception "start of indexes expected"), st2)
    | _ =>
      (Except.error (Raised.exception "start of edges expected"),
        (SnapshotEngine.load_vertices s1 st (fun _ => none)).2.1)
  | _ => (Except.error (Raised.exception "start of vertices expected"), st)

/-- A vertex with its id renamed by `f`: the same labels and properties. -/
def VertexRecord.renamed (f : Nat → Nat) (v : VertexRecord) : VertexRecord :=
  VertexRecord.mk (f v.id) v.labels v.properties

/-- What an edge is apart from its own id, with the ids of its ends renamed by
`f`: the two ends, the type and the properties. -/
def EdgeRecord.renamed (f : Nat → Nat) (e : EdgeRecord) :
    Nat × Nat × String × List (String × String) :=
  (f e.from_id, f e.to_id, e.edge_type, e.properties)

/-!
The concurrent map (`src/data_structures/concurrent/concurrent_map.hpp`).

`ConcurrentMap::Accessor` forwards every call to the accessor of a
`SkipList<Item<K, T>>`.  The skip list is not among the sources; it is modelled
as what the test `tests/concurrent/sl_insert.cpp` checks of it.  Calls are taken
one after another.
-/

/-- Modelled from the spec: `SkipList<Item<K, T>>` (`skiplist.hpp` is not among
the sources) as the sequence of its items from `begin()` to `end()`; an item is
a key with its data and items are ordered by their keys.  Keys are numbers, as
in the test (`size_t`). -/
abbrev SkipList (T : Type) := List (Nat × T)

/-- Modelled from the spec: `SkipList::Accessor::find(key)`: the first item with
the key, `none` for `end()`. -/
def SkipList.find {T : Type} (l : SkipList T) (key : Nat) : Option (Nat × T) :=
  List.find? (fun item => item.1 == key) l

/-- Modelled from the spec: `SkipList::Accessor::insert(item)`, the unique
insert that the test puts under pressure: the list is walked to the first item
whose key is not smaller; an item of the same key stays as it is and the result
is false, otherwise the new item is linked in front of that place and the result
is true.  The iterator of the result is given as the item it points to. -/
def SkipList.insert {T : Type} : SkipList T → Nat × T → ((Nat × T) × Bool) × SkipList T
  | [], item => ((item, true), [item])
  | x :: rest, item =>
    if item.1 < x.1 then ((item, true), item :: x :: rest)
    else if item.1 = x.1 then ((x, false), x :: rest)
    else ((SkipList.insert rest item).1, x :: (SkipList.insert rest item).2)

/-- `ConcurrentMap<K, T>`: its only member is `list skiplist`. -/
structure ConcurrentMap (T : Type) where
  skiplist : SkipList T

/-- `ConcurrentMap()`: the map with an empty list. -/
def ConcurrentMap.empty {T : Type} : ConcurrentMap T :=
  ConcurrentMap.mk []

/-- `ConcurrentMap::Accessor::insert(key, data)`:
`return accessor.insert(item_t(key, data))`.  The result and the map left. -/
def ConcurrentMap.insert {T : Type} (m : ConcurrentMap T) (key : Nat) (data : T) :
    ((Nat × T) × Bool) × ConcurrentMap T :=
  ((SkipList.insert m.skiplist (key, data)).1,
    ConcurrentMap.mk (SkipList.insert m.skiplist (key, data)).2)

/-- `ConcurrentMap::Accessor::find(key)`: `return accessor.find(key)`. -/
def ConcurrentMap.find {T : Type} (m : ConcurrentMap T) (key : Nat) : Option (Nat × T) :=
  SkipList.find m.skiplist key

/-- `ConcurrentMap::Accessor::contains(key)`:
`return this->find(key) != this->end()`. -/
def ConcurrentMap.contains {T : Type} (m : ConcurrentMap T) (key : Nat) : Bool :=
  (ConcurrentMap.find m key).isSome

/-- Modelled from the spec: `size()` of the accessor (`AccessorBase` is not
among the sources): the number of items in the list. -/
def ConcurrentMap.size {T : Type} (m : ConcurrentMap T) : Nat :=
  m.skiplist.length

/-- A sequence of calls of `insert`, as the loop of the test makes them: the
items whose insert reported true, in the order of the calls (the `owned` of the
test), and the map left. -/
def ConcurrentMap.insert_all {T : Type} :
    List (Nat × T) → ConcurrentMap T → List (Nat × T) × ConcurrentMap T
  | [], m => ([], m)
  | c :: cs, m =>
    ((if (ConcurrentMap.insert m c.1 c.2).1.2 then [c] else [])
        ++ (ConcurrentMap.insert_all cs (ConcurrentMap.insert m c.1 c.2).2).1,
      (ConcurrentMap.insert_all cs (ConcurrentMap.insert m c.1 c.2).2).2)

namespace tx

/-! ## Supporting lemmas -/

theorem begin_id (cfg : Absent) (w : World) :
    (Engine.begin cfg w).1.id = w.engine.counter + 1 := rfl

theorem begin_counter (cfg : Absent) (w : World) :
    (Engine.begin cfg w).2.engine.counter = w.engine.counter + 1 := rfl

theorem begin_clog (cfg : Absent) (w : World) :
    (Engine.begin cfg w).2.clog = w.clog := rfl

theorem advance_engine (w : World) (id : Id) :
    (Engine.advance w id).2.engine.counter = w.engine.counter ∧
    (Engine.advance w id).2.engine.active = w.engine.active ∧
    (Engine.advance w id).2.clog = w.clog := by
  unfold Engine.advance
  cases h : TransactionCache.get w.engine.cache id <;> simp

theorem set_cases (cfg : Absent) (log : CommitLog) (id : Id) (s : Status) :
    (CommitLog.set cfg log id s).2 = log ∨
    (log id = Status.Unknown ∧
      CommitLog.set cfg log id s = (Except.ok (), fun k => if k = id then s else log k)) := by
  unfold CommitLog.set
  cases h : log id
  · right; simp
  · left; dsimp only; split_ifs <;> rfl
  · left; dsimp only; split_ifs <;> rfl

theorem set_unknown (cfg : Absent) (log : CommitLog) (id : Id) (s : Status)
    (h : log id = Status.Unknown) :
    CommitLog.set cfg log id s = (Except.ok (), fun k => if k = id then s else log k) := by
  unfold CommitLog.set
  rw [h]

theorem commit_engine (cfg : Absent) (w : World) (t : Transaction) :
    (Engine.commit cfg w t).2.engine = w.engine ∨
    (Engine.commit cfg w t).2.engine = Engine.finalize w.engine t := by
  unfold Engine.commit
  split
  · left; rfl
  · right; rfl

theorem abort_engine (cfg : Absent) (w : World) (t : Transaction) :
    (Engine.abort cfg w t).2.engine = w.engine ∨
    (Engine.abort cfg w t).2.engine = Engine.finalize w.engine t := by
  unfold Engine.abort
  split
  · left; rfl
  · right; rfl

theorem counter_le_call (cfg : Absent) (w : World) (c : Call) :
    w.engine.counter ≤ (Engine.call cfg w c).engine.counter := by
  cases c with
  | begin => simp [Engine.call, begin_counter]
  | advance id => simp [Engine.call, (advance_engine w id).1]
  | commit t =>
    rcases commit_engine cfg w t with h | h <;> simp [Engine.call, h, Engine.finalize]
  | abort t =>
    rcases abort_engine cfg w t with h | h <;> simp [Engine.call, h, Engine.finalize]

theorem counter_le_run (cfg : Absent) (cs : List Call) (w : World) :
    w.engine.counter ≤ (Engine.run cfg cs w).engine.counter := by
  induction cs generalizing w with
  | nil => exact Nat.le_refl _
  | cons c cs ih =>
    exact Nat.le_trans (counter_le_call cfg w c) (ih (Engine.call cfg w c))

theorem run_append (cfg : Absent) (cs ds : List Call) (w : World) :
    Engine.run cfg (cs ++ ds) w = Engine.run cfg ds (Engine.run cfg cs w) := by
  simp [Engine.run, List.foldl_append]

theorem inv_fresh : Inv fresh := by
  refine ⟨?_, ?_, ?_⟩ <;> simp [fresh]

theorem inv_begin (cfg : Absent) (w : World) (h : Inv w) : Inv (Engine.begin cfg w).2 := by
  obtain ⟨h1, h2, h3⟩ := h
  refine ⟨?_, ?_, ?_⟩
  · intro x hx
    simp only [Engine.begin, SimpleCounter.next, Snapshot.insert, List.mem_append,
      List.mem_singleton] at hx ⊢
    rcases hx with hx | hx
    · exact Nat.le_succ_of_le (h1 x hx)
    · exact Nat.le_of_eq hx
  · intro k
    simp only [Engine.begin, SimpleCounter.next, Snapshot.insert, TransactionCache.put,
      List.mem_append, List.mem_singleton]
    by_cases hk : k = w.engine.counter + 1
    · simp [hk]
    · simp [hk, h2 k]
  · intro k t
    simp only [Engine.begin, SimpleCounter.next, TransactionCache.put]
    by_cases hk : k = w.engine.counter + 1
    · simp only [hk, if_true, Option.some.injEq]
      intro ht
      rw [← ht]
    · simp only [hk, if_false]
      exact h3 k t

theorem inv_advance (w : World) (id : Id) (h : Inv w) : Inv (Engine.advance w id).2 := by
  obtain ⟨h1, h2, h3⟩ := h
  unfold Engine.advance TransactionCache.get
  cases hc : w.engine.cache id with
  | none => exact ⟨h1, h2, h3⟩
  | some t0 =>
    refine ⟨h1, ?_, ?_⟩
    · intro k
      dsimp only
      by_cases hk : k = id
      · have := h2 id
        simp [hk, hc] at this ⊢
        exact this
      · simp [hk, h2 k]
    · intro k t
      dsimp only
      by_cases hk : k = id
      · simp only [hk, if_true, Option.some.injEq]
        intro ht
        rw [← ht]
        exact h3 id t0 hc
      · simp only [hk, if_false]
        exact h3 k t

theorem inv_finalize (e : Engine) (log log2 : CommitLog) (t : Transaction)
    (h : Inv { engine := e, clog := log }) :
    Inv { engine := Engine.finalize e t, clog := log2 } := by
  obtain ⟨h1, h2, h3⟩ := h
  refine ⟨?_, ?_, ?_⟩
  · intro x hx
    simp only [Engine.finalize, Snapshot.remove, List.mem_filter] at hx ⊢
    exact h1 x hx.1
  · intro k
    simp only [Engine.finalize, Snapshot.remove, TransactionCache.del, List.mem_filter]
    by_cases hk : k = t.id
    · simp [hk]
    · have := h2 k
      simp only at this
      simp [hk, this]
  · intro k t2
    simp only [Engine.finalize, TransactionCache.del]
    by_cases hk : k = t.id
    · simp [hk]
    · simp only [hk, if_false]
      exact h3 k t2

theorem inv_of_engine_eq (w v : World) (h : Inv w) (he : v.engine = w.engine) : Inv v := by
  unfold Inv at h ⊢
  rw [he]
  exact h

theorem inv_call (cfg : Absent) (w : World) (c : Call) (h : Inv w) :
    Inv (Engine.call cfg w c) := by
  cases c with
  | begin => exact inv_begin cfg w h
  | advance id => exact inv_advance w id h
  | commit t =>
    rcases commit_engine cfg w t with he | he
    · exact inv_of_engine_eq w _ h he
    · exact inv_of_engine_eq _ _ (inv_finalize w.engine w.clog w.clog t h) he
  | abort t =>
    rcases abort_engine cfg w t with he | he
    · exact inv_of_engine_eq w _ h he
    · exact inv_of_engine_eq _ _ (inv_finalize w.engine w.clog w.clog t h) he

theorem inv_run (cfg : Absent) (cs : List Call) (w : World) (h : Inv w) :
    Inv (Engine.run cfg cs w) := by
  induction cs generalizing w with
  | nil => exact h
  | cons c cs ih => exact ih (Engine.call cfg w c) (inv_call cfg w c h)

theorem cache_entry_call (cfg : Absent) (v : World) (c : Call) (k : Id) (S : Snapshot)
    (hk : k ≤ v.engine.counter)
    (h : ∀ t, v.engine.cache k = some t → t.id = k ∧ t.snapshot = S) :
    ∀ t, (Engine.call cfg v c).engine.cache k = some t → t.id = k ∧ t.snapshot = S := by
  have hfin : ∀ u t, (Engine.finalize v.engine u).cache k = some t →
      t.id = k ∧ t.snapshot = S := by
    intro u t
    simp only [Engine.finalize, TransactionCache.del]
    by_cases hu : k = u.id
    · simp [hu]
    · simp only [hu, if_false]
      exact h t
  cases c with
  | begin =>
    intro t
    simp only [Engine.call, Engine.begin, SimpleCounter.next, TransactionCache.put]
    have hne : k ≠ v.engine.counter + 1 := Nat.ne_of_lt (Nat.lt_succ_of_le hk)
    simp only [hne, if_false]
    exact h t
  | advance id =>
    intro t
    simp only [Engine.call, Engine.advance, TransactionCache.get]
    cases hc : v.engine.cache id with
    | none => exact h t
    | some t0 =>
      dsimp only
      by_cases hid : k = id
      · subst hid
        simp only [if_true, Option.some.injEq]
        intro ht
        rw [← ht]
        exact h t0 hc
      · simp only [hid, if_false]
        exact h t
  | commit u =>
    intro t
    rcases commit_engine cfg v u with he | he
    · simp only [Engine.call, he]
      exact h t
    · simp only [Engine.call, he]
      exact hfin u t
  | abort u =>
    intro t
    rcases abort_engine cfg v u with he | he
    · simp only [Engine.call, he]
      exact h t
    · simp only [Engine.call, he]
      exact hfin u t

theorem cache_entry_run (cfg : Absent) (cs : List Call) (v : World) (k : Id) (S : Snapshot)
    (hk : k ≤ v.engine.counter)
    (h : ∀ t, v.engine.cache k = some t → t.id = k ∧ t.snapshot = S) :
    ∀ t, (Engine.run cfg cs v).engine.cache k = some t → t.id = k ∧ t.snapshot = S := by
  induction cs generalizing v with
  | nil => exact h
  | cons c cs ih =>
    exact ih (Engine.call cfg v c) (Nat.le_trans hk (counter_le_call cfg v c))
      (cache_entry_call cfg v c k S hk h)

theorem not_visible_of_mem_snapshot (log : CommitLog) (t : Transaction) (x : Id)
    (hne : x ≠ t.id) (hmem : x ∈ t.snapshot) :
    visible IsolationLevel.SNAPSHOT_ISOLATION log t x = false := by
  simp [visible, hne, hmem]

theorem set_keeps_terminal (cfg : Absent) (log : CommitLog) (id k : Id) (s : Status)
    (hk : log k ≠ Status.Unknown) : (CommitLog.set cfg log id s).2 k = log k := by
  rcases set_cases cfg log id s with h | ⟨hu, h⟩
  · rw [h]
  · rw [h]
    have hne : k ≠ id := fun e => hk (e ▸ hu)
    simp [hne]

theorem commit_clog (cfg : Absent) (w : World) (t : Transaction) :
    (Engine.commit cfg w t).2.clog = (CommitLog.set cfg w.clog t.id Status.Committed).2 := by
  unfold Engine.commit CommitLog.set_committed
  split <;> rename_i heq <;> rw [heq]

theorem abort_clog (cfg : Absent) (w : World) (t : Transaction) :
    (Engine.abort cfg w t).2.clog = (CommitLog.set cfg w.clog t.id Status.Aborted).2 := by
  unfold Engine.abort CommitLog.set_aborted
  split <;> rename_i heq <;> rw [heq]

theorem terminal_call (cfg : Absent) (w : World) (c : Call) (k : Id)
    (hk : w.clog k ≠ Status.Unknown) : (Engine.call cfg w c).clog k = w.clog k := by
  cases c with
  | begin => rfl
  | advance id => simp [Engine.call, (advance_engine w id).2.2]
  | commit t => simp only [Engine.call, commit_clog]; exact set_keeps_terminal cfg _ _ _ _ hk
  | abort t => simp only [Engine.call, abort_clog]; exact set_keeps_terminal cfg _ _ _ _ hk

theorem terminal_run (cfg : Absent) (cs : List Call) (w : World) (k : Id)
    (hk : w.clog k ≠ Status.Unknown) : (Engine.run cfg cs w).clog k = w.clog k := by
  induction cs generalizing w with
  | nil => rfl
  | cons c cs ih =>
    have h1 := terminal_call cfg w c k hk
    have h2 := ih (Engine.call cfg w c) (by rw [h1]; exact hk)
    exact h2.trans h1

theorem commit_of_unknown (cfg : Absent) (w : World) (t : Transaction)
    (h : w.clog t.id = Status.Unknown) :
    Engine.commit cfg w t =
      (Except.ok (), { engine := Engine.finalize w.engine t,
                       clog := fun k => if k = t.id then Status.Committed else w.clog k }) := by
  unfold Engine.commit CommitLog.set_committed
  rw [set_unknown cfg w.clog t.id Status.Committed h]

theorem abort_of_unknown (cfg : Absent) (w : World) (t : Transaction)
    (h : w.clog t.id = Status.Unknown) :
    Engine.abort cfg w t =
      (Except.ok (), { engine := Engine.finalize w.engine t,
                       clog := fun k => if k = t.id then Status.Aborted else w.clog k }) := by
  unfold Engine.abort CommitLog.set_aborted
  rw [set_unknown cfg w.clog t.id Status.Aborted h]

theorem set_terminal_other (cfg : Absent) (log : CommitLog) (id : Id) (s : Status)
    (hu : log id ≠ Status.Unknown) (hs : log id ≠ s) :
    CommitLog.set cfg log id s =
      (if cfg.asserts = true then Except.error Failure.ContractViolation else Except.ok (),
        log) := by
  unfold CommitLog.set
  cases h : log id with
  | Unknown => exact absurd h hu
  | Committed =>
    have hs2 : Status.Committed ≠ s := fun e => hs (h.trans e)
    dsimp only
    rw [if_neg hs2]
    split_ifs <;> rfl
  | Aborted =>
    have hs2 : Status.Aborted ≠ s := fun e => hs (h.trans e)
    dsimp only
    rw [if_neg hs2]
    split_ifs <;> rfl

theorem finalize_idem (e : Engine) (t : Transaction) :
    Engine.finalize (Engine.finalize e t) t = Engine.finalize e t := by
  have hc : TransactionCache.del (TransactionCache.del e.cache t.id) t.id =
      TransactionCache.del e.cache t.id := by
    funext k
    simp only [TransactionCache.del]
    split_ifs <;> rfl
  have ha : Snapshot.remove (Snapshot.remove e.active t.id) t.id =
      Snapshot.remove e.active t.id := by
    simp [Snapshot.remove, List.filter_filter]
  simp only [Engine.finalize, hc, ha]

theorem abort_after_commit (cfg : Absent) (e : Engine) (log : CommitLog) (t : Transaction)
    (h : log t.id = Status.Committed) :
    Engine.abort cfg { engine := Engine.finalize e t, clog := log } t =
      (if cfg.asserts = true then Except.error Failure.ContractViolation else Except.ok (),
        { engine := Engine.finalize e t, clog := log }) := by
  unfold Engine.abort CommitLog.set_aborted
  rw [set_terminal_other cfg log t.id Status.Aborted (by rw [h]; decide) (by rw [h]; decide)]
  cases cfg.asserts
  · simp [finalize_idem]
  · simp

theorem commit_after_abort (cfg : Absent) (e : Engine) (log : CommitLog) (t : Transaction)
    (h : log t.id = Status.Aborted) :
    Engine.commit cfg { engine := Engine.finalize e t, clog := log } t =
      (if cfg.asserts = true then Except.error Failure.ContractViolation else Except.ok (),
        { engine := Engine.finalize e t, clog := log }) := by
  unfold Engine.commit CommitLog.set_committed
  rw [set_terminal_other cfg log t.id Status.Committed (by rw [h]; decide) (by rw [h]; decide)]
  cases cfg.asserts
  · simp [finalize_idem]
  · simp

theorem advances_keep (cfg : Absent) (ids : List Id) (w : World) :
    (Engine.run cfg (ids.map Call.advance) w).engine.active = w.engine.active ∧
    (Engine.run cfg (ids.map Call.advance) w).clog = w.clog ∧
    (Engine.run cfg (ids.map Call.advance) w).engine.counter = w.engine.counter := by
  induction ids generalizing w with
  | nil => exact ⟨rfl, rfl, rfl⟩
  | cons i ids ih =>
    obtain ⟨h1, h2, h3⟩ := ih (Engine.call cfg w (Call.advance i))
    obtain ⟨g1, g2, g3⟩ := advance_engine w i
    exact ⟨h1.trans g2, h2.trans g3, h3.trans g1⟩

theorem advance_of_some (w : World) (id : Id) (t : Transaction)
    (h : w.engine.cache id = some t) :
    Engine.advance w id =
      (Except.ok { id := t.id, cid := t.cid + 1, snapshot := t.snapshot },
        World.mk
          (Engine.mk w.engine.counter w.engine.active
            (fun k => if k = id then some (Transaction.mk t.id (t.cid + 1) t.snapshot)
              else w.engine.cache k))
          w.clog) := by
  unfold Engine.advance TransactionCache.get
  rw [h]

theorem advance_of_none (w : World) (id : Id) (h : w.engine.cache id = none) :
    Engine.advance w id =
      (Except.error (Failure.TransactionError "transaction does not exist"), w) := by
  unfold Engine.advance TransactionCache.get
  rw [h]

theorem advance_repeat (cfg : Absent) (n : Nat) (w : World) (i : Id) (t : Transaction)
    (h : w.engine.cache i = some t) :
    (Engine.run cfg (List.replicate n (Call.advance i)) w).engine.cache i =
      some { id := t.id, cid := t.cid + n, snapshot := t.snapshot } ∧
    (∀ j, j ≠ i →
      (Engine.run cfg (List.replicate n (Call.advance i)) w).engine.cache j
        = w.engine.cache j) := by
  induction n generalizing w t with
  | zero => exact ⟨h, fun _ _ => rfl⟩
  | succ n ih =>
    have hstep : (Engine.call cfg w (Call.advance i)).engine.cache i =
        some { id := t.id, cid := t.cid + 1, snapshot := t.snapshot } := by
      simp [Engine.call, advance_of_some w i t h]
    have hother : ∀ j, j ≠ i →
        (Engine.call cfg w (Call.advance i)).engine.cache j = w.engine.cache j := by
      intro j hj
      simp [Engine.call, advance_of_some w i t h, hj]
    obtain ⟨h1, h2⟩ := ih (Engine.call cfg w (Call.advance i)) _ hstep
    constructor
    · simp only [List.replicate_succ, Engine.run, List.foldl_cons] at h1 ⊢
      rw [h1]
      simp [Nat.add_assoc, Nat.add_comm 1 n]
    · intro j hj
      simp only [List.replicate_succ, Engine.run, List.foldl_cons] at h2 ⊢
      rw [h2 j hj]
      exact hother j hj

theorem loginv_finalize (w : World) (t : Transaction) (s : Status)
    (hi : Inv w) (hl : LogInv w) (ht : t.id ∈ w.engine.active) :
    LogInv { engine := Engine.finalize w.engine t,
             clog := fun k => if k = t.id then s else w.clog k } := by
  intro x hx
  by_cases hxt : x = t.id
  · subst hxt
    exact ⟨hi.1 _ ht, by simp [Engine.finalize, Snapshot.remove]⟩
  · simp only [hxt, if_false] at hx
    obtain ⟨h1, h2⟩ := hl x hx
    refine ⟨h1, ?_⟩
    simp only [Engine.finalize, Snapshot.remove, List.mem_filter]
    exact fun hm => h2 hm.1

theorem active_unknown (w : World) (hl : LogInv w) (x : Id) (hx : x ∈ w.engine.active) :
    w.clog x = Status.Unknown := by
  by_contra hne
  exact (hl x hne).2 hx

theorem loginv_call (cfg : Absent) (w : World) (c : Call) (hi : Inv w) (hl : LogInv w)
    (hd : Engine.disciplined cfg [c] w) : LogInv (Engine.call cfg w c) := by
  cases c with
  | begin =>
    intro x hx
    obtain ⟨h1, h2⟩ := hl x hx
    refine ⟨Nat.le_succ_of_le h1, ?_⟩
    simp only [Engine.call, Engine.begin, SimpleCounter.next, Snapshot.insert,
      List.mem_append, List.mem_singleton]
    rintro (hm | hm)
    · exact h2 hm
    · exact absurd h1 (by rw [hm]; exact Nat.not_succ_le_self _)
  | advance id =>
    obtain ⟨g1, g2, g3⟩ := advance_engine w id
    intro x hx
    simp only [Engine.call, g1, g2, g3] at hx ⊢
    exact hl x hx
  | commit t =>
    have hu := active_unknown w hl t.id hd.1
    simp only [Engine.call, commit_of_unknown cfg w t hu]
    exact loginv_finalize w t Status.Committed hi hl hd.1
  | abort t =>
    have hu := active_unknown w hl t.id hd.1
    simp only [Engine.call, abort_of_unknown cfg w t hu]
    exact loginv_finalize w t Status.Aborted hi hl hd.1

theorem disciplined_head (cfg : Absent) (c : Call) (cs : List Call) (w : World)
    (hd : Engine.disciplined cfg (c :: cs) w) :
    Engine.disciplined cfg [c] w ∧ Engine.disciplined cfg cs (Engine.call cfg w c) := by
  cases c with
  | begin => exact ⟨trivial, hd⟩
  | advance id => exact ⟨trivial, hd⟩
  | commit t => exact ⟨⟨hd.1, trivial⟩, hd.2⟩
  | abort t => exact ⟨⟨hd.1, trivial⟩, hd.2⟩

theorem loginv_run (cfg : Absent) (cs : List Call) (w : World) (hi : Inv w) (hl : LogInv w)
    (hd : Engine.disciplined cfg cs w) : LogInv (Engine.run cfg cs w) := by
  induction cs generalizing w with
  | nil => exact hl
  | cons c cs ih =>
    obtain ⟨h1, h2⟩ := disciplined_head cfg c cs w hd
    exact ih (Engine.call cfg w c) (inv_call cfg w c hi) (loginv_call cfg w c hi hl h1) h2

/-- In a state reached from a fresh engine by disciplined use, every
transaction whose id is in the active set is `Active`: the commit log holds no
outcome for it. -/
theorem active_of_disciplined (cfg : Absent) (cs : List Call) (t : Transaction)
    (hd : Engine.disciplined cfg cs fresh)
    (ht : t.id ∈ (Engine.run cfg cs fresh).engine.active) :
    Active (Engine.run cfg cs fresh) t := by
  have hl : LogInv fresh := fun x hx => absurd rfl hx
  exact ⟨ht, active_unknown _ (loginv_run cfg cs fresh inv_fresh hl hd) t.id ht⟩

/-! ## Claims about `begin` -/

/-- C1: in the state reached from a fresh engine by any sequence of calls, a
call to begin returns an id strictly greater than the id returned by any earlier
begin (the two begins are separated by an arbitrary sequence of calls), so the
two ids differ. -/
theorem C1_begin_ids_strictly_increase (cfg : Absent) (pre mid : List Call) :
    (Engine.begin cfg (Engine.run cfg pre fresh)).1.id <
      (Engine.begin cfg
        (Engine.run cfg mid (Engine.begin cfg (Engine.run cfg pre fresh)).2)).1.id ∧
    (Engine.begin cfg (Engine.run cfg pre fresh)).1.id ≠
      (Engine.begin cfg
        (Engine.run cfg mid (Engine.begin cfg (Engine.run cfg pre fresh)).2)).1.id := by
  have hlt : (Engine.begin cfg (Engine.run cfg pre fresh)).1.id <
      (Engine.begin cfg
        (Engine.run cfg mid (Engine.begin cfg (Engine.run cfg pre fresh)).2)).1.id := by
    rw [begin_id, begin_id]
    have h := counter_le_run cfg mid (Engine.begin cfg (Engine.run cfg pre fresh)).2
    rw [begin_counter] at h
    exact Nat.lt_succ_of_le h
  exact ⟨hlt, Nat.ne_of_lt hlt⟩

/-- C2: in every engine state, the transaction returned by begin has as its
snapshot the active set as it was just before the call, and afterwards the
active set holds exactly the prior ids and the new id. -/
theorem C2_begin_snapshot_and_active (cfg : Absent) (w : World) :
    (Engine.begin cfg w).1.snapshot = w.engine.active ∧
    (Engine.begin cfg w).1.id ∈ (Engine.begin cfg w).2.engine.active ∧
    (∀ x, x ∈ (Engine.begin cfg w).2.engine.active ↔
      (x ∈ w.engine.active ∨ x = (Engine.begin cfg w).1.id)) := by
  refine ⟨rfl, ?_, ?_⟩
  · simp [Engine.begin, Snapshot.insert]
  · intro x
    simp [Engine.begin, Snapshot.insert]

/-- C5: on a fresh engine the first begin returns id 1 with an empty snapshot,
and a second begin made while the first transaction is still active returns id 2
with snapshot exactly {1}. -/
theorem C5_first_two_begins (cfg : Absent) :
    (Engine.begin cfg fresh).1.id = 1 ∧
    (Engine.begin cfg fresh).1.snapshot = [] ∧
    (Engine.begin cfg (Engine.begin cfg fresh).2).1.id = 2 ∧
    (Engine.begin cfg (Engine.begin cfg fresh).2).1.snapshot = [1] := by
  refine ⟨rfl, rfl, rfl, rfl⟩

/-! ## Visibility of a concurrent transaction -/

/-- C3: when T2 is begun in a state reached from a fresh engine in which T1 is
in the active set, T1's id is in T2's snapshot; after any later sequence of calls
(a commit of T1 and advances of T2 included) the transaction registered under
T2's id still has T2's id and T2's snapshot; and under the SNAPSHOT_ISOLATION
rule T1's id is not visible to T2 (as returned by begin, or as registered later),
whatever the commit log has come to hold. -/
theorem C3_snapshot_isolation_hides_concurrent (cfg : Absent) (pre post : List Call)
    (t1 : Transaction) (h1 : t1.id ∈ (Engine.run cfg pre fresh).engine.active) :
    t1.id ∈ (Engine.begin cfg (Engine.run cfg pre fresh)).1.snapshot ∧
    (∀ t, (Engine.run cfg post (Engine.begin cfg (Engine.run cfg pre fresh)).2).engine.cache
          (Engine.begin cfg (Engine.run cfg pre fresh)).1.id = some t →
        t.id = (Engine.begin cfg (Engine.run cfg pre fresh)).1.id ∧
        t.snapshot = (Engine.begin cfg (Engine.run cfg pre fresh)).1.snapshot) ∧
    (∀ t, (t = (Engine.begin cfg (Engine.run cfg pre fresh)).1 ∨
          (Engine.run cfg post (Engine.begin cfg (Engine.run cfg pre fresh)).2).engine.cache
            (Engine.begin cfg (Engine.run cfg pre fresh)).1.id = some t) →
        visible IsolationLevel.SNAPSHOT_ISOLATION
          (Engine.run cfg post (Engine.begin cfg (Engine.run cfg pre fresh)).2).clog t t1.id
          = false) := by
  have hinv : Inv (Engine.run cfg pre fresh) := inv_run cfg pre fresh inv_fresh
  have hle : t1.id ≤ (Engine.run cfg pre fresh).engine.counter := hinv.1 _ h1
  have hne : t1.id ≠ (Engine.begin cfg (Engine.run cfg pre fresh)).1.id := by
    rw [begin_id]
    exact Nat.ne_of_lt (Nat.lt_succ_of_le hle)
  have hmem : t1.id ∈ (Engine.begin cfg (Engine.run cfg pre fresh)).1.snapshot := h1
  have hcache := cache_entry_run cfg post (Engine.begin cfg (Engine.run cfg pre fresh)).2
    (Engine.begin cfg (Engine.run cfg pre fresh)).1.id
    (Engine.begin cfg (Engine.run cfg pre fresh)).1.snapshot
    (by rw [begin_id, begin_counter])
    (by
      intro t
      simp only [Engine.begin, SimpleCounter.next, TransactionCache.put, if_true,
        Option.some.injEq]
      intro ht
      rw [← ht]
      exact ⟨rfl, rfl⟩)
  refine ⟨hmem, hcache, ?_⟩
  intro t ht
  rcases ht with ht | ht
  · rw [ht]
    exact not_visible_of_mem_snapshot _ _ _ hne hmem
  · obtain ⟨hid, hsnap⟩ := hcache t ht
    exact not_visible_of_mem_snapshot _ _ _ (by rw [hid]; exact hne) (by rw [hsnap]; exact hmem)

/-- Witness for C3: T1 (id 1) is begun, T2 is begun, then T1 commits; id 1 is
committed in the log and still not visible to T2 under SNAPSHOT_ISOLATION. -/
theorem C3_snapshot_isolation_hides_concurrent_witness :
    (1 : Id) ∈ (Engine.run ⟨1, true⟩ [Call.begin] fresh).engine.active ∧
    (Engine.run ⟨1, true⟩ [Call.commit ⟨1, 1, []⟩]
      (Engine.begin ⟨1, true⟩ (Engine.run ⟨1, true⟩ [Call.begin] fresh)).2).clog 1
      = Status.Committed ∧
    visible IsolationLevel.SNAPSHOT_ISOLATION
      (Engine.run ⟨1, true⟩ [Call.commit ⟨1, 1, []⟩]
        (Engine.begin ⟨1, true⟩ (Engine.run ⟨1, true⟩ [Call.begin] fresh)).2).clog
      (Engine.begin ⟨1, true⟩ (Engine.run ⟨1, true⟩ [Call.begin] fresh)).1 1 = false :=
  ⟨by decide, by decide,
    (C3_snapshot_isolation_hides_concurrent ⟨1, true⟩ [Call.begin] [Call.commit ⟨1, 1, []⟩]
      ⟨1, 1, []⟩ (by decide)).2.2 _ (Or.inl rfl)⟩

/-- C4: for a transaction T1 that is active, commit(T1) returns and leaves
CommitLog[T1.id] = Committed; the entry stays Committed through any later
sequence of calls, so under the READ_COMMITTED rule T1's id is visible to every
transaction T2, whatever T2's id and snapshot are. -/
theorem C4_read_committed_sees_commit (cfg : Absent) (w : World) (t1 t2 : Transaction)
    (post : List Call) (h : Active w t1) :
    (Engine.commit cfg w t1).1 = Except.ok () ∧
    (Engine.commit cfg w t1).2.clog t1.id = Status.Committed ∧
    (Engine.run cfg post (Engine.commit cfg w t1).2).clog t1.id = Status.Committed ∧
    visible IsolationLevel.READ_COMMITTED
      (Engine.run cfg post (Engine.commit cfg w t1).2).clog t2 t1.id = true := by
  have hc := commit_of_unknown cfg w t1 h.2
  have hcl : (Engine.commit cfg w t1).2.clog t1.id = Status.Committed := by
    rw [hc]; simp
  have hrun : (Engine.run cfg post (Engine.commit cfg w t1).2).clog t1.id = Status.Committed := by
    rw [terminal_run cfg post _ t1.id (by rw [hcl]; decide)]
    exact hcl
  refine ⟨by rw [hc], hcl, hrun, ?_⟩
  simp [visible, hrun]

/-- Witness for C4: T1 (id 1) and T2 (id 2, snapshot {1}) are active, T1
commits, T2 advances; id 1 is then visible to T2 under READ_COMMITTED. -/
theorem C4_read_committed_sees_commit_witness :
    Active (Engine.run ⟨1, true⟩ [Call.begin, Call.begin] fresh) ⟨1, 1, []⟩ ∧
    visible IsolationLevel.READ_COMMITTED
      (Engine.run ⟨1, true⟩ [Call.advance 2]
        (Engine.commit ⟨1, true⟩ (Engine.run ⟨1, true⟩ [Call.begin, Call.begin] fresh)
          ⟨1, 1, []⟩).2).clog ⟨2, 1, [1]⟩ 1 = true :=
  ⟨⟨by decide, by decide⟩,
    (C4_read_committed_sees_commit ⟨1, true⟩
      (Engine.run ⟨1, true⟩ [Call.begin, Call.begin] fresh) ⟨1, 1, []⟩ ⟨2, 1, [1]⟩
      [Call.advance 2] ⟨by decide, by decide⟩).2.2.2⟩

/-! ## Claims about `commit` and `abort` -/

/-- C6: for an active transaction T, commit(T) followed by abort(T), and
abort(T) followed by commit(T), never both take effect: the first call returns
and records its outcome, the second either fails in the commit log's assertion
or returns having changed nothing, and in both cases the state after the second
call is the state before it, so the CommitLog entry written by the first call is
not changed. -/
theorem C6_commit_abort_never_both (cfg : Absent) (w : World) (t : Transaction)
    (h : Active w t) :
    ((Engine.commit cfg w t).1 = Except.ok () ∧
      (Engine.commit cfg w t).2.clog t.id = Status.Committed ∧
      ((Engine.abort cfg (Engine.commit cfg w t).2 t).1
          = Except.error Failure.ContractViolation ∨
        (Engine.abort cfg (Engine.commit cfg w t).2 t).1 = Except.ok ()) ∧
      (Engine.abort cfg (Engine.commit cfg w t).2 t).2 = (Engine.commit cfg w t).2 ∧
      (Engine.abort cfg (Engine.commit cfg w t).2 t).2.clog t.id = Status.Committed) ∧
    ((Engine.abort cfg w t).1 = Except.ok () ∧
      (Engine.abort cfg w t).2.clog t.id = Status.Aborted ∧
      ((Engine.commit cfg (Engine.abort cfg w t).2 t).1
          = Except.error Failure.ContractViolation ∨
        (Engine.commit cfg (Engine.abort cfg w t).2 t).1 = Except.ok ()) ∧
      (Engine.commit cfg (Engine.abort cfg w t).2 t).2 = (Engine.abort cfg w t).2 ∧
      (Engine.commit cfg (Engine.abort cfg w t).2 t).2.clog t.id = Status.Aborted) := by
  constructor
  · rw [commit_of_unknown cfg w t h.2]
    dsimp only
    rw [abort_after_commit cfg w.engine _ t (by simp)]
    refine ⟨rfl, by simp, ?_, rfl, by simp⟩
    cases cfg.asserts
    · right; simp
    · left; simp
  · rw [abort_of_unknown cfg w t h.2]
    dsimp only
    rw [commit_after_abort cfg w.engine _ t (by simp)]
    refine ⟨rfl, by simp, ?_, rfl, by simp⟩
    cases cfg.asserts
    · right; simp
    · left; simp

/-- Witness for C6: on the engine with one active transaction (id 1), commit
then abort leaves CommitLog[1] = Committed and abort then commit leaves it
Aborted. -/
theorem C6_commit_abort_never_both_witness :
    Active (Engine.run ⟨1, true⟩ [Call.begin] fresh) ⟨1, 1, []⟩ ∧
    (Engine.abort ⟨1, true⟩
      (Engine.commit ⟨1, true⟩ (Engine.run ⟨1, true⟩ [Call.begin] fresh) ⟨1, 1, []⟩).2
      ⟨1, 1, []⟩).2.clog 1 = Status.Committed ∧
    (Engine.commit ⟨1, true⟩
      (Engine.abort ⟨1, true⟩ (Engine.run ⟨1, true⟩ [Call.begin] fresh) ⟨1, 1, []⟩).2
      ⟨1, 1, []⟩).2.clog 1 = Status.Aborted :=
  ⟨⟨by decide, by decide⟩,
    (C6_commit_abort_never_both ⟨1, true⟩ (Engine.run ⟨1, true⟩ [Call.begin] fresh)
      ⟨1, 1, []⟩ ⟨by decide, by decide⟩).1.2.2.2.2,
    (C6_commit_abort_never_both ⟨1, true⟩ (Engine.run ⟨1, true⟩ [Call.begin] fresh)
      ⟨1, 1, []⟩ ⟨by decide, by decide⟩).2.2.2.2.2⟩

/-- C7: for an active transaction T, commit(T) returns, sets CommitLog[T.id] to
Committed, and removes T.id from the active set and from the lookup; for every
other id the CommitLog entry, membership in the active set and the lookup entry
are unchanged, and so is the counter of started transactions. -/
theorem C7_commit_effect (cfg : Absent) (w : World) (t : Transaction) (h : Active w t) :
    (Engine.commit cfg w t).1 = Except.ok () ∧
    (Engine.commit cfg w t).2.clog t.id = Status.Committed ∧
    t.id ∉ (Engine.commit cfg w t).2.engine.active ∧
    TransactionCache.get (Engine.commit cfg w t).2.engine.cache t.id = none ∧
    (∀ j, j ≠ t.id →
      (Engine.commit cfg w t).2.clog j = w.clog j ∧
      (j ∈ (Engine.commit cfg w t).2.engine.active ↔ j ∈ w.engine.active) ∧
      TransactionCache.get (Engine.commit cfg w t).2.engine.cache j
        = TransactionCache.get w.engine.cache j) ∧
    Engine.count (Engine.commit cfg w t).2 = Engine.count w := by
  rw [commit_of_unknown cfg w t h.2]
  refine ⟨rfl, by simp, ?_, ?_, ?_, rfl⟩
  · simp [Engine.finalize, Snapshot.remove]
  · simp [Engine.finalize, TransactionCache.del, TransactionCache.get]
  · intro j hj
    simp [Engine.finalize, Snapshot.remove, TransactionCache.del, TransactionCache.get, hj]

/-- Witness for C7: with transactions 1 and 2 active, commit of transaction 1
leaves exactly transaction 2 active. -/
theorem C7_commit_effect_witness :
    Active (Engine.run ⟨1, true⟩ [Call.begin, Call.begin] fresh) ⟨1, 1, []⟩ ∧
    (Engine.commit ⟨1, true⟩ (Engine.run ⟨1, true⟩ [Call.begin, Call.begin] fresh)
      ⟨1, 1, []⟩).2.clog 1 = Status.Committed ∧
    (Engine.commit ⟨1, true⟩ (Engine.run ⟨1, true⟩ [Call.begin, Call.begin] fresh)
      ⟨1, 1, []⟩).2.engine.active = [2] :=
  ⟨⟨by decide, by decide⟩,
    (C7_commit_effect ⟨1, true⟩ (Engine.run ⟨1, true⟩ [Call.begin, Call.begin] fresh)
      ⟨1, 1, []⟩ ⟨by decide, by decide⟩).2.1,
    by decide⟩

/-- C8: for an active transaction T, and whatever advance calls were made
before, abort(T) returns, sets CommitLog[T.id] to Aborted, and removes T.id from
the active set and from the lookup; every other id keeps its CommitLog entry,
its membership in the active set and its lookup entry. -/
theorem C8_abort_effect (cfg : Absent) (w : World) (t : Transaction) (ids : List Id)
    (h : Active w t) :
    (Engine.abort cfg (Engine.run cfg (ids.map Call.advance) w) t).1 = Except.ok () ∧
    (Engine.abort cfg (Engine.run cfg (ids.map Call.advance) w) t).2.clog t.id
      = Status.Aborted ∧
    t.id ∉ (Engine.abort cfg (Engine.run cfg (ids.map Call.advance) w) t).2.engine.active ∧
    TransactionCache.get
      (Engine.abort cfg (Engine.run cfg (ids.map Call.advance) w) t).2.engine.cache t.id
      = none ∧
    (∀ j, j ≠ t.id →
      (Engine.abort cfg (Engine.run cfg (ids.map Call.advance) w) t).2.clog j = w.clog j ∧
      (j ∈ (Engine.abort cfg (Engine.run cfg (ids.map Call.advance) w) t).2.engine.active
        ↔ j ∈ w.engine.active) ∧
      TransactionCache.get
        (Engine.abort cfg (Engine.run cfg (ids.map Call.advance) w) t).2.engine.cache j
        = TransactionCache.get (Engine.run cfg (ids.map Call.advance) w).engine.cache j) := by
  obtain ⟨ha, hl, _⟩ := advances_keep cfg ids w
  have hu : (Engine.run cfg (ids.map Call.advance) w).clog t.id = Status.Unknown := by
    rw [hl]; exact h.2
  rw [abort_of_unknown cfg _ t hu]
  refine ⟨rfl, by simp, ?_, ?_, ?_⟩
  · simp [Engine.finalize, Snapshot.remove]
  · simp [Engine.finalize, TransactionCache.del, TransactionCache.get]
  · intro j hj
    simp [Engine.finalize, Snapshot.remove, TransactionCache.del, TransactionCache.get, hj,
      ha, hl]

/-- Witness for C8: with transactions 1 and 2 active and three advance calls
made, abort of transaction 2 records Aborted and leaves exactly transaction 1
active. -/
theorem C8_abort_effect_witness :
    Active (Engine.run ⟨1, true⟩ [Call.begin, Call.begin] fresh) ⟨2, 1, [1]⟩ ∧
    (Engine.abort ⟨1, true⟩
      (Engine.run ⟨1, true⟩ ([2, 2, 1].map Call.advance)
        (Engine.run ⟨1, true⟩ [Call.begin, Call.begin] fresh)) ⟨2, 1, [1]⟩).2.clog 2
      = Status.Aborted ∧
    (Engine.abort ⟨1, true⟩
      (Engine.run ⟨1, true⟩ ([2, 2, 1].map Call.advance)
        (Engine.run ⟨1, true⟩ [Call.begin, Call.begin] fresh)) ⟨2, 1, [1]⟩).2.engine.active
      = [1] :=
  ⟨⟨by decide, by decide⟩,
    (C8_abort_effect ⟨1, true⟩ (Engine.run ⟨1, true⟩ [Call.begin, Call.begin] fresh)
      ⟨2, 1, [1]⟩ [2, 2, 1] ⟨by decide, by decide⟩).2.1,
    by decide⟩

/-! ## Claims about `advance` -/

/-- C9: in every state reached from a fresh engine and for every id, advance(id)
throws the "transaction does not exist" error exactly when id is not in the
active set, and returns a transaction exactly when it is; when it throws, the
state (counter, active set, lookup with every command id, commit log) is the
state before the call. -/
theorem C9_advance_fails_iff_inactive (cfg : Absent) (cs : List Call) (id : Id) :
    ((Engine.advance (Engine.run cfg cs fresh) id).1
        = Except.error (Failure.TransactionError "transaction does not exist")
      ↔ id ∉ (Engine.run cfg cs fresh).engine.active) ∧
    ((∃ t, (Engine.advance (Engine.run cfg cs fresh) id).1 = Except.ok t)
      ↔ id ∈ (Engine.run cfg cs fresh).engine.active) ∧
    (∀ e, (Engine.advance (Engine.run cfg cs fresh) id).1 = Except.error e →
      (Engine.advance (Engine.run cfg cs fresh) id).2 = Engine.run cfg cs fresh) := by
  have hinv := (inv_run cfg cs fresh inv_fresh).2.1 id
  cases hc : (Engine.run cfg cs fresh).engine.cache id with
  | none =>
    have hna : id ∉ (Engine.run cfg cs fresh).engine.active := by
      intro hm
      have := hinv.2 hm
      rw [hc] at this
      simp at this
    rw [advance_of_none _ id hc]
    refine ⟨⟨fun _ => hna, fun _ => rfl⟩, ⟨?_, fun hm => absurd hm hna⟩, fun _ _ => rfl⟩
    rintro ⟨t, ht⟩
    simp at ht
  | some t0 =>
    have ha : id ∈ (Engine.run cfg cs fresh).engine.active := hinv.1 (by rw [hc]; rfl)
    rw [advance_of_some _ id t0 hc]
    refine ⟨⟨?_, fun hn => absurd ha hn⟩, ⟨fun _ => ha, fun _ => ⟨_, rfl⟩⟩, ?_⟩
    · intro he
      simp at he
    · intro e he
      simp at he

/-- C10: in every state reached from a fresh engine, for an active id i the
lookup holds a transaction T with id i; advance(i) returns T with its command id
raised by one and its id and snapshot unchanged, and registers it under i; the
lookup entries of all other ids, the active set, the counter and the commit log
are unchanged; and n successive advance(i) calls leave T registered with command
id raised by exactly n, other entries untouched. -/
theorem C10_advance_effect (cfg : Absent) (cs : List Call) (i : Id) (n : Nat)
    (h : i ∈ (Engine.run cfg cs fresh).engine.active) :
    ∃ t, TransactionCache.get (Engine.run cfg cs fresh).engine.cache i = some t ∧
      t.id = i ∧
      (Engine.advance (Engine.run cfg cs fresh) i).1
        = Except.ok { id := t.id, cid := t.cid + 1, snapshot := t.snapshot } ∧
      TransactionCache.get (Engine.advance (Engine.run cfg cs fresh) i).2.engine.cache i
        = some { id := t.id, cid := t.cid + 1, snapshot := t.snapshot } ∧
      (∀ j, j ≠ i →
        TransactionCache.get (Engine.advance (Engine.run cfg cs fresh) i).2.engine.cache j
          = TransactionCache.get (Engine.run cfg cs fresh).engine.cache j) ∧
      (Engine.advance (Engine.run cfg cs fresh) i).2.engine.active
        = (Engine.run cfg cs fresh).engine.active ∧
      Engine.count (Engine.advance (Engine.run cfg cs fresh) i).2
        = Engine.count (Engine.run cfg cs fresh) ∧
      (Engine.advance (Engine.run cfg cs fresh) i).2.clog = (Engine.run cfg cs fresh).clog ∧
      TransactionCache.get
        (Engine.run cfg (List.replicate n (Call.advance i))
          (Engine.run cfg cs fresh)).engine.cache i
        = some { id := t.id, cid := t.cid + n, snapshot := t.snapshot } ∧
      (∀ j, j ≠ i →
        TransactionCache.get
          (Engine.run cfg (List.replicate n (Call.advance i))
            (Engine.run cfg cs fresh)).engine.cache j
          = TransactionCache.get (Engine.run cfg cs fresh).engine.cache j) := by
  have hinv := inv_run cfg cs fresh inv_fresh
  have hsome := (hinv.2.1 i).2 h
  cases hc : (Engine.run cfg cs fresh).engine.cache i with
  | none => rw [hc] at hsome; simp at hsome
  | some t =>
    obtain ⟨hr1, hr2⟩ := advance_repeat cfg n (Engine.run cfg cs fresh) i t hc
    refine ⟨t, hc, hinv.2.2 i t hc, ?_, ?_, ?_, ?_, ?_, ?_, hr1, hr2⟩
    · rw [advance_of_some _ i t hc]
    · rw [advance_of_some _ i t hc]; simp [TransactionCache.get]
    · intro j hj
      rw [advance_of_some _ i t hc]; simp [TransactionCache.get, hj]
    · exact (advance_engine _ i).2.1
    · exact (advance_engine _ i).1
    · exact (advance_engine _ i).2.2

/-- Witness for C10: after two begins and one advance of transaction 2, three
more advance(2) calls leave transaction 2 registered with command id 1 + 1 + 3,
its id and snapshot {1} as begun. -/
theorem C10_advance_effect_witness :
    (2 : Id) ∈ (Engine.run ⟨1, true⟩ [Call.begin, Call.begin, Call.advance 2]
      fresh).engine.active ∧
    TransactionCache.get
      (Engine.run ⟨1, true⟩ (List.replicate 3 (Call.advance 2))
        (Engine.run ⟨1, true⟩ [Call.begin, Call.begin, Call.advance 2] fresh)).engine.cache 2
      = some { id := 2, cid := 5, snapshot := [1] } ∧
    ∃ t, TransactionCache.get
        (Engine.run ⟨1, true⟩ [Call.begin, Call.begin, Call.advance 2] fresh).engine.cache 2
        = some t ∧ t.id = 2 :=
  ⟨by decide, by decide,
    (C10_advance_effect ⟨1, true⟩ [Call.begin, Call.begin, Call.advance 2] 2 3
      (by decide)).imp (fun _ ht => ⟨ht.1, ht.2.1⟩)⟩

/-! ## Finalizing a transaction that is not active -/

theorem finalize_inactive (w : World) (t : Transaction) (hi : Inv w)
    (h : t.id ∉ w.engine.active) : Engine.finalize w.engine t = w.engine := by
  have hnone : w.engine.cache t.id = none := by
    cases hc : w.engine.cache t.id with
    | none => rfl
    | some u => exact absurd ((hi.2.1 t.id).1 (by rw [hc]; rfl)) h
  have hc : TransactionCache.del w.engine.cache t.id = w.engine.cache := by
    funext k
    simp only [TransactionCache.del]
    by_cases hk : k = t.id
    · simp [hk, hnone]
    · simp [hk]
  have ha : Snapshot.remove w.engine.active t.id = w.engine.active := by
    simp only [Snapshot.remove, List.filter_eq_self]
    intro x hx
    have : x ≠ t.id := fun e => h (e ▸ hx)
    simp [this]
  simp only [Engine.finalize, hc, ha]

theorem set_other (cfg : Absent) (log : CommitLog) (id j : Id) (s : Status) (hj : j ≠ id) :
    (CommitLog.set cfg log id s).2 j = log j := by
  rcases set_cases cfg log id s with h | ⟨_, h⟩
  · rw [h]
  · rw [h]; simp [hj]

theorem set_not_transaction_error (cfg : Absent) (log : CommitLog) (id : Id) (s : Status)
    (msg : String) :
    (CommitLog.set cfg log id s).1 ≠ Except.error (Failure.TransactionError msg) := by
  unfold CommitLog.set
  cases log id
  · simp
  · dsimp only; split_ifs <;> simp
  · dsimp only; split_ifs <;> simp

theorem commit_result (cfg : Absent) (w : World) (t : Transaction) :
    (Engine.commit cfg w t).1 = (CommitLog.set cfg w.clog t.id Status.Committed).1 := by
  unfold Engine.commit CommitLog.set_committed
  split <;> rename_i heq <;> rw [heq]

theorem abort_result (cfg : Absent) (w : World) (t : Transaction) :
    (Engine.abort cfg w t).1 = (CommitLog.set cfg w.clog t.id Status.Aborted).1 := by
  unfold Engine.abort CommitLog.set_aborted
  split <;> rename_i heq <;> rw [heq]

/-- C11 (as the code has it): in a state reached from a fresh engine, commit(T)
and abort(T) on a transaction whose id is not in the active set never throw the
"no such transaction" error; they leave the engine (counter, active set,
lookup) and the CommitLog entries of all other ids as they were; and when no
outcome is recorded yet for T.id they return normally and record Committed,
respectively Aborted, for it. -/
theorem C11_finalize_inactive_unguarded (cfg : Absent) (cs : List Call) (t : Transaction)
    (h : t.id ∉ (Engine.run cfg cs fresh).engine.active) :
    (∀ msg, (Engine.commit cfg (Engine.run cfg cs fresh) t).1
        ≠ Except.error (Failure.TransactionError msg)) ∧
    (∀ msg, (Engine.abort cfg (Engine.run cfg cs fresh) t).1
        ≠ Except.error (Failure.TransactionError msg)) ∧
    (Engine.commit cfg (Engine.run cfg cs fresh) t).2.engine
      = (Engine.run cfg cs fresh).engine ∧
    (Engine.abort cfg (Engine.run cfg cs fresh) t).2.engine
      = (Engine.run cfg cs fresh).engine ∧
    (∀ j, j ≠ t.id →
      (Engine.commit cfg (Engine.run cfg cs fresh) t).2.clog j
        = (Engine.run cfg cs fresh).clog j ∧
      (Engine.abort cfg (Engine.run cfg cs fresh) t).2.clog j
        = (Engine.run cfg cs fresh).clog j) ∧
    ((Engine.run cfg cs fresh).clog t.id = Status.Unknown →
      (Engine.commit cfg (Engine.run cfg cs fresh) t).1 = Except.ok () ∧
      (Engine.commit cfg (Engine.run cfg cs fresh) t).2.clog t.id = Status.Committed ∧
      (Engine.abort cfg (Engine.run cfg cs fresh) t).1 = Except.ok () ∧
      (Engine.abort cfg (Engine.run cfg cs fresh) t).2.clog t.id = Status.Aborted) := by
  have hinv := inv_run cfg cs fresh inv_fresh
  have hfin := finalize_inactive _ t hinv h
  refine ⟨?_, ?_, ?_, ?_, ?_, ?_⟩
  · intro msg
    rw [commit_result]
    exact set_not_transaction_error cfg _ _ _ msg
  · intro msg
    rw [abort_result]
    exact set_not_transaction_error cfg _ _ _ msg
  · rcases commit_engine cfg (Engine.run cfg cs fresh) t with he | he
    · exact he
    · rw [he, hfin]
  · rcases abort_engine cfg (Engine.run cfg cs fresh) t with he | he
    · exact he
    · rw [he, hfin]
  · intro j hj
    rw [commit_clog, abort_clog]
    exact ⟨set_other cfg _ _ _ _ hj, set_other cfg _ _ _ _ hj⟩
  · intro hu
    rw [commit_of_unknown cfg _ t hu, abort_of_unknown cfg _ t hu]
    simp

/-- Witness for C11: with transaction 1 begun and committed, a second commit of
it changes nothing in the engine, and a commit of the never issued id 7 records
Committed for 7. -/
theorem C11_finalize_inactive_unguarded_witness :
    (7 : Id) ∉ (Engine.run ⟨1, true⟩ [Call.begin, Call.commit ⟨1, 1, []⟩] fresh).engine.active ∧
    (Engine.commit ⟨1, true⟩
      (Engine.run ⟨1, true⟩ [Call.begin, Call.commit ⟨1, 1, []⟩] fresh) ⟨7, 1, []⟩).2.engine
      = (Engine.run ⟨1, true⟩ [Call.begin, Call.commit ⟨1, 1, []⟩] fresh).engine :=
  ⟨by decide,
    (C11_finalize_inactive_unguarded ⟨1, true⟩ [Call.begin, Call.commit ⟨1, 1, []⟩]
      ⟨7, 1, []⟩ (by decide)).2.2.1⟩

/-- Counterexample to C11 as stated: on a fresh engine, where id 7 was never
issued, commit and abort of a transaction with id 7 both return normally (no
error is raised) and change the CommitLog entry of 7 from Unknown to Committed,
respectively Aborted. -/
theorem C11_counterexample :
    (7 : Id) ∉ fresh.engine.active ∧
    fresh.clog 7 = Status.Unknown ∧
    (Engine.commit ⟨1, true⟩ fresh ⟨7, 1, []⟩).1 = Except.ok () ∧
    (Engine.commit ⟨1, true⟩ fresh ⟨7, 1, []⟩).2.clog 7 = Status.Committed ∧
    (Engine.abort ⟨1, true⟩ fresh ⟨7, 1, []⟩).1 = Except.ok () ∧
    (Engine.abort ⟨1, true⟩ fresh ⟨7, 1, []⟩).2.clog 7 = Status.Aborted := by
  refine ⟨by decide, by decide, rfl, by decide, rfl, by decide⟩

/-! ## The reading methods: `last_known_active`, `size`, `count` -/

theorem sorted_call (cfg : Absent) (w : World) (c : Call)
    (hb : ∀ x ∈ w.engine.active, x ≤ w.engine.counter)
    (hs : List.Pairwise (fun a b => a < b) w.engine.active) :
    List.Pairwise (fun a b => a < b) (Engine.call cfg w c).engine.active := by
  have hfin : ∀ u, List.Pairwise (fun a b => a < b) (Engine.finalize w.engine u).active := by
    intro u
    exact List.Pairwise.filter _ hs
  cases c with
  | begin =>
    simp only [Engine.call, Engine.begin, SimpleCounter.next, Snapshot.insert]
    rw [List.pairwise_append]
    refine ⟨hs, List.pairwise_singleton _ _, ?_⟩
    intro a ha b hb2
    rw [List.mem_singleton] at hb2
    rw [hb2]
    exact Nat.lt_succ_of_le (hb a ha)
  | advance id =>
    simp only [Engine.call, (advance_engine w id).2.1]
    exact hs
  | commit t =>
    rcases commit_engine cfg w t with he | he
    · simp only [Engine.call, he]; exact hs
    · simp only [Engine.call, he]; exact hfin t
  | abort t =>
    rcases abort_engine cfg w t with he | he
    · simp only [Engine.call, he]; exact hs
    · simp only [Engine.call, he]; exact hfin t

theorem sorted_run (cfg : Absent) (cs : List Call) (w : World) (hi : Inv w)
    (hs : List.Pairwise (fun a b => a < b) w.engine.active) :
    List.Pairwise (fun a b => a < b) (Engine.run cfg cs w).engine.active := by
  induction cs generalizing w with
  | nil => exact hs
  | cons c cs ih =>
    exact ih (Engine.call cfg w c) (inv_call cfg w c hi) (sorted_call cfg w c hi.1 hs)

theorem remove_length (l : List Id) (a : Id) (hn : l.Nodup) (ha : a ∈ l) :
    (Snapshot.remove l a).length + 1 = l.length := by
  induction l with
  | nil => exact absurd ha (List.not_mem_nil a)
  | cons b l ih =>
    rw [List.nodup_cons] at hn
    by_cases hb : b = a
    · subst hb
      have hself : Snapshot.remove l b = l := by
        simp only [Snapshot.remove, List.filter_eq_self]
        intro x hx
        have : x ≠ b := fun e => hn.1 (e ▸ hx)
        simp [this]
      have : Snapshot.remove (b :: l) b = Snapshot.remove l b := by
        simp [Snapshot.remove]
      rw [this, hself, List.length_cons]
    · have hal : a ∈ l := by
        rcases List.mem_cons.1 ha with h | h
        · exact absurd h.symm hb
        · exact h
      have : Snapshot.remove (b :: l) a = b :: Snapshot.remove l a := by
        simp [Snapshot.remove, hb]
      rw [this, List.length_cons, List.length_cons, ih hn.2 hal]

theorem count_call (cfg : Absent) (w : World) (c : Call) :
    Engine.count (Engine.call cfg w c) = Engine.count w + (if c.is_begin then 1 else 0) := by
  cases c with
  | begin => rfl
  | advance id => exact (advance_engine w id).1
  | commit t =>
    rcases commit_engine cfg w t with he | he <;>
      simp [Engine.call, Engine.count, he, Engine.finalize, Call.is_begin]
  | abort t =>
    rcases abort_engine cfg w t with he | he <;>
      simp [Engine.call, Engine.count, he, Engine.finalize, Call.is_begin]

theorem count_run (cfg : Absent) (cs : List Call) (w : World) :
    Engine.count (Engine.run cfg cs w) = Engine.count w + cs.countP Call.is_begin := by
  induction cs generalizing w with
  | nil => rfl
  | cons c cs ih =>
    have h1 := ih (Engine.call cfg w c)
    simp only [Engine.run, List.foldl_cons] at h1 ⊢
    rw [h1, count_call, List.countP_cons, Nat.add_assoc, Nat.add_comm (List.countP _ cs)]

theorem size_call (cfg : Absent) (w : World) (c : Call) (hl : LogInv w)
    (hs : List.Pairwise (fun a b => a < b) w.engine.active)
    (hd : Engine.disciplined cfg [c] w) :
    Engine.size (Engine.call cfg w c) + (if c.is_final then 1 else 0)
      = Engine.size w + (if c.is_begin then 1 else 0) := by
  have hn : w.engine.active.Nodup := hs.imp (fun h => Nat.ne_of_lt h)
  cases c with
  | begin =>
    simp [Engine.call, Engine.size, Snapshot.size, Engine.begin, Snapshot.insert,
      Call.is_begin, Call.is_final]
  | advance id =>
    simp [Engine.call, Engine.size, (advance_engine w id).2.1, Call.is_begin, Call.is_final]
  | commit t =>
    have hu := active_unknown w hl t.id hd.1
    simp only [Engine.call, commit_of_unknown cfg w t hu, Engine.size, Snapshot.size,
      Engine.finalize, Call.is_begin, Call.is_final]
    simpa using remove_length w.engine.active t.id hn hd.1
  | abort t =>
    have hu := active_unknown w hl t.id hd.1
    simp only [Engine.call, abort_of_unknown cfg w t hu, Engine.size, Snapshot.size,
      Engine.finalize, Call.is_begin, Call.is_final]
    simpa using remove_length w.engine.active t.id hn hd.1

theorem size_run (cfg : Absent) (cs : List Call) (w : World) (hi : Inv w) (hl : LogInv w)
    (hs : List.Pairwise (fun a b => a < b) w.engine.active)
    (hd : Engine.disciplined cfg cs w) :
    Engine.size (Engine.run cfg cs w) + cs.countP Call.is_final
      = Engine.size w + cs.countP Call.is_begin := by
  induction cs generalizing w with
  | nil => rfl
  | cons c cs ih =>
    obtain ⟨h1, h2⟩ := disciplined_head cfg c cs w hd
    have hstep := size_call cfg w c hl hs h1
    have hrest := ih (Engine.call cfg w c) (inv_call cfg w c hi) (loginv_call cfg w c hi hl h1)
      (sorted_call cfg w c hi.1 hs) h2
    simp only [Engine.run, List.foldl_cons, List.countP_cons] at hrest ⊢
    omega

/-- C12: in every state reached from a fresh engine in which the active set is
not empty, last_known_active returns an id of the active set that is less than
or equal to every id of the active set (the smallest, that is the oldest, active
id), and the state it leaves behind is the state it found. -/
theorem C12_last_known_active_is_oldest (cfg : Absent) (cs : List Call)
    (h : (Engine.run cfg cs fresh).engine.active ≠ []) :
    ∃ m, Engine.last_known_active (Engine.run cfg cs fresh) = some m ∧
      (Engine.query (Engine.run cfg cs fresh) Query.last_known_active).1 = some m ∧
      m ∈ (Engine.run cfg cs fresh).engine.active ∧
      (∀ x ∈ (Engine.run cfg cs fresh).engine.active, m ≤ x) ∧
      (Engine.query (Engine.run cfg cs fresh) Query.last_known_active).2
        = Engine.run cfg cs fresh := by
  have hs := sorted_run cfg cs fresh inv_fresh List.Pairwise.nil
  cases hl : (Engine.run cfg cs fresh).engine.active with
  | nil => exact absurd hl h
  | cons m rest =>
    rw [hl] at hs
    refine ⟨m, ?_, ?_, List.mem_cons_self m rest, ?_, rfl⟩
    · simp [Engine.last_known_active, Snapshot.front, hl]
    · simp [Engine.query, Engine.last_known_active, Snapshot.front, hl]
    · intro x hx
      rcases List.mem_cons.1 hx with hx | hx
      · exact Nat.le_of_eq hx.symm
      · exact Nat.le_of_lt (List.rel_of_pairwise_cons hs hx)

/-- Witness for C12: after three begins and the commit of transaction 1, the
oldest active transaction is 2. -/
theorem C12_last_known_active_is_oldest_witness :
    (Engine.run ⟨1, true⟩ [Call.begin, Call.begin, Call.begin, Call.commit ⟨1, 1, []⟩]
      fresh).engine.active ≠ [] ∧
    Engine.last_known_active
      (Engine.run ⟨1, true⟩ [Call.begin, Call.begin, Call.begin, Call.commit ⟨1, 1, []⟩]
        fresh) = some 2 ∧
    ∃ m, Engine.last_known_active
      (Engine.run ⟨1, true⟩ [Call.begin, Call.begin, Call.begin, Call.commit ⟨1, 1, []⟩]
        fresh) = some m :=
  ⟨by decide, by decide,
    (C12_last_known_active_is_oldest ⟨1, true⟩
      [Call.begin, Call.begin, Call.begin, Call.commit ⟨1, 1, []⟩] (by decide)).imp
      (fun _ hm => hm.1)⟩

/-- C13: in every state reached from a fresh engine by a sequence of calls in
which every commit and abort is applied to a transaction in the active set,
size() plus the number of commit and abort calls made equals count(), which is
the number of begin calls made: size() is the number of transactions begun and
not yet committed or aborted. -/
theorem C13_size_counts_unfinalized (cfg : Absent) (cs : List Call)
    (hd : Engine.disciplined cfg cs fresh) :
    Engine.size (Engine.run cfg cs fresh) + cs.countP Call.is_final
      = Engine.count (Engine.run cfg cs fresh) ∧
    Engine.size (Engine.run cfg cs fresh)
      = cs.countP Call.is_begin - cs.countP Call.is_final ∧
    (Engine.query (Engine.run cfg cs fresh) Query.size).1
      = some (Engine.count (Engine.run cfg cs fresh) - cs.countP Call.is_final) := by
  have hl : LogInv fresh := fun x hx => absurd rfl hx
  have h1 := size_run cfg cs fresh inv_fresh hl List.Pairwise.nil hd
  have h2 := count_run cfg cs fresh
  have h0 : Engine.size fresh = 0 := rfl
  have hc0 : Engine.count fresh = 0 := rfl
  rw [h0] at h1
  rw [hc0] at h2
  refine ⟨by omega, by omega, ?_⟩
  simp only [Engine.query, Option.some.injEq]
  omega

/-- Witness for C13: three begins, an advance, one commit and one abort leave
one transaction active. -/
theorem C13_size_counts_unfinalized_witness :
    Engine.disciplined ⟨1, true⟩
      [Call.begin, Call.begin, Call.advance 2, Call.commit ⟨1, 1, []⟩, Call.begin,
        Call.abort ⟨3, 1, [2]⟩] fresh ∧
    Engine.size (Engine.run ⟨1, true⟩
      [Call.begin, Call.begin, Call.advance 2, Call.commit ⟨1, 1, []⟩, Call.begin,
        Call.abort ⟨3, 1, [2]⟩] fresh) = 1 ∧
    Engine.size (Engine.run ⟨1, true⟩
      [Call.begin, Call.begin, Call.advance 2, Call.commit ⟨1, 1, []⟩, Call.begin,
        Call.abort ⟨3, 1, [2]⟩] fresh) + 2
      = Engine.count (Engine.run ⟨1, true⟩
      [Call.begin, Call.begin, Call.advance 2, Call.commit ⟨1, 1, []⟩, Call.begin,
        Call.abort ⟨3, 1, [2]⟩] fresh) :=
  ⟨by simp only [Engine.disciplined]; decide, by decide,
    (C13_size_counts_unfinalized ⟨1, true⟩
      [Call.begin, Call.begin, Call.advance 2, Call.commit ⟨1, 1, []⟩, Call.begin,
        Call.abort ⟨3, 1, [2]⟩] (by simp only [Engine.disciplined]; decide)).1⟩

/-- C14: in every state reached from a fresh engine, count() is the number of
begin calls made so far; a begin raises it by exactly one; advance, commit,
abort and the reading methods last_known_active, size and count leave it
unchanged; so no call ever lowers it. -/
theorem C14_count_is_number_of_begins (cfg : Absent) (cs : List Call) :
    Engine.count (Engine.run cfg cs fresh) = cs.countP Call.is_begin ∧
    (Engine.query (Engine.run cfg cs fresh) Query.count).1
      = some (cs.countP Call.is_begin) ∧
    Engine.count (Engine.begin cfg (Engine.run cfg cs fresh)).2
      = Engine.count (Engine.run cfg cs fresh) + 1 ∧
    (∀ id, Engine.count (Engine.advance (Engine.run cfg cs fresh) id).2
      = Engine.count (Engine.run cfg cs fresh)) ∧
    (∀ t, Engine.count (Engine.commit cfg (Engine.run cfg cs fresh) t).2
      = Engine.count (Engine.run cfg cs fresh)) ∧
    (∀ t, Engine.count (Engine.abort cfg (Engine.run cfg cs fresh) t).2
      = Engine.count (Engine.run cfg cs fresh)) ∧
    (∀ q, Engine.count (Engine.query (Engine.run cfg cs fresh) q).2
      = Engine.count (Engine.run cfg cs fresh)) ∧
    (∀ c, Engine.count (Engine.run cfg cs fresh)
      ≤ Engine.count (Engine.call cfg (Engine.run cfg cs fresh) c)) := by
  have h0 := count_run cfg cs fresh
  have hc0 : Engine.count fresh = 0 := rfl
  rw [hc0, Nat.zero_add] at h0
  refine ⟨h0, ?_, rfl, ?_, ?_, ?_, ?_, ?_⟩
  · simp [Engine.query, h0]
  · intro id
    exact (advance_engine _ id).1
  · intro t
    have := count_call cfg (Engine.run cfg cs fresh) (Call.commit t)
    simpa [Engine.call, Call.is_begin] using this
  · intro t
    have := count_call cfg (Engine.run cfg cs fresh) (Call.abort t)
    simpa [Engine.call, Call.is_begin] using this
  · intro q
    cases q <;> rfl
  · intro c
    rw [count_call]
    exact Nat.le_add_right _ _

end tx

/-! ## Snapshot engine: supporting lemmas -/

theorem digitChar_ne_s (d : Nat) (h : d < 10) : Nat.digitChar d ≠ 's' := by
  interval_cases d <;> decide

theorem toDigitsCore_head (fuel n : Nat) (ds : List Char)
    (h : ∃ c cs, ds = c :: cs ∧ c ≠ 's') :
    ∃ c cs, Nat.toDigitsCore 10 fuel n ds = c :: cs ∧ c ≠ 's' := by
  induction fuel generalizing n ds with
  | zero => exact h
  | succ fuel ih =>
    simp only [Nat.toDigitsCore]
    split_ifs with h0
    · exact ⟨_, _, rfl, digitChar_ne_s _ (Nat.mod_lt _ (by decide))⟩
    · exact ih _ _ ⟨_, _, rfl, digitChar_ne_s _ (Nat.mod_lt _ (by decide))⟩

theorem toDigits_head (n : Nat) : ∃ c cs, Nat.toDigits 10 n = c :: cs ∧ c ≠ 's' := by
  unfold Nat.toDigits
  simp only [Nat.toDigitsCore]
  split_ifs with h0
  · exact ⟨_, _, rfl, digitChar_ne_s _ (Nat.mod_lt _ (by decide))⟩
  · exact toDigitsCore_head _ _ _ ⟨_, _, rfl, digitChar_ne_s _ (Nat.mod_lt _ (by decide))⟩

theorem toString_int_head (now : Int) :
    ∃ c cs, (toString now).data = c :: cs ∧ c ≠ 's' := by
  cases now with
  | ofNat m =>
    obtain ⟨c, cs, h, hc⟩ := toDigits_head m
    exact ⟨c, cs, by show (Nat.repr m).data = _; simp [Nat.repr, List.asString, h], hc⟩
  | negSucc m =>
    refine ⟨'-', (toString (m+1)).data, ?_, by decide⟩
    show ("-" ++ toString (Nat.succ m)).data = _
    simp [String.data_append]

/-- The path of a snapshot file is never the path of the commit-file: after the
directory, the first begins with a digit or a minus sign, the second with the
letter s. -/
theorem snapshot_file_ne_commit_file (s : SnapshotEngine) (now : Int) (type : String) :
    SnapshotEngine.snapshot_file s now type ≠ SnapshotEngine.snapshot_commit_file s := by
  intro h
  have h2 := congrArg String.data h
  simp only [SnapshotEngine.snapshot_file, SnapshotEngine.snapshot_commit_file,
    String.data_append, List.append_assoc] at h2
  have h3 := List.append_cancel_left h2
  obtain ⟨c, cs, hd, hc⟩ := toString_int_head now
  rw [hd] at h3
  simp at h3
  exact hc h3.1

theorem begin_entry_unknown (cfg : Absent) (w : World) (h : Unissued w) :
    (Engine.begin cfg w).2.clog (Engine.begin cfg w).1.id = Status.Unknown := by
  rw [begin_clog, begin_id]
  exact h _ (Nat.lt_succ_self _)

theorem unissued_begin (cfg : Absent) (w : World) (h : Unissued w) :
    Unissued (Engine.begin cfg w).2 := by
  intro k hk
  rw [begin_counter] at hk
  rw [begin_clog]
  exact h k (Nat.lt_of_succ_lt hk)

theorem unissued_commit (cfg : Absent) (w : World) (t : Transaction) (h : Unissued w)
    (ht : t.id ≤ w.engine.counter) : Unissued (Engine.commit cfg w t).2 := by
  intro k hk
  have hc : (Engine.commit cfg w t).2.engine.counter = w.engine.counter := by
    rcases commit_engine cfg w t with he | he
    · rw [he]
    · rw [he]; rfl
  rw [hc] at hk
  rw [commit_clog, set_other cfg _ _ _ _ (Nat.ne_of_gt (Nat.lt_of_le_of_lt ht hk))]
  exact h k hk

theorem unissued_abort (cfg : Absent) (w : World) (t : Transaction) (h : Unissued w)
    (ht : t.id ≤ w.engine.counter) : Unissued (Engine.abort cfg w t).2 := by
  intro k hk
  have hc : (Engine.abort cfg w t).2.engine.counter = w.engine.counter := by
    rcases abort_engine cfg w t with he | he
    · rw [he]
    · rw [he]; rfl
  rw [hc] at hk
  rw [abort_clog, set_other cfg _ _ _ _ (Nat.ne_of_gt (Nat.lt_of_le_of_lt ht hk))]
  exact h k hk

/-- In a state reached from a fresh engine by disciplined use, no outcome is
recorded for an id that has not been issued. -/
theorem unissued_of_disciplined (cfg : Absent) (cs : List Call)
    (hd : Engine.disciplined cfg cs fresh) : Unissued (Engine.run cfg cs fresh) := by
  have hl : LogInv fresh := fun x hx => absurd rfl hx
  have h := loginv_run cfg cs fresh inv_fresh hl hd
  intro k hk
  by_contra hne
  exact absurd (h k hne).1 (Nat.not_le_of_lt hk)

theorem make_snapshot_true (cfg : Absent) (s : SnapshotEngine) (now : Int) (type : String)
    (enc : Encoding) (res commit_res : Int) (commit_good : Bool) (h : Unissued s.db.tx_engine)
    (h1 : enc.thrown = none) (h2 : res = 0) :
    (SnapshotEngine.make_snapshot cfg s now type enc res commit_res commit_good).1 = Except.ok true ∧
    (SnapshotEngine.make_snapshot cfg s now type enc res commit_res commit_good).2.db.tx_engine
      = (Engine.commit cfg (Engine.begin cfg s.db.tx_engine).2
          (Engine.begin cfg s.db.tx_engine).1).2 := by
  have hu := commit_of_unknown cfg _ _ (begin_entry_unknown cfg s.db.tx_engine h)
  unfold SnapshotEngine.make_snapshot
  simp only [h1, h2, Db.commit, Db.begin, hu, if_true]
  split_ifs <;> exact ⟨rfl, rfl⟩

theorem make_snapshot_false (cfg : Absent) (s : SnapshotEngine) (now : Int) (type : String)
    (enc : Encoding) (res commit_res : Int) (commit_good : Bool) (h : Unissued s.db.tx_engine)
    (h1 : ¬ (enc.thrown = none ∧ res = 0)) :
    (SnapshotEngine.make_snapshot cfg s now type enc res commit_res commit_good).1 = Except.ok false ∧
    (SnapshotEngine.make_snapshot cfg s now type enc res commit_res commit_good).2.db.tx_engine
      = (Engine.abort cfg (Engine.begin cfg s.db.tx_engine).2
          (Engine.begin cfg s.db.tx_engine).1).2 := by
  have hu := abort_of_unknown cfg _ _ (begin_entry_unknown cfg s.db.tx_engine h)
  unfold SnapshotEngine.make_snapshot
  cases ht : enc.thrown with
  | some e =>
    simp only [Db.abort, Db.begin, hu]
    refine ⟨?_, ?_⟩ <;> first | rfl | trivial
  | none =>
    have hres : res ≠ 0 := fun e => h1 ⟨ht, e⟩
    simp only [Db.abort, Db.begin, hu, if_neg hres]
    refine ⟨?_, ?_⟩ <;> first | rfl | trivial

theorem make_snapshot_disk (cfg : Absent) (s : SnapshotEngine) (now : Int) (type : String)
    (enc : Encoding) (res commit_res : Int) (commit_good : Bool) :
    ((SnapshotEngine.make_snapshot cfg s now type enc res commit_res commit_good).1 = Except.ok true ∧
      (SnapshotEngine.make_snapshot cfg s now type enc res commit_res commit_good).2.disk
        = Disk.append (Disk.write s.disk (SnapshotEngine.snapshot_file s now type) enc.written)
            (SnapshotEngine.snapshot_commit_file s) (SnapshotEngine.snapshot_file s now type)
            commit_good) ∨
    ((SnapshotEngine.make_snapshot cfg s now type enc res commit_res commit_good).1 ≠ Except.ok true ∧
      (SnapshotEngine.make_snapshot cfg s now type enc res commit_res commit_good).2.disk
        = Disk.write s.disk (SnapshotEngine.snapshot_file s now type) enc.written) := by
  unfold SnapshotEngine.make_snapshot
  dsimp only
  repeat' split
  all_goals simp

theorem make_snapshot_frame (cfg : Absent) (s : SnapshotEngine) (now : Int) (type : String)
    (enc : Encoding) (res commit_res : Int) (commit_good : Bool) :
    (SnapshotEngine.make_snapshot cfg s now type enc res commit_res commit_good).2.snapshot_folder
      = s.snapshot_folder ∧
    (SnapshotEngine.make_snapshot cfg s now type enc res commit_res commit_good).2.db.name = s.db.name := by
  cases hA : (Engine.abort cfg (Engine.begin cfg s.db.tx_engine).2
      (Engine.begin cfg s.db.tx_engine).1).1 <;>
    cases hC : (Engine.commit cfg (Engine.begin cfg s.db.tx_engine).2
      (Engine.begin cfg s.db.tx_engine).1).1 <;>
    cases hT : enc.thrown <;>
    by_cases hR : res = 0 <;>
    by_cases hQ : commit_res = 0 <;>
    simp [SnapshotEngine.make_snapshot, Db.commit, Db.abort, Db.begin, hA, hC, hT, hR, hQ]

theorem commit_file_frame (cfg : Absent) (s : SnapshotEngine) (now : Int) (type : String)
    (enc : Encoding) (res commit_res : Int) (commit_good : Bool) :
    SnapshotEngine.snapshot_commit_file
        (SnapshotEngine.make_snapshot cfg s now type enc res commit_res commit_good).2
      = SnapshotEngine.snapshot_commit_file s := by
  obtain ⟨h1, h2⟩ := make_snapshot_frame cfg s now type enc res commit_res commit_good
  simp only [SnapshotEngine.snapshot_commit_file, SnapshotEngine.snapshot_db_dir, h1, h2]

theorem lines_write_other (d : Disk) (p q : String) (c : FileContent) (h : q ≠ p) :
    Disk.lines (Disk.write d p c) q = Disk.lines d q := by
  simp [Disk.lines, Disk.write, h]

theorem split_lines_single (cs : List Char) (h : '\n' ∉ cs) : split_lines cs = [cs] := by
  induction cs with
  | nil => rfl
  | cons c cs ih =>
    have hc : ¬ c = '\n' := fun e => h (e ▸ List.mem_cons_self _ _)
    have ht : '\n' ∉ cs := fun e => h (List.mem_cons_of_mem _ e)
    simp only [split_lines, hc, if_false, ih ht]

theorem getlines_single (text : String) (h : '\n' ∉ text.data) : getlines text = [text] := by
  unfold getlines
  rw [split_lines_single _ h]
  rfl

theorem lines_append_good (d : Disk) (p : String) (text : String) :
    Disk.lines (Disk.append d p text true) p = Disk.lines d p ++ getlines text := by
  simp [Disk.lines, Disk.append]

theorem append_not_good (d : Disk) (p : String) (text : String) :
    Disk.append d p text false = d := by
  funext q
  simp [Disk.append]

theorem make_snapshot_commit_lines (cfg : Absent) (s : SnapshotEngine) (now : Int)
    (type : String) (enc : Encoding) (res commit_res : Int) (commit_good : Bool) :
    ((SnapshotEngine.make_snapshot cfg s now type enc res commit_res commit_good).1
        = Except.ok true ∧
      (commit_good = true →
        Disk.lines (SnapshotEngine.make_snapshot cfg s now type enc res commit_res
            commit_good).2.disk (SnapshotEngine.snapshot_commit_file s)
          = Disk.lines s.disk (SnapshotEngine.snapshot_commit_file s)
              ++ getlines (SnapshotEngine.snapshot_file s now type)) ∧
      (commit_good = false →
        (SnapshotEngine.make_snapshot cfg s now type enc res commit_res commit_good).2.disk
            (SnapshotEngine.snapshot_commit_file s)
          = s.disk (SnapshotEngine.snapshot_commit_file s))) ∨
    ((SnapshotEngine.make_snapshot cfg s now type enc res commit_res commit_good).1
        ≠ Except.ok true ∧
      (SnapshotEngine.make_snapshot cfg s now type enc res commit_res commit_good).2.disk
          (SnapshotEngine.snapshot_commit_file s)
        = s.disk (SnapshotEngine.snapshot_commit_file s)) := by
  have hne := (snapshot_file_ne_commit_file s now type).symm
  rcases make_snapshot_disk cfg s now type enc res commit_res commit_good with
    ⟨h1, h2⟩ | ⟨h1, h2⟩
  · left
    refine ⟨h1, ?_, ?_⟩
    · intro hg
      subst hg
      rw [h2, lines_append_good, lines_write_other _ _ _ _ hne]
    · intro hg
      subst hg
      rw [h2, append_not_good]
      simp [Disk.write, hne]
  · right
    refine ⟨h1, ?_⟩
    rw [h2]
    simp [Disk.write, hne]

theorem make_snapshots_listed (cfg : Absent) (c : SnapshotCall) (cs : List SnapshotCall)
    (s : SnapshotEngine)
    (h1 : (SnapshotEngine.make_snapshot cfg s c.now c.type c.enc c.res c.commit_res
      c.commit_good).1 = Except.ok true)
    (hg : c.commit_good = true) :
    SnapshotEngine.make_snapshots cfg (c :: cs) s
      = (SnapshotEngine.snapshot_file s c.now c.type
          :: (SnapshotEngine.make_snapshots cfg cs
              (SnapshotEngine.make_snapshot cfg s c.now c.type c.enc c.res c.commit_res
                c.commit_good).2).1,
        (SnapshotEngine.make_snapshots cfg cs
          (SnapshotEngine.make_snapshot cfg s c.now c.type c.enc c.res c.commit_res
            c.commit_good).2).2) := by
  simp only [SnapshotEngine.make_snapshots]
  rw [h1]
  simp only [hg]

theorem make_snapshots_skipped (cfg : Absent) (c : SnapshotCall) (cs : List SnapshotCall)
    (s : SnapshotEngine)
    (h : (SnapshotEngine.make_snapshot cfg s c.now c.type c.enc c.res c.commit_res
      c.commit_good).1 ≠ Except.ok true ∨ c.commit_good = false) :
    SnapshotEngine.make_snapshots cfg (c :: cs) s
      = SnapshotEngine.make_snapshots cfg cs
          (SnapshotEngine.make_snapshot cfg s c.now c.type c.enc c.res c.commit_res
            c.commit_good).2 := by
  simp only [SnapshotEngine.make_snapshots]
  split
  · rename_i heq hgood
    rcases h with h | h
    · exact absurd heq h
    · rw [h] at hgood
      cases hgood
  · rfl

theorem make_snapshots_lines (cfg : Absent) (calls : List SnapshotCall) (s : SnapshotEngine) :
    Disk.lines (SnapshotEngine.make_snapshots cfg calls s).2.disk
        (SnapshotEngine.snapshot_commit_file s)
      = Disk.lines s.disk (SnapshotEngine.snapshot_commit_file s)
          ++ ((SnapshotEngine.make_snapshots cfg calls s).1.map getlines).flatten := by
  induction calls generalizing s with
  | nil => simp [SnapshotEngine.make_snapshots]
  | cons c cs ih =>
    have hstep := make_snapshot_commit_lines cfg s c.now c.type c.enc c.res c.commit_res
      c.commit_good
    have hrest := ih (SnapshotEngine.make_snapshot cfg s c.now c.type c.enc c.res c.commit_res
      c.commit_good).2
    rw [commit_file_frame] at hrest
    have hskip : (SnapshotEngine.make_snapshot cfg s c.now c.type c.enc c.res
          c.commit_res c.commit_good).2.disk (SnapshotEngine.snapshot_commit_file s)
          = s.disk (SnapshotEngine.snapshot_commit_file s) →
        SnapshotEngine.make_snapshots cfg (c :: cs) s
          = SnapshotEngine.make_snapshots cfg cs
              (SnapshotEngine.make_snapshot cfg s c.now c.type c.enc c.res c.commit_res
                c.commit_good).2 →
        Disk.lines (SnapshotEngine.make_snapshots cfg (c :: cs) s).2.disk
            (SnapshotEngine.snapshot_commit_file s)
          = Disk.lines s.disk (SnapshotEngine.snapshot_commit_file s)
              ++ ((SnapshotEngine.make_snapshots cfg (c :: cs) s).1.map getlines).flatten := by
      intro hd hm
      have hl : Disk.lines
            (SnapshotEngine.make_snapshot cfg s c.now c.type c.enc c.res c.commit_res
              c.commit_good).2.disk (SnapshotEngine.snapshot_commit_file s)
          = Disk.lines s.disk (SnapshotEngine.snapshot_commit_file s) := by
        simp only [Disk.lines, hd]
      rw [hm, hrest, hl]
    rcases hstep with ⟨h1, h2, h3⟩ | ⟨h1, h2⟩
    · cases hg : c.commit_good with
      | true =>
        rw [make_snapshots_listed cfg c cs s h1 hg]
        show Disk.lines (SnapshotEngine.make_snapshots cfg cs
            (SnapshotEngine.make_snapshot cfg s c.now c.type c.enc c.res c.commit_res
              c.commit_good).2).2.disk (SnapshotEngine.snapshot_commit_file s) = _
        rw [hrest, h2 hg]
        simp
      | false => exact hskip (h3 hg) (make_snapshots_skipped cfg c cs s (Or.inr hg))
    · exact hskip h2 (make_snapshots_skipped cfg c cs s (Or.inl h1))

/-! ## Claims about `make_snapshot` -/

/-- C15: in a state where no outcome is recorded for an id not yet issued,
whatever the encoding does (completes or throws) and whatever the flush of the
snapshot file returns, make_snapshot begins one transaction and finalizes it
with exactly one call: it returns true exactly when the encoding threw nothing
and the flush returned 0, and then the engine is left as by commit of that
transaction (its entry is Committed); otherwise it returns false and the engine
is left as by abort of that transaction (its entry is Aborted); in both cases
the transaction is no longer active and count() has grown by one. -/
theorem C15_make_snapshot_finalizes_once (cfg : Absent) (s : SnapshotEngine) (now : Int)
    (type : String) (enc : Encoding) (res commit_res : Int) (commit_good : Bool)
    (h : Unissued s.db.tx_engine) :
    ((SnapshotEngine.make_snapshot cfg s now type enc res commit_res commit_good).1 = Except.ok true
      ↔ (enc.thrown = none ∧ res = 0)) ∧
    ((SnapshotEngine.make_snapshot cfg s now type enc res commit_res commit_good).1 = Except.ok false
      ↔ ¬ (enc.thrown = none ∧ res = 0)) ∧
    ((enc.thrown = none ∧ res = 0) →
      (SnapshotEngine.make_snapshot cfg s now type enc res commit_res commit_good).2.db.tx_engine
        = (Engine.commit cfg (Engine.begin cfg s.db.tx_engine).2
            (Engine.begin cfg s.db.tx_engine).1).2 ∧
      (SnapshotEngine.make_snapshot cfg s now type enc res commit_res commit_good).2.db.tx_engine.clog
        (Engine.begin cfg s.db.tx_engine).1.id = Status.Committed) ∧
    (¬ (enc.thrown = none ∧ res = 0) →
      (SnapshotEngine.make_snapshot cfg s now type enc res commit_res commit_good).2.db.tx_engine
        = (Engine.abort cfg (Engine.begin cfg s.db.tx_engine).2
            (Engine.begin cfg s.db.tx_engine).1).2 ∧
      (SnapshotEngine.make_snapshot cfg s now type enc res commit_res commit_good).2.db.tx_engine.clog
        (Engine.begin cfg s.db.tx_engine).1.id = Status.Aborted) ∧
    (Engine.begin cfg s.db.tx_engine).1.id ∉
      (SnapshotEngine.make_snapshot cfg s now type enc res commit_res commit_good).2.db.tx_engine.engine.active ∧
    Engine.count (SnapshotEngine.make_snapshot cfg s now type enc res commit_res commit_good).2.db.tx_engine
      = Engine.count s.db.tx_engine + 1 := by
  have hu := begin_entry_unknown cfg s.db.tx_engine h
  have hc := commit_of_unknown cfg _ _ hu
  have ha := abort_of_unknown cfg _ _ hu
  by_cases hok : enc.thrown = none ∧ res = 0
  · obtain ⟨r1, r2⟩ := make_snapshot_true cfg s now type enc res commit_res commit_good h hok.1 hok.2
    refine ⟨⟨fun _ => hok, fun _ => r1⟩, ⟨fun hf => ?_, fun hn => absurd hok hn⟩,
      fun _ => ⟨r2, ?_⟩, fun hn => absurd hok hn, ?_, ?_⟩
    · rw [r1] at hf
      simp at hf
    · rw [r2, hc]; simp
    · rw [r2, hc]; simp [Engine.finalize, Snapshot.remove]
    · rw [r2, hc]; rfl
  · obtain ⟨r1, r2⟩ := make_snapshot_false cfg s now type enc res commit_res commit_good h hok
    refine ⟨⟨fun ht => ?_, fun hy => absurd hy hok⟩, ⟨fun _ => hok, fun _ => r1⟩,
      fun hy => absurd hy hok, fun _ => ⟨r2, ?_⟩, ?_, ?_⟩
    · rw [r1] at ht
      simp at ht
    · rw [r2, ha]; simp
    · rw [r2, ha]; simp [Engine.finalize, Snapshot.remove]
    · rw [r2, ha]; rfl

/-- Witness for C15: on the blank engine an encoding that completes followed by
a flush returning 5 makes make_snapshot return false with transaction 1
Aborted. -/
theorem C15_make_snapshot_finalizes_once_witness :
    Unissued SnapshotEngine.blank.db.tx_engine ∧
    (SnapshotEngine.make_snapshot ⟨1, true⟩ SnapshotEngine.blank 7 "full" ⟨["v"], none⟩ 5 0 true).1
      = Except.ok false ∧
    (SnapshotEngine.make_snapshot ⟨1, true⟩ SnapshotEngine.blank 7 "full"
      ⟨["v"], none⟩ 5 0 true).2.db.tx_engine.clog 1 = Status.Aborted :=
  ⟨fun _ _ => rfl,
    ((C15_make_snapshot_finalizes_once ⟨1, true⟩ SnapshotEngine.blank 7 "full" ⟨["v"], none⟩
      5 0 true (fun _ _ => rfl)).2.1).2 (by decide),
    by decide⟩

/-- C16 (as the code has it): a make_snapshot call that returns true appends
the path of the snapshot file it wrote to the end of the commit-file only when
the open of the commit-file and the write to it succeed, which the code does
not check (the result is fixed before the commit-file is opened); the path makes
up exactly one line when it holds no newline.  A call that returns true while
the write fails, and a call that returns false, leave the commit-file as it was.
Hence after any sequence of make_snapshot calls the commit-file holds its former
lines followed by the lines of the paths of the calls that returned true and
whose write succeeded, in the order of the calls: exactly those paths, one per
line, when none of them holds a newline and the file was empty or missing at the
start. -/
theorem C16_commit_file_lists_written_successes (cfg : Absent) (s : SnapshotEngine)
    (c : SnapshotCall) (calls : List SnapshotCall) :
    ((SnapshotEngine.make_snapshot cfg s c.now c.type c.enc c.res c.commit_res c.commit_good).1
        = Except.ok true →
      c.commit_good = true →
      '\n' ∉ (SnapshotEngine.snapshot_file s c.now c.type).data →
      Disk.lines (SnapshotEngine.make_snapshot cfg s c.now c.type c.enc c.res c.commit_res
          c.commit_good).2.disk (SnapshotEngine.snapshot_commit_file s)
        = Disk.lines s.disk (SnapshotEngine.snapshot_commit_file s)
            ++ [SnapshotEngine.snapshot_file s c.now c.type]) ∧
    ((SnapshotEngine.make_snapshot cfg s c.now c.type c.enc c.res c.commit_res c.commit_good).1
        = Except.ok true →
      c.commit_good = true →
      Disk.lines (SnapshotEngine.make_snapshot cfg s c.now c.type c.enc c.res c.commit_res
          c.commit_good).2.disk (SnapshotEngine.snapshot_commit_file s)
        = Disk.lines s.disk (SnapshotEngine.snapshot_commit_file s)
            ++ getlines (SnapshotEngine.snapshot_file s c.now c.type)) ∧
    ((SnapshotEngine.make_snapshot cfg s c.now c.type c.enc c.res c.commit_res c.commit_good).1
        = Except.ok true →
      c.commit_good = false →
      (SnapshotEngine.make_snapshot cfg s c.now c.type c.enc c.res c.commit_res
          c.commit_good).2.disk (SnapshotEngine.snapshot_commit_file s)
        = s.disk (SnapshotEngine.snapshot_commit_file s)) ∧
    ((SnapshotEngine.make_snapshot cfg s c.now c.type c.enc c.res c.commit_res c.commit_good).1
        = Except.ok false →
      (SnapshotEngine.make_snapshot cfg s c.now c.type c.enc c.res c.commit_res
          c.commit_good).2.disk (SnapshotEngine.snapshot_commit_file s)
        = s.disk (SnapshotEngine.snapshot_commit_file s)) ∧
    Disk.lines (SnapshotEngine.make_snapshots cfg calls s).2.disk
        (SnapshotEngine.snapshot_commit_file s)
      = Disk.lines s.disk (SnapshotEngine.snapshot_commit_file s)
          ++ ((SnapshotEngine.make_snapshots cfg calls s).1.map getlines).flatten ∧
    ((∀ p ∈ (SnapshotEngine.make_snapshots cfg calls s).1, '\n' ∉ p.data) →
      Disk.lines (SnapshotEngine.make_snapshots cfg calls s).2.disk
          (SnapshotEngine.snapshot_commit_file s)
        = Disk.lines s.disk (SnapshotEngine.snapshot_commit_file s)
            ++ (SnapshotEngine.make_snapshots cfg calls s).1) ∧
    ((∀ p ∈ (SnapshotEngine.make_snapshots cfg calls s).1, '\n' ∉ p.data) →
      Disk.lines s.disk (SnapshotEngine.snapshot_commit_file s) = [] →
      Disk.lines (SnapshotEngine.make_snapshots cfg calls s).2.disk
          (SnapshotEngine.snapshot_commit_file s)
        = (SnapshotEngine.make_snapshots cfg calls s).1) := by
  have hstep := make_snapshot_commit_lines cfg s c.now c.type c.enc c.res c.commit_res
    c.commit_good
  have hseq := make_snapshots_lines cfg calls s
  have hflat : (∀ p ∈ (SnapshotEngine.make_snapshots cfg calls s).1, '\n' ∉ p.data) →
      ((SnapshotEngine.make_snapshots cfg calls s).1.map getlines).flatten
        = (SnapshotEngine.make_snapshots cfg calls s).1 := by
    generalize (SnapshotEngine.make_snapshots cfg calls s).1 = l
    intro h
    induction l with
    | nil => rfl
    | cons p l ih =>
      rw [List.map_cons, List.flatten_cons, getlines_single p (h p (List.mem_cons_self _ _)),
        ih (fun q hq => h q (List.mem_cons_of_mem _ hq))]
      rfl
  refine ⟨?_, ?_, ?_, ?_, hseq, ?_, ?_⟩
  · intro ht hg hn
    rcases hstep with ⟨_, h2, _⟩ | ⟨h1, _⟩
    · rw [h2 hg, getlines_single _ hn]
    · exact absurd ht h1
  · intro ht hg
    rcases hstep with ⟨_, h2, _⟩ | ⟨h1, _⟩
    · exact h2 hg
    · exact absurd ht h1
  · intro ht hg
    rcases hstep with ⟨_, _, h3⟩ | ⟨h1, _⟩
    · exact h3 hg
    · exact absurd ht h1
  · intro hf
    rcases hstep with ⟨h1, _⟩ | ⟨_, h2⟩
    · rw [h1] at hf
      simp at hf
    · exact h2
  · intro hn
    rw [hseq, hflat hn]
  · intro hn he
    rw [hseq, hflat hn, he, List.nil_append]

/-- C16, the claim fails: on the blank engine a make_snapshot whose encoding
and first flush succeed returns true although the write to the commit-file
fails and its flush returns 5, and the commit-file lists nothing; and a
snapshot of a type that holds a newline is listed as two lines. -/
theorem C16_counterexample :
    (SnapshotEngine.make_snapshot ⟨1, true⟩ SnapshotEngine.blank 7 "full"
      ⟨["v"], none⟩ 0 5 false).1 = Except.ok true ∧
    (SnapshotEngine.make_snapshot ⟨1, true⟩ SnapshotEngine.blank 7 "full"
      ⟨["v"], none⟩ 0 5 false).2.disk "snap/db/7_full" = some ["v"] ∧
    Disk.lines (SnapshotEngine.make_snapshot ⟨1, true⟩ SnapshotEngine.blank 7 "full"
      ⟨["v"], none⟩ 0 5 false).2.disk "snap/db/snapshot_commit.txt" = [] ∧
    SnapshotEngine.snapshot_commit_file SnapshotEngine.blank = "snap/db/snapshot_commit.txt" ∧
    (SnapshotEngine.make_snapshot ⟨1, true⟩ SnapshotEngine.blank 7 "a\nb"
      ⟨["v"], none⟩ 0 0 true).1 = Except.ok true ∧
    Disk.lines (SnapshotEngine.make_snapshot ⟨1, true⟩ SnapshotEngine.blank 7 "a\nb"
      ⟨["v"], none⟩ 0 0 true).2.disk "snap/db/snapshot_commit.txt" = ["snap/db/7_a", "b"] := by
  refine ⟨rfl, by decide, by decide, by decide, rfl, by decide⟩

/-- C17 (as the code has it): a make_snapshot(now, type) call that returns false
leaves the content of every file other than snapshot_file(now, type) unchanged;
the file snapshot_file(now, type) itself is opened with truncation and holds
afterwards what this call wrote, whatever an earlier snapshot had put there. -/
theorem C17_failed_snapshot_keeps_other_files (cfg : Absent) (s : SnapshotEngine) (now : Int)
    (type : String) (enc : Encoding) (res commit_res : Int) (commit_good : Bool)
    (h : (SnapshotEngine.make_snapshot cfg s now type enc res commit_res commit_good).1 = Except.ok false) :
    (∀ p, p ≠ SnapshotEngine.snapshot_file s now type →
      (SnapshotEngine.make_snapshot cfg s now type enc res commit_res commit_good).2.disk p = s.disk p) ∧
    (SnapshotEngine.make_snapshot cfg s now type enc res commit_res commit_good).2.disk
        (SnapshotEngine.snapshot_file s now type) = some enc.written := by
  rcases make_snapshot_disk cfg s now type enc res commit_res commit_good with ⟨h1, _⟩ | ⟨_, h2⟩
  · rw [h1] at h
    simp at h
  · rw [h2]
    refine ⟨fun p hp => ?_, ?_⟩
    · simp [Disk.write, hp]
    · simp [Disk.write]

/-- Witness for C17: after a first snapshot at time 1, a failing snapshot at
time 2 leaves the file of the first one as it was. -/
theorem C17_failed_snapshot_keeps_other_files_witness :
    (SnapshotEngine.make_snapshot ⟨1, true⟩
      (SnapshotEngine.make_snapshot ⟨1, true⟩ SnapshotEngine.blank 1 "full"
        ⟨["v1"], none⟩ 0 0 true).2
      2 "full" ⟨["v"], some "disk full"⟩ 0 0 true).1 = Except.ok false ∧
    (SnapshotEngine.make_snapshot ⟨1, true⟩
      (SnapshotEngine.make_snapshot ⟨1, true⟩ SnapshotEngine.blank 1 "full"
        ⟨["v1"], none⟩ 0 0 true).2
      2 "full" ⟨["v"], some "disk full"⟩ 0 0 true).2.disk "snap/db/1_full" = some ["v1"] :=
  ⟨rfl,
    ((C17_failed_snapshot_keeps_other_files ⟨1, true⟩
      (SnapshotEngine.make_snapshot ⟨1, true⟩ SnapshotEngine.blank 1 "full"
        ⟨["v1"], none⟩ 0 0 true).2
      2 "full" ⟨["v"], some "disk full"⟩ 0 0 true rfl).1 "snap/db/1_full" (by decide)).trans
      (by decide)⟩

/-- Counterexample to C17 as stated: a first make_snapshot(1, "full") succeeds
and writes the snapshot file snap/db/1_full, which the commit-file then lists;
a second make_snapshot(1, "full"), whose encoding throws, returns false and has
replaced the content of that previously written file. -/
theorem C17_counterexample :
    (SnapshotEngine.make_snapshot ⟨1, true⟩ SnapshotEngine.blank 1 "full"
      ⟨["v1"], none⟩ 0 0 true).1 = Except.ok true ∧
    (SnapshotEngine.make_snapshot ⟨1, true⟩ SnapshotEngine.blank 1 "full"
      ⟨["v1"], none⟩ 0 0 true).2.disk "snap/db/1_full" = some ["v1"] ∧
    Disk.lines (SnapshotEngine.make_snapshot ⟨1, true⟩ SnapshotEngine.blank 1 "full"
      ⟨["v1"], none⟩ 0 0 true).2.disk "snap/db/snapshot_commit.txt" = ["snap/db/1_full"] ∧
    (SnapshotEngine.make_snapshot ⟨1, true⟩
      (SnapshotEngine.make_snapshot ⟨1, true⟩ SnapshotEngine.blank 1 "full"
        ⟨["v1"], none⟩ 0 0 true).2
      1 "full" ⟨[], some "disk full"⟩ 0 0 true).1 = Except.ok false ∧
    (SnapshotEngine.make_snapshot ⟨1, true⟩
      (SnapshotEngine.make_snapshot ⟨1, true⟩ SnapshotEngine.blank 1 "full"
        ⟨["v1"], none⟩ 0 0 true).2
      1 "full" ⟨[], some "disk full"⟩ 0 0 true).2.disk "snap/db/1_full" = some [] := by
  refine ⟨rfl, by decide, by decide, rfl, by decide⟩

/-! ## Snapshot engine: lemmas about `snapshot_load` and the loop of `import` -/

theorem add_index_keeps (db : Db) (d : String) :
    (Db.add_index db d).tx_engine = db.tx_engine ∧ (Db.add_index db d).name = db.name ∧
    (Db.add_index db d).vertices = db.vertices ∧ (Db.add_index db d).edges = db.edges ∧
    (∀ x ∈ db.indexes, x ∈ (Db.add_index db d).indexes) ∧
    d ∈ (Db.add_index db d).indexes := by
  unfold Db.add_index
  split_ifs with h
  · exact ⟨rfl, rfl, rfl, rfl, fun _ hx => hx, h⟩
  · exact ⟨rfl, rfl, rfl, rfl, fun _ hx => List.mem_append_left _ hx, by simp⟩

theorem add_indexes_keep (ds : List String) (db : Db) :
    (ds.foldl Db.add_index db).tx_engine = db.tx_engine ∧
    (ds.foldl Db.add_index db).name = db.name ∧
    (ds.foldl Db.add_index db).vertices = db.vertices ∧
    (ds.foldl Db.add_index db).edges = db.edges ∧
    (∀ x ∈ db.indexes, x ∈ (ds.foldl Db.add_index db).indexes) ∧
    (∀ x ∈ ds, x ∈ (ds.foldl Db.add_index db).indexes) := by
  induction ds generalizing db with
  | nil => exact ⟨rfl, rfl, rfl, rfl, fun _ hx => hx, fun _ hx => absurd hx (List.not_mem_nil _)⟩
  | cons d ds ih =>
    obtain ⟨a1, a2, a3, a4, a5, a6⟩ := add_index_keeps db d
    obtain ⟨b1, b2, b3, b4, b5, b6⟩ := ih (Db.add_index db d)
    refine ⟨b1.trans a1, b2.trans a2, b3.trans a3, b4.trans a4, fun x hx => b5 x (a5 x hx), ?_⟩
    intro x hx
    rcases List.mem_cons.1 hx with h | h
    · rw [h]; exact b5 d a6
    · exact b6 x h

/-- The function `snapshot_load` leaves the transaction engine and the name of
the database alone, keeps every version and index definition that was there,
and stamps every version it adds with the id of its transaction. -/
theorem snapshot_load_keeps (db : Db) (t : Transaction) (snap : SnapshotDecoder) :
    (SnapshotEngine.snapshot_load db t snap).2.tx_engine = db.tx_engine ∧
    (SnapshotEngine.snapshot_load db t snap).2.name = db.name ∧
    (∀ v ∈ db.vertices, v ∈ (SnapshotEngine.snapshot_load db t snap).2.vertices) ∧
    (∀ v ∈ db.edges, v ∈ (SnapshotEngine.snapshot_load db t snap).2.edges) ∧
    (∀ x ∈ db.indexes, x ∈ (SnapshotEngine.snapshot_load db t snap).2.indexes) ∧
    (∀ v ∈ (SnapshotEngine.snapshot_load db t snap).2.vertices,
      v ∈ db.vertices ∨ v.created_by = t.id) ∧
    (∀ v ∈ (SnapshotEngine.snapshot_load db t snap).2.edges,
      v ∈ db.edges ∨ v.created_by = t.id) := by
  have hv : ∀ v ∈ db.vertices ++ snap.vertices.items.map (fun c => Version.mk t.id c),
      v ∈ db.vertices ∨ v.created_by = t.id := by
    intro v hv
    rcases List.mem_append.1 hv with h | h
    · exact Or.inl h
    · obtain ⟨c, _, hc⟩ := List.mem_map.1 h
      exact Or.inr (by rw [← hc])
  have he : ∀ v ∈ db.edges ++ snap.edges.items.map (fun c => Version.mk t.id c),
      v ∈ db.edges ∨ v.created_by = t.id := by
    intro v hv
    rcases List.mem_append.1 hv with h | h
    · exact Or.inl h
    · obtain ⟨c, _, hc⟩ := List.mem_map.1 h
      exact Or.inr (by rw [← hc])
  obtain ⟨i1, i2, i3, i4, i5, _⟩ := add_indexes_keep snap.indexes.items
    (Db.insert_edges (Db.insert_vertices db t snap.vertices.items) t snap.edges.items)
  unfold SnapshotEngine.snapshot_load
  cases snap.load_init with
  | some e => exact ⟨rfl, rfl, fun _ h => h, fun _ h => h, fun _ h => h,
      fun _ h => Or.inl h, fun _ h => Or.inl h⟩
  | none =>
    cases snap.vertices.thrown with
    | some e =>
      exact ⟨rfl, rfl, fun _ h => List.mem_append_left _ h, fun _ h => h, fun _ h => h,
        hv, fun _ h => Or.inl h⟩
    | none =>
      cases snap.edges.thrown with
      | some e =>
        exact ⟨rfl, rfl, fun _ h => List.mem_append_left _ h,
          fun _ h => List.mem_append_left _ h, fun _ h => h, hv, he⟩
      | none =>
        cases snap.indexes.thrown with
        | some e =>
          dsimp only
          refine ⟨i1, i2, ?_, ?_, i5, ?_, ?_⟩
          · intro v h; rw [i3]; exact List.mem_append_left _ h
          · intro v h; rw [i4]; exact List.mem_append_left _ h
          · intro v h; rw [i3] at h; exact hv v h
          · intro v h; rw [i4] at h; exact he v h
        | none =>
          dsimp only
          refine ⟨i1, i2, ?_, ?_, i5, ?_, ?_⟩
          · intro v h; rw [i3]; exact List.mem_append_left _ h
          · intro v h; rw [i4]; exact List.mem_append_left _ h
          · intro v h; rw [i3] at h; exact hv v h
          · intro v h; rw [i4] at h; exact he v h

theorem snapshot_load_clean (db : Db) (t : Transaction) (snap : SnapshotDecoder)
    (h : snap.clean = true) :
    (SnapshotEngine.snapshot_load db t snap).1 = Except.ok true ∧
    (∀ c ∈ snap.vertices.items,
      Version.mk t.id c ∈ (SnapshotEngine.snapshot_load db t snap).2.vertices) ∧
    (∀ c ∈ snap.edges.items,
      Version.mk t.id c ∈ (SnapshotEngine.snapshot_load db t snap).2.edges) ∧
    (∀ x ∈ snap.indexes.items, x ∈ (SnapshotEngine.snapshot_load db t snap).2.indexes) := by
  simp only [SnapshotDecoder.clean, Bool.and_eq_true, Option.isNone_iff_eq_none] at h
  obtain ⟨⟨⟨h1, h2⟩, h3⟩, h4⟩ := h
  obtain ⟨_, _, i3, i4, _, i6⟩ := add_indexes_keep snap.indexes.items
    (Db.insert_edges (Db.insert_vertices db t snap.vertices.items) t snap.edges.items)
  unfold SnapshotEngine.snapshot_load
  simp only [h1, h2, h3, h4]
  refine ⟨trivial, ?_, ?_, i6⟩
  · intro c hc
    rw [i3]
    exact List.mem_append_right _ (List.mem_map.2 ⟨c, hc, rfl⟩)
  · intro c hc
    rw [i4]
    exact List.mem_append_right _ (List.mem_map.2 ⟨c, hc, rfl⟩)

theorem snapshot_load_unclean (db : Db) (t : Transaction) (snap : SnapshotDecoder)
    (h : snap.clean = false) :
    ∃ e, (SnapshotEngine.snapshot_load db t snap).1 = Except.error (Raised.exception e) := by
  unfold SnapshotEngine.snapshot_load
  cases h1 : snap.load_init with
  | some e => exact ⟨e, rfl⟩
  | none =>
    cases h2 : snap.vertices.thrown with
    | some e => exact ⟨e, rfl⟩
    | none =>
      cases h3 : snap.edges.thrown with
      | some e => exact ⟨e, rfl⟩
      | none =>
        cases h4 : snap.indexes.thrown with
        | some e => exact ⟨e, rfl⟩
        | none => simp [SnapshotDecoder.clean, h1, h2, h3, h4] at h

/-- An attempt of `import` on a snapshot that does not decode cleanly: the
transaction begun for it is aborted, what the attempt applied stays in the
database, and the loop goes on with the older snapshots. -/
theorem import_step_unclean (cfg : Absent) (decode : Option FileContent → SnapshotDecoder)
    (p : String) (rest : List String) (s : SnapshotEngine)
    (hu : Unissued s.db.tx_engine) (hp : (decode (s.disk p)).clean = false) :
    SnapshotEngine.import_loop cfg decode (p :: rest) s
      = SnapshotEngine.import_loop cfg decode rest
          (SnapshotEngine.after_failed cfg decode s p) := by
  obtain ⟨e, he⟩ := snapshot_load_unclean (Db.begin cfg s.db).2 (Db.begin cfg s.db).1
    (decode (s.disk p)) hp
  have htx := (snapshot_load_keeps (Db.begin cfg s.db).2 (Db.begin cfg s.db).1
    (decode (s.disk p))).1
  have ha := abort_of_unknown cfg _ _ (begin_entry_unknown cfg s.db.tx_engine hu)
  have hpair : SnapshotEngine.snapshot_load (Db.begin cfg s.db).2 (Db.begin cfg s.db).1
      (decode (s.disk p))
      = (Except.error (Raised.exception e),
          (SnapshotEngine.snapshot_load (Db.begin cfg s.db).2 (Db.begin cfg s.db).1
            (decode (s.disk p))).2) := by
    rw [← he]
  unfold SnapshotEngine.after_failed
  rw [SnapshotEngine.import_loop, hpair]
  simp only [Db.abort, htx]
  have hb : (Db.begin cfg s.db).2.tx_engine = (Engine.begin cfg s.db.tx_engine).2 := rfl
  have hb1 : (Db.begin cfg s.db).1 = (Engine.begin cfg s.db.tx_engine).1 := rfl
  rw [hb, hb1, ha]

/-- An attempt of `import` on a snapshot that decodes cleanly: the transaction
begun for it is committed and the loop ends with true. -/
theorem import_step_clean (cfg : Absent) (decode : Option FileContent → SnapshotDecoder)
    (p : String) (rest : List String) (s : SnapshotEngine)
    (hu : Unissued s.db.tx_engine) (hp : (decode (s.disk p)).clean = true) :
    SnapshotEngine.import_loop cfg decode (p :: rest) s
      = (Except.ok true, SnapshotEngine.after_loaded cfg decode s p) := by
  have he := (snapshot_load_clean (Db.begin cfg s.db).2 (Db.begin cfg s.db).1
    (decode (s.disk p)) hp).1
  have htx := (snapshot_load_keeps (Db.begin cfg s.db).2 (Db.begin cfg s.db).1
    (decode (s.disk p))).1
  have hc := commit_of_unknown cfg _ _ (begin_entry_unknown cfg s.db.tx_engine hu)
  have hpair : SnapshotEngine.snapshot_load (Db.begin cfg s.db).2 (Db.begin cfg s.db).1
      (decode (s.disk p))
      = (Except.ok true,
          (SnapshotEngine.snapshot_load (Db.begin cfg s.db).2 (Db.begin cfg s.db).1
            (decode (s.disk p))).2) := by
    rw [← he]
  unfold SnapshotEngine.after_loaded
  rw [SnapshotEngine.import_loop, hpair]
  simp only [Db.commit, htx]
  have hb : (Db.begin cfg s.db).2.tx_engine = (Engine.begin cfg s.db.tx_engine).2 := rfl
  have hb1 : (Db.begin cfg s.db).1 = (Engine.begin cfg s.db.tx_engine).1 := rfl
  rw [hb, hb1, hc]

theorem nat_shift (c j : Nat) : c + (j + 1) + 1 = c + 1 + j + 1 := by omega

theorem nat_shift_one (c n : Nat) : c + 1 + n = c + (n + 1) := by omega

theorem after_failed_facts (cfg : Absent) (decode : Option FileContent → SnapshotDecoder)
    (s : SnapshotEngine) (p : String) (hu : Unissued s.db.tx_engine) :
    Unissued (SnapshotEngine.after_failed cfg decode s p).db.tx_engine ∧
    (SnapshotEngine.after_failed cfg decode s p).db.tx_engine.engine.counter
      = s.db.tx_engine.engine.counter + 1 ∧
    (SnapshotEngine.after_failed cfg decode s p).db.tx_engine.clog
      (s.db.tx_engine.engine.counter + 1) = Status.Aborted ∧
    (∀ k, k ≤ s.db.tx_engine.engine.counter →
      (SnapshotEngine.after_failed cfg decode s p).db.tx_engine.clog k = s.db.tx_engine.clog k) ∧
    (SnapshotEngine.after_failed cfg decode s p).disk = s.disk ∧
    (SnapshotEngine.after_failed cfg decode s p).opened = s.opened ++ [p] := by
  have ha := abort_of_unknown cfg _ _ (begin_entry_unknown cfg s.db.tx_engine hu)
  have hun : Unissued (Engine.abort cfg (Engine.begin cfg s.db.tx_engine).2
      (Engine.begin cfg s.db.tx_engine).1).2 :=
    unissued_abort cfg _ _ (unissued_begin cfg _ hu) (by rw [begin_id, begin_counter])
  refine ⟨hun, ?_, ?_, ?_, rfl, rfl⟩
  · show (Engine.abort cfg (Engine.begin cfg s.db.tx_engine).2
        (Engine.begin cfg s.db.tx_engine).1).2.engine.counter = _
    rw [ha]; rfl
  · show (Engine.abort cfg (Engine.begin cfg s.db.tx_engine).2
        (Engine.begin cfg s.db.tx_engine).1).2.clog _ = _
    rw [ha]; simp [begin_id]
  · intro k hk
    show (Engine.abort cfg (Engine.begin cfg s.db.tx_engine).2
        (Engine.begin cfg s.db.tx_engine).1).2.clog k = _
    rw [ha]
    have hne : k ≠ s.db.tx_engine.engine.counter + 1 := Nat.ne_of_lt (Nat.lt_succ_of_le hk)
    simp [begin_id, hne, begin_clog]

theorem after_loaded_facts (cfg : Absent) (decode : Option FileContent → SnapshotDecoder)
    (s : SnapshotEngine) (p : String) (hu : Unissued s.db.tx_engine) :
    (SnapshotEngine.after_loaded cfg decode s p).db.tx_engine.engine.counter
      = s.db.tx_engine.engine.counter + 1 ∧
    (SnapshotEngine.after_loaded cfg decode s p).db.tx_engine.clog
      (s.db.tx_engine.engine.counter + 1) = Status.Committed ∧
    (∀ k, k ≤ s.db.tx_engine.engine.counter →
      (SnapshotEngine.after_loaded cfg decode s p).db.tx_engine.clog k = s.db.tx_engine.clog k) ∧
    (SnapshotEngine.after_loaded cfg decode s p).disk = s.disk ∧
    (SnapshotEngine.after_loaded cfg decode s p).opened = s.opened ++ [p] := by
  have hc := commit_of_unknown cfg _ _ (begin_entry_unknown cfg s.db.tx_engine hu)
  refine ⟨?_, ?_, ?_, rfl, rfl⟩
  · show (Engine.commit cfg (Engine.begin cfg s.db.tx_engine).2
        (Engine.begin cfg s.db.tx_engine).1).2.engine.counter = _
    rw [hc]; rfl
  · show (Engine.commit cfg (Engine.begin cfg s.db.tx_engine).2
        (Engine.begin cfg s.db.tx_engine).1).2.clog _ = _
    rw [hc]; simp [begin_id]
  · intro k hk
    show (Engine.commit cfg (Engine.begin cfg s.db.tx_engine).2
        (Engine.begin cfg s.db.tx_engine).1).2.clog k = _
    rw [hc]
    have hne : k ≠ s.db.tx_engine.engine.counter + 1 := Nat.ne_of_lt (Nat.lt_succ_of_le hk)
    simp [begin_id, hne, begin_clog]

/-- The loop of `import` over snapshots none of which decodes cleanly: every
one is attempted, in the order given, each under a transaction of its own that
is aborted, and the loop ends with false. -/
theorem import_loop_none (cfg : Absent) (decode : Option FileContent → SnapshotDecoder)
    (l : List String) (s : SnapshotEngine) (hu : Unissued s.db.tx_engine)
    (hl : ∀ p ∈ l, (decode (s.disk p)).clean = false) :
    (SnapshotEngine.import_loop cfg decode l s).1 = Except.ok false ∧
    (SnapshotEngine.import_loop cfg decode l s).2.opened = s.opened ++ l ∧
    (SnapshotEngine.import_loop cfg decode l s).2.db.tx_engine.engine.counter
      = s.db.tx_engine.engine.counter + l.length ∧
    (∀ i, i < l.length →
      (SnapshotEngine.import_loop cfg decode l s).2.db.tx_engine.clog
        (s.db.tx_engine.engine.counter + i + 1) = Status.Aborted) ∧
    (∀ k, k ≤ s.db.tx_engine.engine.counter →
      (SnapshotEngine.import_loop cfg decode l s).2.db.tx_engine.clog k
        = s.db.tx_engine.clog k) := by
  induction l generalizing s with
  | nil =>
    refine ⟨rfl, by simp [SnapshotEngine.import_loop], rfl, ?_, fun _ _ => rfl⟩
    intro i hi
    exact absurd hi (Nat.not_lt_zero i)
  | cons p rest ih =>
    obtain ⟨f1, f2, f3, f4, f5, f6⟩ := after_failed_facts cfg decode s p hu
    have hrest : ∀ q ∈ rest,
        (decode ((SnapshotEngine.after_failed cfg decode s p).disk q)).clean = false := by
      intro q hq
      rw [f5]
      exact hl q (List.mem_cons_of_mem _ hq)
    obtain ⟨r1, r2, r3, r4, r5⟩ := ih (SnapshotEngine.after_failed cfg decode s p) f1 hrest
    rw [import_step_unclean cfg decode p rest s hu (hl p (List.mem_cons_self _ _))]
    refine ⟨r1, ?_, ?_, ?_, ?_⟩
    · rw [r2, f6]; simp
    · rw [r3, f2, List.length_cons]; exact nat_shift_one _ _
    · intro i hi
      cases i with
      | zero =>
        rw [Nat.add_zero, r5 _ (Nat.le_of_eq f2.symm)]
        exact f3
      | succ j =>
        have hj : j < rest.length := by
          rw [List.length_cons] at hi
          omega
        have := r4 j hj
        rw [f2] at this
        rw [nat_shift]
        exact this
    · intro k hk
      rw [r5 k (by rw [f2]; exact Nat.le_succ_of_le hk)]
      exact f4 k hk

/-- The loop of `import` over snapshots of which `p` is the first that decodes
cleanly: the ones before it are attempted and aborted, `p` is loaded under a
transaction that is committed, and the ones after it are not touched. -/
theorem import_loop_first_clean (cfg : Absent) (decode : Option FileContent → SnapshotDecoder)
    (newer : List String) (p : String) (rest : List String) (s : SnapshotEngine)
    (hu : Unissued s.db.tx_engine)
    (hn : ∀ q ∈ newer, (decode (s.disk q)).clean = false)
    (hp : (decode (s.disk p)).clean = true) :
    (SnapshotEngine.import_loop cfg decode (newer ++ p :: rest) s).1 = Except.ok true ∧
    (SnapshotEngine.import_loop cfg decode (newer ++ p :: rest) s).2.opened
      = s.opened ++ newer ++ [p] ∧
    (SnapshotEngine.import_loop cfg decode (newer ++ p :: rest) s).2.db.tx_engine.engine.counter
      = s.db.tx_engine.engine.counter + newer.length + 1 ∧
    (SnapshotEngine.import_loop cfg decode (newer ++ p :: rest) s).2.db.tx_engine.clog
      (s.db.tx_engine.engine.counter + newer.length + 1) = Status.Committed ∧
    (∀ i, i < newer.length →
      (SnapshotEngine.import_loop cfg decode (newer ++ p :: rest) s).2.db.tx_engine.clog
        (s.db.tx_engine.engine.counter + i + 1) = Status.Aborted) ∧
    (∀ k, k ≤ s.db.tx_engine.engine.counter →
      (SnapshotEngine.import_loop cfg decode (newer ++ p :: rest) s).2.db.tx_engine.clog k
        = s.db.tx_engine.clog k) ∧
    (∀ c ∈ (decode (s.disk p)).vertices.items,
      Version.mk (s.db.tx_engine.engine.counter + newer.length + 1) c
        ∈ (SnapshotEngine.import_loop cfg decode (newer ++ p :: rest) s).2.db.vertices) ∧
    (∀ c ∈ (decode (s.disk p)).edges.items,
      Version.mk (s.db.tx_engine.engine.counter + newer.length + 1) c
        ∈ (SnapshotEngine.import_loop cfg decode (newer ++ p :: rest) s).2.db.edges) ∧
    (∀ x ∈ (decode (s.disk p)).indexes.items,
      x ∈ (SnapshotEngine.import_loop cfg decode (newer ++ p :: rest) s).2.db.indexes) := by
  induction newer generalizing s with
  | nil =>
    obtain ⟨g1, g2, g3, _, g5⟩ := after_loaded_facts cfg decode s p hu
    obtain ⟨_, c2, c3, c4⟩ := snapshot_load_clean (Db.begin cfg s.db).2 (Db.begin cfg s.db).1
      (decode (s.disk p)) hp
    rw [List.nil_append, import_step_clean cfg decode p rest s hu hp]
    refine ⟨rfl, by rw [g5]; simp, g1, g2, ?_, g3, ?_, ?_, c4⟩
    · intro i hi
      exact absurd hi (Nat.not_lt_zero i)
    · intro c hc
      have := c2 c hc
      simpa [Db.begin, begin_id] using this
    · intro c hc
      have := c3 c hc
      simpa [Db.begin, begin_id] using this
  | cons q newer ih =>
    obtain ⟨f1, f2, f3, f4, f5, f6⟩ := after_failed_facts cfg decode s q hu
    have hn2 : ∀ r ∈ newer,
        (decode ((SnapshotEngine.after_failed cfg decode s q).disk r)).clean = false := by
      intro r hr
      rw [f5]
      exact hn r (List.mem_cons_of_mem _ hr)
    have hp2 : (decode ((SnapshotEngine.after_failed cfg decode s q).disk p)).clean = true := by
      rw [f5]; exact hp
    obtain ⟨r1, r2, r3, r4, r5, r6, r7, r8, r9⟩ :=
      ih (SnapshotEngine.after_failed cfg decode s q) f1 hn2 hp2
    have he : s.db.tx_engine.engine.counter + (q :: newer).length + 1
        = s.db.tx_engine.engine.counter + 1 + newer.length + 1 := by
      rw [List.length_cons]; exact nat_shift _ _
    rw [List.cons_append,
      import_step_unclean cfg decode q (newer ++ p :: rest) s hu (hn q (List.mem_cons_self _ _))]
    rw [f2] at r3 r4 r5 r6 r7 r8
    rw [f5] at r7 r8 r9
    refine ⟨r1, ?_, ?_, ?_, ?_, ?_, ?_, ?_, r9⟩
    · rw [r2, f6]; simp
    · rw [r3, he]
    · rw [he]; exact r4
    · intro i hi
      cases i with
      | zero =>
        rw [Nat.add_zero, r6 _ (Nat.le_refl _)]
        exact f3
      | succ j =>
        have hj : j < newer.length := by
          rw [List.length_cons] at hi
          omega
        have := r5 j hj
        rw [nat_shift]
        exact this
    · intro k hk
      rw [r6 k (Nat.le_succ_of_le hk)]
      exact f4 k hk
    · rw [he]; exact r7
    · rw [he]; exact r8

theorem import_of_loop_ok (cfg : Absent) (decode : Option FileContent → SnapshotDecoder)
    (s : SnapshotEngine) (b : Bool)
    (h : (SnapshotEngine.import_loop cfg decode
      (Disk.lines s.disk (SnapshotEngine.snapshot_commit_file s)).reverse s).1 = Except.ok b) :
    SnapshotEngine.import_ cfg decode s
      = SnapshotEngine.import_loop cfg decode
          (Disk.lines s.disk (SnapshotEngine.snapshot_commit_file s)).reverse s := by
  unfold SnapshotEngine.import_
  split
  · rename_i heq
    rw [heq] at h
    simp at h
  · rfl

theorem exists_last_clean (P : String → Bool) (l : List String) (h : ∃ p ∈ l, P p = true) :
    ∃ older p newer, l = older ++ p :: newer ∧ P p = true ∧ ∀ q ∈ newer, P q = false := by
  induction l with
  | nil =>
    obtain ⟨p, hp, _⟩ := h
    exact absurd hp (List.not_mem_nil p)
  | cons a l ih =>
    by_cases hl : ∃ p ∈ l, P p = true
    · obtain ⟨older, p, newer, h1, h2, h3⟩ := ih hl
      exact ⟨a :: older, p, newer, by rw [h1]; rfl, h2, h3⟩
    · have hnone : ∀ q ∈ l, P q = false := by
        intro q hq
        cases hP : P q with
        | false => rfl
        | true => exact absurd ⟨q, hq, hP⟩ hl
      obtain ⟨p, hp, hP⟩ := h
      rcases List.mem_cons.1 hp with he | he
      · exact ⟨[], a, l, rfl, he ▸ hP, hnone⟩
      · exact absurd ⟨p, he, hP⟩ hl

/-- The loop of `import` removes nothing from the database: every version and
every index definition that is there stays there. -/
theorem import_loop_keeps (cfg : Absent) (decode : Option FileContent → SnapshotDecoder)
    (l : List String) (s : SnapshotEngine) (hu : Unissued s.db.tx_engine) :
    (∀ v ∈ s.db.vertices, v ∈ (SnapshotEngine.import_loop cfg decode l s).2.db.vertices) ∧
    (∀ v ∈ s.db.edges, v ∈ (SnapshotEngine.import_loop cfg decode l s).2.db.edges) ∧
    (∀ x ∈ s.db.indexes, x ∈ (SnapshotEngine.import_loop cfg decode l s).2.db.indexes) := by
  induction l generalizing s with
  | nil => exact ⟨fun _ h => h, fun _ h => h, fun _ h => h⟩
  | cons p rest ih =>
    obtain ⟨_, _, k3, k4, k5, _, _⟩ := snapshot_load_keeps (Db.begin cfg s.db).2
      (Db.begin cfg s.db).1 (decode (s.disk p))
    cases hp : (decode (s.disk p)).clean with
    | true =>
      rw [import_step_clean cfg decode p rest s hu hp]
      exact ⟨k3, k4, k5⟩
    | false =>
      rw [import_step_unclean cfg decode p rest s hu hp]
      obtain ⟨i1, i2, i3⟩ := ih (SnapshotEngine.after_failed cfg decode s p)
        (after_failed_facts cfg decode s p hu).1
      exact ⟨fun v hv => i1 v (k3 v hv), fun v hv => i2 v (k4 v hv),
        fun x hx => i3 x (k5 x hx)⟩

theorem import_none_loadable (cfg : Absent)
    (decode : Option FileContent → SnapshotDecoder) (s : SnapshotEngine)
    (hu : Unissued s.db.tx_engine) :
    (∀ p ∈ Disk.lines s.disk (SnapshotEngine.snapshot_commit_file s),
      (decode (s.disk p)).clean = false) →
    (SnapshotEngine.import_ cfg decode s).1 = Except.ok false ∧
    (SnapshotEngine.import_ cfg decode s).2.opened
      = s.opened ++ (Disk.lines s.disk (SnapshotEngine.snapshot_commit_file s)).reverse ∧
    (∀ i, i < (Disk.lines s.disk (SnapshotEngine.snapshot_commit_file s)).length →
      (SnapshotEngine.import_ cfg decode s).2.db.tx_engine.clog
        (s.db.tx_engine.engine.counter + i + 1) = Status.Aborted) := by
  intro h
  obtain ⟨r1, r2, _, r4, _⟩ := import_loop_none cfg decode
    (Disk.lines s.disk (SnapshotEngine.snapshot_commit_file s)).reverse s hu
    (fun p hp => h p (List.mem_reverse.1 hp))
  rw [import_of_loop_ok cfg decode s false r1]
  refine ⟨r1, r2, ?_⟩
  intro i hi
  exact r4 i (by rw [List.length_reverse]; exact hi)

theorem import_last_loadable (cfg : Absent)
    (decode : Option FileContent → SnapshotDecoder) (s : SnapshotEngine)
    (hu : Unissued s.db.tx_engine) :
    ∀ older p newer,
    Disk.lines s.disk (SnapshotEngine.snapshot_commit_file s) = older ++ p :: newer →
    (decode (s.disk p)).clean = true →
    (∀ q ∈ newer, (decode (s.disk q)).clean = false) →
    (SnapshotEngine.import_ cfg decode s).1 = Except.ok true ∧
    (SnapshotEngine.import_ cfg decode s).2.opened = s.opened ++ newer.reverse ++ [p] ∧
    Engine.count (SnapshotEngine.import_ cfg decode s).2.db.tx_engine
      = Engine.count s.db.tx_engine + newer.length + 1 ∧
    (SnapshotEngine.import_ cfg decode s).2.db.tx_engine.clog
      (s.db.tx_engine.engine.counter + newer.length + 1) = Status.Committed ∧
    (∀ i, i < newer.length →
      (SnapshotEngine.import_ cfg decode s).2.db.tx_engine.clog
        (s.db.tx_engine.engine.counter + i + 1) = Status.Aborted) ∧
    (∀ c ∈ (decode (s.disk p)).vertices.items,
      Version.mk (s.db.tx_engine.engine.counter + newer.length + 1) c
        ∈ (SnapshotEngine.import_ cfg decode s).2.db.vertices) ∧
    (∀ c ∈ (decode (s.disk p)).edges.items,
      Version.mk (s.db.tx_engine.engine.counter + newer.length + 1) c
        ∈ (SnapshotEngine.import_ cfg decode s).2.db.edges) ∧
    (∀ x ∈ (decode (s.disk p)).indexes.items,
      x ∈ (SnapshotEngine.import_ cfg decode s).2.db.indexes) := by
  intro older p newer hl hp hn
  have hrev : (Disk.lines s.disk (SnapshotEngine.snapshot_commit_file s)).reverse
      = newer.reverse ++ p :: older.reverse := by
    rw [hl]; simp
  have hloop := import_loop_first_clean cfg decode newer.reverse p older.reverse s hu
    (fun q hq => hn q (List.mem_reverse.1 hq)) hp
  rw [← hrev, List.length_reverse] at hloop
  obtain ⟨r1, r2, r3, r4, r5, _, r7, r8, r9⟩ := hloop
  rw [import_of_loop_ok cfg decode s true r1]
  exact ⟨r1, r2, r3, r4, r5, r7, r8, r9⟩

/-! ## Claims about `import` -/

/-- C18: in a state where no outcome is recorded for an id not yet issued, and
for every content of the commit-file: (a) when no listed snapshot decodes
cleanly, import opens all of them from the last listed to the first, aborts the
transaction of each attempt and returns false; (b) when p is the last listed
snapshot that decodes cleanly, import opens the snapshots listed after p from
the last one backwards, aborting the transaction of each, then opens p, loads it
under a transaction that it commits, returns true and opens none of the
snapshots listed before p; (c) import returns true exactly when some listed
snapshot decodes cleanly; (d) with an empty or missing commit-file it returns
false and leaves the whole state, the transaction engine included, as it was. -/
theorem C18_import_newest_loadable (cfg : Absent)
    (decode : Option FileContent → SnapshotDecoder) (s : SnapshotEngine)
    (hu : Unissued s.db.tx_engine) :
    ((∀ p ∈ Disk.lines s.disk (SnapshotEngine.snapshot_commit_file s),
        (decode (s.disk p)).clean = false) →
      (SnapshotEngine.import_ cfg decode s).1 = Except.ok false ∧
      (SnapshotEngine.import_ cfg decode s).2.opened
        = s.opened ++ (Disk.lines s.disk (SnapshotEngine.snapshot_commit_file s)).reverse ∧
      (∀ i, i < (Disk.lines s.disk (SnapshotEngine.snapshot_commit_file s)).length →
        (SnapshotEngine.import_ cfg decode s).2.db.tx_engine.clog
          (s.db.tx_engine.engine.counter + i + 1) = Status.Aborted)) ∧
    (∀ older p newer,
      Disk.lines s.disk (SnapshotEngine.snapshot_commit_file s) = older ++ p :: newer →
      (decode (s.disk p)).clean = true →
      (∀ q ∈ newer, (decode (s.disk q)).clean = false) →
      (SnapshotEngine.import_ cfg decode s).1 = Except.ok true ∧
      (SnapshotEngine.import_ cfg decode s).2.opened = s.opened ++ newer.reverse ++ [p] ∧
      Engine.count (SnapshotEngine.import_ cfg decode s).2.db.tx_engine
        = Engine.count s.db.tx_engine + newer.length + 1 ∧
      (SnapshotEngine.import_ cfg decode s).2.db.tx_engine.clog
        (s.db.tx_engine.engine.counter + newer.length + 1) = Status.Committed ∧
      (∀ i, i < newer.length →
        (SnapshotEngine.import_ cfg decode s).2.db.tx_engine.clog
          (s.db.tx_engine.engine.counter + i + 1) = Status.Aborted) ∧
      (∀ c ∈ (decode (s.disk p)).vertices.items,
        Version.mk (s.db.tx_engine.engine.counter + newer.length + 1) c
          ∈ (SnapshotEngine.import_ cfg decode s).2.db.vertices) ∧
      (∀ c ∈ (decode (s.disk p)).edges.items,
        Version.mk (s.db.tx_engine.engine.counter + newer.length + 1) c
          ∈ (SnapshotEngine.import_ cfg decode s).2.db.edges) ∧
      (∀ x ∈ (decode (s.disk p)).indexes.items,
        x ∈ (SnapshotEngine.import_ cfg decode s).2.db.indexes)) ∧
    ((SnapshotEngine.import_ cfg decode s).1 = Except.ok true ↔
      ∃ p ∈ Disk.lines s.disk (SnapshotEngine.snapshot_commit_file s),
        (decode (s.disk p)).clean = true) ∧
    (Disk.lines s.disk (SnapshotEngine.snapshot_commit_file s) = [] →
      SnapshotEngine.import_ cfg decode s = (Except.ok false, s)) := by
  have hnone := import_none_loadable cfg decode s hu
  have hsome := import_last_loadable cfg decode s hu
  refine ⟨hnone, hsome, ?_, ?_⟩
  · constructor
    · intro ht
      by_contra hno
      have hall : ∀ p ∈ Disk.lines s.disk (SnapshotEngine.snapshot_commit_file s),
          (decode (s.disk p)).clean = false := by
        intro p hp
        cases hP : (decode (s.disk p)).clean with
        | false => rfl
        | true => exact absurd ⟨p, hp, hP⟩ hno
      rw [(hnone hall).1] at ht
      simp at ht
    · intro hex
      obtain ⟨older, p, newer, h1, h2, h3⟩ :=
        exists_last_clean (fun p => (decode (s.disk p)).clean) _ hex
      exact (hsome older p newer h1 h2 h3).1
  · intro he
    unfold SnapshotEngine.import_
    rw [he]
    rfl

/-- Witness for C18: the commit-file lists "old" and then "new"; "new" does not
decode, "old" does: import opens "new", then "old", and returns true with
transaction 1 aborted and transaction 2 committed. -/
theorem C18_import_newest_loadable_witness :
    Unissued SnapshotEngine.two_snapshots.db.tx_engine ∧
    (SnapshotEngine.import_ ⟨1, true⟩ SnapshotEngine.sample_decode
      SnapshotEngine.two_snapshots).1 = Except.ok true ∧
    (SnapshotEngine.import_ ⟨1, true⟩ SnapshotEngine.sample_decode
      SnapshotEngine.two_snapshots).2.opened = ["new", "old"] ∧
    (SnapshotEngine.import_ ⟨1, true⟩ SnapshotEngine.sample_decode
      SnapshotEngine.two_snapshots).2.db.tx_engine.clog 2 = Status.Committed :=
  ⟨fun _ _ => rfl,
    ((C18_import_newest_loadable ⟨1, true⟩ SnapshotEngine.sample_decode
      SnapshotEngine.two_snapshots (fun _ _ => rfl)).2.2.1).2 ⟨"old", by decide, by decide⟩,
    by decide, by decide⟩

/-- C19 (as the code has it): when the commit-file ends with a valid snapshot
followed by a corrupt newest one, import returns true having opened the corrupt
one and then the valid one; the transaction of the corrupt attempt is Aborted
and the one that loaded the valid snapshot is Committed.  Nothing is undone:
every vertex version, edge version and index definition the corrupt attempt had
put in the database is still there; the versions it created are stamped with
the aborted transaction, whose id is visible to no other transaction under
READ_COMMITTED or SNAPSHOT_ISOLATION. -/
theorem C19_corrupt_attempt_aborted_not_undone (cfg : Absent)
    (decode : Option FileContent → SnapshotDecoder) (s : SnapshotEngine)
    (older : List String) (valid corrupt : String)
    (hu : Unissued s.db.tx_engine)
    (hl : Disk.lines s.disk (SnapshotEngine.snapshot_commit_file s) = older ++ [valid, corrupt])
    (hv : (decode (s.disk valid)).clean = true)
    (hc : (decode (s.disk corrupt)).clean = false) :
    (SnapshotEngine.import_ cfg decode s).1 = Except.ok true ∧
    (SnapshotEngine.import_ cfg decode s).2.opened = s.opened ++ [corrupt, valid] ∧
    (SnapshotEngine.import_ cfg decode s).2.db.tx_engine.clog
      (s.db.tx_engine.engine.counter + 1) = Status.Aborted ∧
    (SnapshotEngine.import_ cfg decode s).2.db.tx_engine.clog
      (s.db.tx_engine.engine.counter + 2) = Status.Committed ∧
    (∀ c ∈ (decode (s.disk valid)).vertices.items,
      Version.mk (s.db.tx_engine.engine.counter + 2) c
        ∈ (SnapshotEngine.import_ cfg decode s).2.db.vertices) ∧
    (∀ v ∈ (SnapshotEngine.snapshot_load (Db.begin cfg s.db).2 (Db.begin cfg s.db).1
          (decode (s.disk corrupt))).2.vertices,
      v ∈ (SnapshotEngine.import_ cfg decode s).2.db.vertices ∧
      (v ∈ s.db.vertices ∨ v.created_by = s.db.tx_engine.engine.counter + 1)) ∧
    (∀ v ∈ (SnapshotEngine.snapshot_load (Db.begin cfg s.db).2 (Db.begin cfg s.db).1
          (decode (s.disk corrupt))).2.edges,
      v ∈ (SnapshotEngine.import_ cfg decode s).2.db.edges ∧
      (v ∈ s.db.edges ∨ v.created_by = s.db.tx_engine.engine.counter + 1)) ∧
    (∀ x ∈ (SnapshotEngine.snapshot_load (Db.begin cfg s.db).2 (Db.begin cfg s.db).1
          (decode (s.disk corrupt))).2.indexes,
      x ∈ (SnapshotEngine.import_ cfg decode s).2.db.indexes) ∧
    (∀ T : Transaction, T.id ≠ s.db.tx_engine.engine.counter + 1 →
      visible IsolationLevel.READ_COMMITTED
        (SnapshotEngine.import_ cfg decode s).2.db.tx_engine.clog T
        (s.db.tx_engine.engine.counter + 1) = false ∧
      visible IsolationLevel.SNAPSHOT_ISOLATION
        (SnapshotEngine.import_ cfg decode s).2.db.tx_engine.clog T
        (s.db.tx_engine.engine.counter + 1) = false) := by
  have hsplit : Disk.lines s.disk (SnapshotEngine.snapshot_commit_file s)
      = older ++ valid :: [corrupt] := by rw [hl]
  have hnew : ∀ q ∈ [corrupt], (decode (s.disk q)).clean = false := by
    intro q hq
    rw [List.mem_singleton.1 hq]
    exact hc
  obtain ⟨r1, r2, _, r4, r5, r6, _, _⟩ :=
    import_last_loadable cfg decode s hu older valid [corrupt] hsplit hv hnew
  have hab := r5 0 (by simp)
  rw [Nat.add_zero] at hab
  have hloop : SnapshotEngine.import_ cfg decode s
      = SnapshotEngine.import_loop cfg decode (valid :: older.reverse)
          (SnapshotEngine.after_failed cfg decode s corrupt) := by
    rw [import_of_loop_ok cfg decode s true (by
      have := (import_loop_first_clean cfg decode [corrupt] valid older.reverse s hu hnew hv).1
      rw [hl]
      simpa using this)]
    rw [hl]
    simp only [List.reverse_append, List.reverse_cons, List.reverse_nil, List.nil_append,
      List.singleton_append, List.cons_append]
    exact import_step_unclean cfg decode corrupt (valid :: older.reverse) s hu hc
  obtain ⟨k1, k2, k3⟩ := import_loop_keeps cfg decode (valid :: older.reverse)
    (SnapshotEngine.after_failed cfg decode s corrupt) (after_failed_facts cfg decode s corrupt hu).1
  obtain ⟨_, _, _, _, _, s6, s7⟩ := snapshot_load_keeps (Db.begin cfg s.db).2
    (Db.begin cfg s.db).1 (decode (s.disk corrupt))
  refine ⟨r1, ?_, hab, r4, r6, ?_, ?_, ?_, ?_⟩
  · rw [r2]; simp
  · intro v hv2
    refine ⟨?_, ?_⟩
    · rw [hloop]; exact k1 v hv2
    · have := s6 v hv2
      simpa [Db.begin, begin_id] using this
  · intro v hv2
    refine ⟨?_, ?_⟩
    · rw [hloop]; exact k2 v hv2
    · have := s7 v hv2
      simpa [Db.begin, begin_id] using this
  · intro x hx
    rw [hloop]; exact k3 x hx
  · intro T hT
    have hne : s.db.tx_engine.engine.counter + 1 ≠ T.id := fun e => hT e.symm
    constructor
    · simp [visible, hne, hab]
    · simp [visible, hne, hab]

/-- Witness for C19: on the example with the commit-file listing "old" then
"new", import returns true and the index definition "idx", put in the database
by the attempt on the corrupt "new", is still there. -/
theorem C19_corrupt_attempt_aborted_not_undone_witness :
    Unissued SnapshotEngine.two_snapshots.db.tx_engine ∧
    (SnapshotEngine.import_ ⟨1, true⟩ SnapshotEngine.sample_decode
      SnapshotEngine.two_snapshots).1 = Except.ok true ∧
    (SnapshotEngine.import_ ⟨1, true⟩ SnapshotEngine.sample_decode
      SnapshotEngine.two_snapshots).2.db.tx_engine.clog 1 = Status.Aborted :=
  ⟨fun _ _ => rfl,
    (C19_corrupt_attempt_aborted_not_undone ⟨1, true⟩ SnapshotEngine.sample_decode
      SnapshotEngine.two_snapshots [] "old" "new" (fun _ _ => rfl) (by decide) (by decide)
      (by decide)).1,
    by decide⟩

/-- Counterexample to C19 as stated: the commit-file lists the valid "old" and
then the corrupt "new", whose decoding yields a vertex and an index definition
before it throws.  Import returns true with the corrupt attempt's transaction 1
Aborted and transaction 2 Committed, yet the database still holds the vertex
version and the index definition that the corrupt attempt applied; the valid
snapshot holds neither. -/
theorem C19_counterexample :
    (SnapshotEngine.import_ ⟨1, true⟩ SnapshotEngine.sample_decode
      SnapshotEngine.two_snapshots).1 = Except.ok true ∧
    (SnapshotEngine.import_ ⟨1, true⟩ SnapshotEngine.sample_decode
      SnapshotEngine.two_snapshots).2.db.tx_engine.clog 1 = Status.Aborted ∧
    (SnapshotEngine.import_ ⟨1, true⟩ SnapshotEngine.sample_decode
      SnapshotEngine.two_snapshots).2.db.tx_engine.clog 2 = Status.Committed ∧
    (SnapshotEngine.import_ ⟨1, true⟩ SnapshotEngine.sample_decode
      SnapshotEngine.two_snapshots).2.db.vertices = [⟨1, "ghost"⟩, ⟨2, "a"⟩] ∧
    (SnapshotEngine.import_ ⟨1, true⟩ SnapshotEngine.sample_decode
      SnapshotEngine.two_snapshots).2.db.indexes = ["idx"] ∧
    SnapshotEngine.two_snapshots.db.vertices = [] ∧
    SnapshotEngine.two_snapshots.db.indexes = [] ∧
    (SnapshotEngine.sample_decode (SnapshotEngine.two_snapshots.disk "old")).vertices.items
      = ["a"] ∧
    (SnapshotEngine.sample_decode (SnapshotEngine.two_snapshots.disk "old")).indexes.items
      = [] := by
  refine ⟨rfl, by decide, by decide, by decide, by decide, rfl, rfl, by decide, by decide⟩

theorem set_records (cfg : Absent) (log : CommitLog) (id : Id) (s : Status)
    (hs : s ≠ Status.Unknown) : (CommitLog.set cfg log id s).2 id ≠ Status.Unknown := by
  rcases set_cases cfg log id s with h | ⟨_, h⟩
  · rw [h]
    intro hu
    rw [set_unknown cfg log id s hu] at h
    have := congrFun h id
    simp only [if_true] at this
    exact hs (this.trans hu)
  · rw [h]
    simpa using hs

theorem settled_of_step (w v : World)
    (hc : v.engine.counter = w.engine.counter)
    (ha : ∀ k, k ∈ w.engine.active → k ∈ v.engine.active ∨ v.clog k ≠ Status.Unknown)
    (hl : ∀ k, w.clog k ≠ Status.Unknown → v.clog k ≠ Status.Unknown)
    (h : Settled w) : Settled v := by
  intro k h1 h2
  rw [hc] at h2
  rcases h k h1 h2 with hk | hk
  · exact ha k hk
  · exact Or.inr (hl k hk)

theorem settled_finalized (cfg : Absent) (w : World) (t : Transaction) (s : Status)
    (hs : s ≠ Status.Unknown) (v : World)
    (hlog : v.clog = (CommitLog.set cfg w.clog t.id s).2)
    (heng : v.engine = w.engine ∨ v.engine = Engine.finalize w.engine t)
    (h : Settled w) : Settled v := by
  have hl : ∀ k, w.clog k ≠ Status.Unknown → v.clog k ≠ Status.Unknown := by
    intro k hk
    rw [hlog, set_keeps_terminal cfg _ _ _ _ hk]
    exact hk
  have hrec : v.clog t.id ≠ Status.Unknown := by
    rw [hlog]
    exact set_records cfg _ _ _ hs
  refine settled_of_step w v ?_ ?_ hl h
  · rcases heng with he | he
    · rw [he]
    · rw [he]; rfl
  · intro k hk
    rcases heng with he | he
    · left; rw [he]; exact hk
    · by_cases hkt : k = t.id
      · right; rw [hkt]; exact hrec
      · left
        rw [he]
        simp only [Engine.finalize, Snapshot.remove, List.mem_filter]
        exact ⟨hk, by simp [hkt]⟩

theorem settled_call (cfg : Absent) (w : World) (c : Call) (h : Settled w) :
    Settled (Engine.call cfg w c) := by
  cases c with
  | begin =>
    intro k h1 h2
    rw [Engine.call, begin_counter] at h2
    by_cases hk : k = w.engine.counter + 1
    · left
      simp [Engine.call, Engine.begin, SimpleCounter.next, Snapshot.insert, hk]
    · have h3 : k ≤ w.engine.counter := by
        rcases Nat.lt_or_eq_of_le h2 with h4 | h4
        · exact Nat.le_of_lt_succ h4
        · exact absurd h4 hk
      rcases h k h1 h3 with hk2 | hk2
      · left
        simp [Engine.call, Engine.begin, SimpleCounter.next, Snapshot.insert, hk2]
      · right
        exact hk2
  | advance id =>
    obtain ⟨g1, g2, g3⟩ := advance_engine w id
    refine settled_of_step w _ g1 ?_ ?_ h
    · intro k hk; left; simp only [Engine.call, g2]; exact hk
    · intro k hk; simp only [Engine.call, g3]; exact hk
  | commit t =>
    exact settled_finalized cfg w t Status.Committed (by decide) _ (commit_clog cfg w t)
      (commit_engine cfg w t) h
  | abort t =>
    exact settled_finalized cfg w t Status.Aborted (by decide) _ (abort_clog cfg w t)
      (abort_engine cfg w t) h

theorem settled_run (cfg : Absent) (cs : List Call) (w : World) (h : Settled w) :
    Settled (Engine.run cfg cs w) := by
  induction cs generalizing w with
  | nil => exact h
  | cons c cs ih => exact ih (Engine.call cfg w c) (settled_call cfg w c h)

theorem settled_fresh : Settled fresh := by
  intro k h1 h2
  exact absurd (Nat.le_trans h1 h2) (by decide)

theorem commit_after_recorded (cfg : Absent) (w : World) (t : Transaction) :
    (Engine.commit cfg w t).2 = Engine.commit_recorded cfg w t ∨
    (Engine.commit cfg w t).2
      = { engine := Engine.finalize (Engine.commit_recorded cfg w t).engine t,
          clog := (Engine.commit_recorded cfg w t).clog } := by
  unfold Engine.commit Engine.commit_recorded
  split <;> rename_i heq <;> rw [heq]
  · left; rfl
  · right; rfl

theorem abort_after_recorded (cfg : Absent) (w : World) (t : Transaction) :
    (Engine.abort cfg w t).2 = Engine.abort_recorded cfg w t ∨
    (Engine.abort cfg w t).2
      = { engine := Engine.finalize (Engine.abort_recorded cfg w t).engine t,
          clog := (Engine.abort_recorded cfg w t).clog } := by
  unfold Engine.abort Engine.abort_recorded
  split <;> rename_i heq <;> rw [heq]
  · left; rfl
  · right; rfl

/-- C24: in every state reached from a fresh engine by any sequence of calls,
every id issued by a begin of that sequence (every id from 1 to the counter) is
in the active set or has a Committed or Aborted entry in the commit log; the
same holds in the state inside commit and inside abort after the outcome has
been recorded and before the removal, where the transaction's entry is already
terminal and the active set is still as it was; the call ends either in that
state or in that state with finalize applied. -/
theorem C24_issued_ids_active_or_terminal (cfg : Absent) (cs : List Call) :
    Settled (Engine.run cfg cs fresh) ∧
    (∀ pre post, cs = pre ++ Call.begin :: post →
      (Engine.begin cfg (Engine.run cfg pre fresh)).1.id ∈ (Engine.run cfg cs fresh).engine.active ∨
      (Engine.run cfg cs fresh).clog (Engine.begin cfg (Engine.run cfg pre fresh)).1.id
        ≠ Status.Unknown) ∧
    (∀ t, Settled (Engine.commit_recorded cfg (Engine.run cfg cs fresh) t) ∧
      (Engine.commit_recorded cfg (Engine.run cfg cs fresh) t).clog t.id ≠ Status.Unknown ∧
      (Engine.commit_recorded cfg (Engine.run cfg cs fresh) t).engine
        = (Engine.run cfg cs fresh).engine ∧
      ((Engine.commit cfg (Engine.run cfg cs fresh) t).2
          = Engine.commit_recorded cfg (Engine.run cfg cs fresh) t ∨
        (Engine.commit cfg (Engine.run cfg cs fresh) t).2
          = { engine := Engine.finalize
                (Engine.commit_recorded cfg (Engine.run cfg cs fresh) t).engine t,
              clog := (Engine.commit_recorded cfg (Engine.run cfg cs fresh) t).clog })) ∧
    (∀ t, Settled (Engine.abort_recorded cfg (Engine.run cfg cs fresh) t) ∧
      (Engine.abort_recorded cfg (Engine.run cfg cs fresh) t).clog t.id ≠ Status.Unknown ∧
      (Engine.abort_recorded cfg (Engine.run cfg cs fresh) t).engine
        = (Engine.run cfg cs fresh).engine ∧
      ((Engine.abort cfg (Engine.run cfg cs fresh) t).2
          = Engine.abort_recorded cfg (Engine.run cfg cs fresh) t ∨
        (Engine.abort cfg (Engine.run cfg cs fresh) t).2
          = { engine := Engine.finalize
                (Engine.abort_recorded cfg (Engine.run cfg cs fresh) t).engine t,
              clog := (Engine.abort_recorded cfg (Engine.run cfg cs fresh) t).clog })) := by
  have hs := settled_run cfg cs fresh settled_fresh
  refine ⟨hs, ?_, ?_, ?_⟩
  · intro pre post hcs
    have hrun : Engine.run cfg cs fresh
        = Engine.run cfg post (Engine.begin cfg (Engine.run cfg pre fresh)).2 := by
      rw [hcs, run_append]
      rfl
    refine hs _ ?_ ?_
    · rw [begin_id]; exact Nat.succ_le_succ (Nat.zero_le _)
    · rw [hrun, begin_id, ← begin_counter cfg]
      exact counter_le_run cfg post _
  · intro t
    refine ⟨?_, set_records cfg _ _ _ (by decide), rfl, commit_after_recorded cfg _ t⟩
    exact settled_finalized cfg _ t Status.Committed (by decide) _ rfl (Or.inl rfl) hs
  · intro t
    refine ⟨?_, set_records cfg _ _ _ (by decide), rfl, abort_after_recorded cfg _ t⟩
    exact settled_finalized cfg _ t Status.Aborted (by decide) _ rfl (Or.inl rfl) hs

theorem active_was_begun (cfg : Absent) (cs : List Call) :
    ∀ x ∈ (Engine.run cfg cs fresh).engine.active,
      ∃ pre post, cs = pre ++ Call.begin :: post ∧
        (Engine.begin cfg (Engine.run cfg pre fresh)).1.id = x := by
  induction cs using List.reverseRecOn with
  | nil =>
    intro x hx
    exact absurd hx (List.not_mem_nil x)
  | append_singleton cs c ih =>
    intro x hx
    rw [run_append] at hx
    have hstep : Engine.run cfg [c] (Engine.run cfg cs fresh)
        = Engine.call cfg (Engine.run cfg cs fresh) c := rfl
    rw [hstep] at hx
    have hold : x ∈ (Engine.run cfg cs fresh).engine.active →
        ∃ pre post, cs ++ [c] = pre ++ Call.begin :: post ∧
          (Engine.begin cfg (Engine.run cfg pre fresh)).1.id = x := by
      intro hm
      obtain ⟨pre, post, h1, h2⟩ := ih x hm
      exact ⟨pre, post ++ [c], by rw [h1]; simp, h2⟩
    have hfin : ∀ t, x ∈ (Engine.finalize (Engine.run cfg cs fresh).engine t).active →
        x ∈ (Engine.run cfg cs fresh).engine.active := by
      intro t hm
      simp only [Engine.finalize, Snapshot.remove, List.mem_filter] at hm
      exact hm.1
    cases c with
    | begin =>
      simp only [Engine.call, Engine.begin, SimpleCounter.next, Snapshot.insert,
        List.mem_append, List.mem_singleton] at hx
      rcases hx with hm | hm
      · exact hold hm
      · exact ⟨cs, [], rfl, by rw [begin_id, hm]⟩
    | advance id =>
      simp only [Engine.call, (advance_engine _ id).2.1] at hx
      exact hold hx
    | commit t =>
      rcases commit_engine cfg (Engine.run cfg cs fresh) t with he | he
      · simp only [Engine.call, he] at hx
        exact hold hx
      · simp only [Engine.call, he] at hx
        exact hold (hfin t hx)
    | abort t =>
      rcases abort_engine cfg (Engine.run cfg cs fresh) t with he | he
      · simp only [Engine.call, he] at hx
        exact hold hx
      · simp only [Engine.call, he] at hx
        exact hold (hfin t hx)

/-- C28: in every state reached from a fresh engine, the transaction T returned
by begin has every id of its snapshot strictly below its own id, so T.id is not
in T.snapshot, and every id of its snapshot was returned by an earlier begin of
the sequence of calls that led to that state. -/
theorem C28_snapshot_ids_are_earlier (cfg : Absent) (cs : List Call) :
    (∀ x ∈ (Engine.begin cfg (Engine.run cfg cs fresh)).1.snapshot,
      x < (Engine.begin cfg (Engine.run cfg cs fresh)).1.id ∧
      ∃ pre post, cs = pre ++ Call.begin :: post ∧
        (Engine.begin cfg (Engine.run cfg pre fresh)).1.id = x) ∧
    (Engine.begin cfg (Engine.run cfg cs fresh)).1.id
      ∉ (Engine.begin cfg (Engine.run cfg cs fresh)).1.snapshot := by
  have hinv := inv_run cfg cs fresh inv_fresh
  have hlt : ∀ x ∈ (Engine.begin cfg (Engine.run cfg cs fresh)).1.snapshot,
      x < (Engine.begin cfg (Engine.run cfg cs fresh)).1.id := by
    intro x hx
    rw [begin_id]
    exact Nat.lt_succ_of_le (hinv.1 x hx)
  refine ⟨fun x hx => ⟨hlt x hx, active_was_begun cfg cs x hx⟩, ?_⟩
  intro hm
  exact absurd (hlt _ hm) (Nat.lt_irrefl _)

/-- C29: for every database, transaction and decoder input, snapshot_load does
not return false: it returns true or raises an exception; and it returns true
exactly when no section of the input raises.  So in import the branch that
aborts after a false result is never taken: an attempt is aborted only when the
load raised. -/
theorem C29_snapshot_load_never_false (db : Db) (t : Transaction) (snap : SnapshotDecoder) :
    (SnapshotEngine.snapshot_load db t snap).1 ≠ Except.ok false ∧
    ((SnapshotEngine.snapshot_load db t snap).1 = Except.ok true ∨
      ∃ e, (SnapshotEngine.snapshot_load db t snap).1 = Except.error (Raised.exception e)) ∧
    ((SnapshotEngine.snapshot_load db t snap).1 = Except.ok true ↔ snap.clean = true) := by
  cases hc : snap.clean with
  | true =>
    have h := (snapshot_load_clean db t snap hc).1
    refine ⟨?_, Or.inl h, ⟨fun _ => rfl, fun _ => h⟩⟩
    rw [h]
    simp
  | false =>
    obtain ⟨e, h⟩ := snapshot_load_unclean db t snap hc
    refine ⟨?_, Or.inr ⟨e, h⟩, ⟨fun ht => ?_, fun hf => ?_⟩⟩
    · rw [h]
      simp
    · rw [h] at ht
      simp at ht
    · simp at hf

/-! ## Isolation level names and the memory limit -/

/-- C23: for each of the three isolation levels, the lookup of its name in
isolation_level_mappings yields the level again, the name is paired with no
other level in the table, and the name is accepted by the validator of the flag
and parsed back by ParseIsolationLevel; names of different levels differ; the
empty string returned for an absent level is the name of no level, is not in the
table and is rejected by the validator. -/
theorem C23_isolation_level_names_round_trip :
    (∀ l, StringToEnum (IsolationLevelToString l) isolation_level_mappings = some l) ∧
    (∀ l l2, (IsolationLevelToString l, l2) ∈ isolation_level_mappings → l2 = l) ∧
    (∀ l, (IsolationLevelToString l, l) ∈ isolation_level_mappings) ∧
    (∀ l, IsValidEnumValueString (IsolationLevelToString l) isolation_level_mappings
      = Except.ok ()) ∧
    (∀ l, ParseIsolationLevel (IsolationLevelToString l) = some l) ∧
    (∀ l l2, IsolationLevelToString l = IsolationLevelToString l2 → l = l2) ∧
    IsolationLevelToString_optional none = "" ∧
    (∀ l, IsolationLevelToString_optional (some l) = IsolationLevelToString l) ∧
    (∀ l, IsolationLevelToString l ≠ "") ∧
    StringToEnum "" isolation_level_mappings = none ∧
    IsValidEnumValueString "" isolation_level_mappings
      = Except.error ValidationError.EmptyValue := by
  refine ⟨?_, ?_, ?_, ?_, ?_, ?_, rfl, fun _ => rfl, ?_, by decide, rfl⟩
  · intro l; cases l <;> decide
  · intro l l2; cases l <;> cases l2 <;> decide
  · intro l; cases l <;> decide
  · intro l; cases l <;> rfl
  · intro l; cases l <;> decide
  · intro l l2; cases l <;> cases l2 <;> decide
  · intro l; cases l <;> decide

theorem to_int64_mod (x : Nat) : to_int64 (x % 2 ^ 64) = to_int64 x := by
  simp only [to_int64, Nat.mod_mod]

theorem to_int64_small (x : Nat) (h : x < 2 ^ 63) : to_int64 x = (x : Int) := by
  have h2 : x % 2 ^ 64 = x := Nat.mod_eq_of_lt (by omega)
  simp only [to_int64, h2, h, if_true]

theorem mul_wrap (m : Nat) : (m * 1024 % 2 ^ 64) * 1024 % 2 ^ 64 = m * 1024 * 1024 % 2 ^ 64 := by
  omega

/-- C27: GetMemoryLimit returns, as a signed 64-bit number of bytes computed in
unsigned 64-bit arithmetic: memory_limit × 1024 × 1024 when the flag is not 0;
with the flag 0 and total physical memory t KiB, t × 1024 when the total swap is
not 0 and (t × 9 / 10) × 1024 when it is 0, the product t × 9 being taken modulo
2^64 before the division.  When no product reaches 2^63 these are the exact
values memory_limit × 1048576, t × 1024 and ⌊t × 9 / 10⌋ × 1024, the last one at
most nine tenths of t × 1024.  With the flag 0 and no figure for the memory or
the swap the function does not return. -/
theorem C27_memory_limit_in_bytes (memory_limit t swap : Nat)
    (maybe_total maybe_swap : Option Nat) :
    (memory_limit ≠ 0 →
      GetMemoryLimit memory_limit maybe_total maybe_swap
        = some (to_int64 (memory_limit * 1024 * 1024))) ∧
    (swap ≠ 0 → GetMemoryLimit 0 (some t) (some swap) = some (to_int64 (t * 1024))) ∧
    GetMemoryLimit 0 (some t) (some 0) = some (to_int64 ((t * 9 % 2 ^ 64) / 10 * 1024)) ∧
    (memory_limit ≠ 0 → memory_limit * 1024 * 1024 < 2 ^ 63 →
      GetMemoryLimit memory_limit maybe_total maybe_swap
        = some ((memory_limit * 1048576 : Nat) : Int)) ∧
    (swap ≠ 0 → t * 1024 < 2 ^ 63 →
      GetMemoryLimit 0 (some t) (some swap) = some ((t * 1024 : Nat) : Int)) ∧
    (t * 1024 < 2 ^ 63 →
      GetMemoryLimit 0 (some t) (some 0) = some ((t * 9 / 10 * 1024 : Nat) : Int) ∧
      (t * 9 / 10 * 1024) * 10 ≤ (t * 1024) * 9) ∧
    GetMemoryLimit 0 none maybe_swap = none ∧
    GetMemoryLimit 0 (some t) none = none := by
  have h1 : memory_limit ≠ 0 →
      GetMemoryLimit memory_limit maybe_total maybe_swap
        = some (to_int64 (memory_limit * 1024 * 1024)) := by
    intro hm
    simp only [GetMemoryLimit, hm, if_false, mul_wrap, to_int64_mod]
  have h2 : swap ≠ 0 → GetMemoryLimit 0 (some t) (some swap) = some (to_int64 (t * 1024)) := by
    intro hs
    simp only [GetMemoryLimit, hs, if_true, if_false, to_int64_mod]
  have h3 : GetMemoryLimit 0 (some t) (some 0)
      = some (to_int64 ((t * 9 % 2 ^ 64) / 10 * 1024)) := by
    simp only [GetMemoryLimit, if_true, to_int64_mod]
  refine ⟨h1, h2, h3, ?_, ?_, ?_, rfl, rfl⟩
  · intro hm hb
    have e : memory_limit * 1024 * 1024 = memory_limit * 1048576 := by omega
    rw [h1 hm, to_int64_small _ hb, e]
  · intro hs hb
    rw [h2 hs, to_int64_small _ hb]
  · intro hb
    have h9 : t * 9 % 2 ^ 64 = t * 9 := Nat.mod_eq_of_lt (by omega)
    refine ⟨?_, by omega⟩
    rw [h3, h9, to_int64_small _ (by omega)]

/-- Worked values for C27: a flag of 2048 MiB gives 2147483648 bytes; with the
flag 0 and 1000 KiB of memory, swap present gives 1024000 bytes and no swap
gives 921600 bytes. -/
theorem C27_memory_limit_examples :
    GetMemoryLimit 2048 none none = some 2147483648 ∧
    GetMemoryLimit 0 (some 1000) (some 1) = some 1024000 ∧
    GetMemoryLimit 0 (some 1000) (some 0) = some 921600 := by
  refine ⟨by decide, by decide, by decide⟩

/-! ## The paths of the snapshot files -/

theorem digit_value_digitChar (d : Nat) (h : d < 10) : digit_value (Nat.digitChar d) = d := by
  interval_cases d <;> rfl

theorem digitChar_plain (d : Nat) (h : d < 10) :
    Nat.digitChar d ≠ '_' ∧ Nat.digitChar d ≠ '-' := by
  interval_cases d <;> decide

theorem toDigitsCore_spec (fuel n : Nat) (ds : List Char) (h : n < fuel) :
    ∃ X, Nat.toDigitsCore 10 fuel n ds = X ++ ds ∧
      (∀ a, decimal_value a X = a * 10 ^ X.length + n) ∧
      (∀ c ∈ X, c ≠ '_' ∧ c ≠ '-') ∧ X ≠ [] := by
  induction fuel generalizing n ds with
  | zero => exact absurd h (Nat.not_lt_zero n)
  | succ fuel ih =>
    have hd := Nat.mod_lt n (show 0 < 10 by decide)
    simp only [Nat.toDigitsCore]
    split_ifs with h0
    · refine ⟨[Nat.digitChar (n % 10)], rfl, ?_, ?_, by simp⟩
      · intro a
        simp only [decimal_value, List.foldl, digit_value_digitChar _ hd, List.length_singleton,
          pow_one]
        omega
      · intro c hc
        rw [List.mem_singleton.1 hc]
        exact digitChar_plain _ hd
    · have hn : n / 10 < fuel := by omega
      obtain ⟨X, h1, h2, h3, _⟩ := ih (n / 10) (Nat.digitChar (n % 10) :: ds) hn
      refine ⟨X ++ [Nat.digitChar (n % 10)], by rw [h1]; simp, ?_, ?_, by simp⟩
      · intro a
        have := h2 a
        simp only [decimal_value] at this
        simp only [decimal_value, List.foldl_append, List.foldl, this,
          digit_value_digitChar _ hd, List.length_append, List.length_singleton, pow_succ]
        have hdm := Nat.div_add_mod n 10
        ring_nf
        ring_nf at hdm
        omega
      · intro c hc
        rcases List.mem_append.1 hc with hc | hc
        · exact h3 c hc
        · rw [List.mem_singleton.1 hc]
          exact digitChar_plain _ hd

theorem toDigits_spec (n : Nat) :
    decimal_value 0 (Nat.toDigits 10 n) = n ∧
    (∀ c ∈ Nat.toDigits 10 n, c ≠ '_' ∧ c ≠ '-') ∧ Nat.toDigits 10 n ≠ [] := by
  obtain ⟨X, h1, h2, h3, h4⟩ := toDigitsCore_spec (n + 1) n [] (Nat.lt_succ_self n)
  unfold Nat.toDigits
  rw [h1, List.append_nil]
  exact ⟨by rw [h2 0]; simp, h3, h4⟩

theorem toDigits_injective (n m : Nat) (h : Nat.toDigits 10 n = Nat.toDigits 10 m) : n = m := by
  rw [← (toDigits_spec n).1, ← (toDigits_spec m).1, h]

theorem int_data (now : Int) :
    (toString now).data = match now with
      | Int.ofNat m => Nat.toDigits 10 m
      | Int.negSucc m => '-' :: Nat.toDigits 10 (m + 1) := by
  cases now with
  | ofNat m => show (Nat.repr m).data = _; simp [Nat.repr, List.asString]
  | negSucc m =>
    show ("-" ++ toString (Nat.succ m)).data = _
    simp only [String.data_append]
    show _ ++ (Nat.repr (m + 1)).data = _
    simp [Nat.repr, List.asString]

theorem toString_int_injective (a b : Int) (h : (toString a).data = (toString b).data) : a = b := by
  rw [int_data, int_data] at h
  cases a with
  | ofNat m =>
    cases b with
    | ofNat k => simp only at h; rw [toDigits_injective m k h]
    | negSucc k =>
      simp only at h
      obtain ⟨_, h3, h4⟩ := toDigits_spec m
      cases hX : Nat.toDigits 10 m with
      | nil => exact absurd hX h4
      | cons c cs =>
        rw [hX] at h
        have hc : c = '-' := (List.cons.inj h).1
        exact absurd hc (h3 c (by rw [hX]; exact List.mem_cons_self _ _)).2
  | negSucc m =>
    cases b with
    | ofNat k =>
      simp only at h
      obtain ⟨_, h3, h4⟩ := toDigits_spec k
      cases hX : Nat.toDigits 10 k with
      | nil => exact absurd hX h4
      | cons c cs =>
        rw [hX] at h
        have hc : '-' = c := (List.cons.inj h).1
        exact absurd hc.symm (h3 c (by rw [hX]; exact List.mem_cons_self _ _)).2
    | negSucc k =>
      simp only at h
      have := toDigits_injective _ _ (List.cons.inj h).2
      have hk : m = k := by omega
      rw [hk]

theorem toString_int_no_underscore (now : Int) : ∀ c ∈ (toString now).data, c ≠ '_' := by
  rw [int_data]
  cases now with
  | ofNat m => exact fun c hc => ((toDigits_spec m).2.1 c hc).1
  | negSucc m =>
    intro c hc
    rcases List.mem_cons.1 hc with h | h
    · rw [h]; decide
    · exact ((toDigits_spec (m + 1)).2.1 c h).1

theorem split_at_underscore (a b x y : List Char)
    (ha : ∀ c ∈ a, c ≠ '_') (hb : ∀ c ∈ b, c ≠ '_')
    (h : a ++ '_' :: x = b ++ '_' :: y) : a = b ∧ x = y := by
  induction a generalizing b with
  | nil =>
    cases b with
    | nil => exact ⟨rfl, (List.cons.inj h).2⟩
    | cons c b =>
      have : '_' = c := (List.cons.inj h).1
      exact absurd this.symm (hb c (List.mem_cons_self _ _))
  | cons d a ih =>
    cases b with
    | nil =>
      have : d = '_' := (List.cons.inj h).1
      exact absurd this (ha d (List.mem_cons_self _ _))
    | cons c b =>
      obtain ⟨h1, h2⟩ := List.cons.inj h
      obtain ⟨i1, i2⟩ := ih b (fun c hc => ha c (List.mem_cons_of_mem _ hc))
        (fun c hc => hb c (List.mem_cons_of_mem _ hc)) h2
      exact ⟨by rw [h1, i1], i2⟩

/-- C30: for one snapshot engine (one snapshot folder and database name),
snapshot_file(now1, type1) = snapshot_file(now2, type2) only if now1 = now2 and
type1 = type2, and a snapshot file path is never the path of the commit-file;
so a make_snapshot(now1, type1) leaves the snapshot file of every other
(timestamp, type) pair as it was, and keeps every line the commit-file held. -/
theorem C30_snapshot_file_injective (s : SnapshotEngine) (now1 now2 : Int)
    (type1 type2 : String) :
    (SnapshotEngine.snapshot_file s now1 type1 = SnapshotEngine.snapshot_file s now2 type2 →
      now1 = now2 ∧ type1 = type2) ∧
    SnapshotEngine.snapshot_file s now1 type1 ≠ SnapshotEngine.snapshot_commit_file s ∧
    (∀ cfg enc res commit_res commit_good, ¬ (now2 = now1 ∧ type2 = type1) →
      (SnapshotEngine.make_snapshot cfg s now1 type1 enc res commit_res commit_good).2.disk
          (SnapshotEngine.snapshot_file s now2 type2)
        = s.disk (SnapshotEngine.snapshot_file s now2 type2)) ∧
    (∀ cfg enc res commit_res commit_good, ∃ added,
      Disk.lines
          (SnapshotEngine.make_snapshot cfg s now1 type1 enc res commit_res commit_good).2.disk
          (SnapshotEngine.snapshot_commit_file s)
        = Disk.lines s.disk (SnapshotEngine.snapshot_commit_file s) ++ added) := by
  have hinj : ∀ n1 n2 t1 t2,
      SnapshotEngine.snapshot_file s n1 t1 = SnapshotEngine.snapshot_file s n2 t2 →
      n1 = n2 ∧ t1 = t2 := by
    intro n1 n2 t1 t2 h
    have h2 := congrArg String.data h
    simp only [SnapshotEngine.snapshot_file, String.data_append, List.append_assoc] at h2
    have h3 := List.append_cancel_left (List.append_cancel_left h2)
    have h4 : (toString n1).data ++ '_' :: t1.data = (toString n2).data ++ '_' :: t2.data := h3
    obtain ⟨h5, h6⟩ := split_at_underscore _ _ _ _ (toString_int_no_underscore n1)
      (toString_int_no_underscore n2) h4
    exact ⟨toString_int_injective _ _ h5, String.ext h6⟩
  refine ⟨hinj now1 now2 type1 type2, snapshot_file_ne_commit_file s now1 type1, ?_, ?_⟩
  · intro cfg enc res commit_res commit_good hne
    have hp : SnapshotEngine.snapshot_file s now2 type2 ≠ SnapshotEngine.snapshot_file s now1 type1 :=
      fun e => hne (hinj now2 now1 type2 type1 e)
    have hq := snapshot_file_ne_commit_file s now2 type2
    rcases make_snapshot_disk cfg s now1 type1 enc res commit_res commit_good with
      ⟨_, h2⟩ | ⟨_, h2⟩
    · rw [h2]; simp [Disk.append, Disk.write, hp, hq]
    · rw [h2]; simp [Disk.write, hp]
  · intro cfg enc res commit_res commit_good
    rcases make_snapshot_commit_lines cfg s now1 type1 enc res commit_res commit_good with
      ⟨_, h2, h3⟩ | ⟨_, h2⟩
    · cases hg : commit_good with
      | true => exact ⟨_, hg ▸ h2 hg⟩
      | false => exact ⟨[], by simp [Disk.lines, hg ▸ h3 hg]⟩
    · exact ⟨[], by simp [Disk.lines, h2]⟩

/-! ## The stream written by `snapshot` -/

theorem place_sorted_of_const (k : Nat) (l : List EncoderEvent)
    (h : ∀ a ∈ l, EncoderEvent.place a = k) :
    l.Pairwise (fun a b => EncoderEvent.place a ≤ EncoderEvent.place b) := by
  apply List.pairwise_of_forall_mem_list
  intro a ha b hb
  rw [h a ha, h b hb]

theorem place_sorted_append (k : Nat) (l1 l2 : List EncoderEvent)
    (h1 : l1.Pairwise (fun a b => EncoderEvent.place a ≤ EncoderEvent.place b))
    (h2 : l2.Pairwise (fun a b => EncoderEvent.place a ≤ EncoderEvent.place b))
    (b1 : ∀ a ∈ l1, EncoderEvent.place a ≤ k) (b2 : ∀ b ∈ l2, k ≤ EncoderEvent.place b) :
    (l1 ++ l2).Pairwise (fun a b => EncoderEvent.place a ≤ EncoderEvent.place b) := by
  rw [List.pairwise_append]
  exact ⟨h1, h2, fun a ha b hb => Nat.le_trans (b1 a ha) (b2 b hb)⟩

theorem names_place (g : GraphView) :
    ∀ a ∈ g.vertex_property_family_access.map EncoderEvent.property_name_init
        ++ g.edge_property_family_access.map EncoderEvent.property_name_init
        ++ g.label_store.map EncoderEvent.label_name_init
        ++ g.edge_type_store.map EncoderEvent.edge_type_name_init,
      EncoderEvent.place a = 0 ∧ EncoderEvent.is_name a = true := by
  intro a ha
  simp only [List.mem_append, List.mem_map] at ha
  rcases ha with ((⟨n, _, rfl⟩ | ⟨n, _, rfl⟩) | ⟨n, _, rfl⟩) | ⟨n, _, rfl⟩ <;> exact ⟨rfl, rfl⟩

theorem snapshot_sorted (g : GraphView) :
    (SnapshotEngine.snapshot g).Pairwise
      (fun a b => EncoderEvent.place a ≤ EncoderEvent.place b) := by
  unfold SnapshotEngine.snapshot
  apply place_sorted_append 0
  · exact place_sorted_of_const 0 _ (fun a ha => (names_place g a ha).1)
  · rw [List.pairwise_cons]
    refine ⟨?_, ?_⟩
    · intro b hb
      simp only [List.mem_append, List.mem_map, List.mem_cons, List.not_mem_nil, or_false] at hb
      rcases hb with ⟨v, _, rfl⟩ | rfl | ⟨e, _, rfl⟩ | rfl | (⟨d, _, rfl⟩ | ⟨d, _, rfl⟩) | rfl <;>
        simp [EncoderEvent.place]
    · apply place_sorted_append 2
      · exact place_sorted_of_const 2 _ (by
          intro a ha
          simp only [List.mem_map] at ha
          rcases ha with ⟨v, _, rfl⟩
          rfl)
      · rw [List.pairwise_cons]
        refine ⟨?_, ?_⟩
        · intro b hb
          simp only [List.mem_append, List.mem_map, List.mem_cons, List.not_mem_nil, or_false] at hb
          rcases hb with ⟨e, _, rfl⟩ | rfl | (⟨d, _, rfl⟩ | ⟨d, _, rfl⟩) | rfl <;>
            simp [EncoderEvent.place]
        · apply place_sorted_append 4
          · exact place_sorted_of_const 4 _ (by
              intro a ha
              simp only [List.mem_map] at ha
              rcases ha with ⟨v, _, rfl⟩
              rfl)
          · rw [List.pairwise_cons]
            refine ⟨?_, ?_⟩
            · intro b hb
              simp only [List.mem_append, List.mem_map, List.mem_singleton] at hb
              rcases hb with (⟨d, _, rfl⟩ | ⟨d, _, rfl⟩) | rfl <;> simp [EncoderEvent.place]
            · apply place_sorted_append 6
              · exact place_sorted_of_const 6 _ (by
                  intro a ha
                  simp only [List.mem_append, List.mem_map] at ha
                  rcases ha with ⟨d, _, rfl⟩ | ⟨d, _, rfl⟩ <;> rfl)
              · exact List.pairwise_singleton _ _
              · intro a ha
                simp only [List.mem_append, List.mem_map] at ha
                rcases ha with ⟨d, _, rfl⟩ | ⟨d, _, rfl⟩ <;> simp [EncoderEvent.place]
              · intro b hb
                simp only [List.mem_singleton] at hb
                subst hb
                simp [EncoderEvent.place]
          · intro a ha
            simp only [List.mem_map] at ha
            rcases ha with ⟨v, _, rfl⟩
            simp [EncoderEvent.place]
          · intro b hb
            simp only [List.mem_append, List.mem_map, List.mem_cons, List.not_mem_nil, or_false] at hb
            rcases hb with rfl | (⟨d, _, rfl⟩ | ⟨d, _, rfl⟩) | rfl <;> simp [EncoderEvent.place]
      · intro a ha
        simp only [List.mem_map] at ha
        rcases ha with ⟨v, _, rfl⟩
        simp [EncoderEvent.place]
      · intro b hb
        simp only [List.mem_append, List.mem_map, List.mem_cons, List.not_mem_nil, or_false] at hb
        rcases hb with rfl | ⟨e, _, rfl⟩ | rfl | (⟨d, _, rfl⟩ | ⟨d, _, rfl⟩) | rfl <;>
          simp [EncoderEvent.place]
  · intro a ha
    exact Nat.le_of_eq (names_place g a ha).1
  · intro b _
    exact Nat.zero_le _

/-- What comes after an item of the stream has a place at least as late. -/
theorem snapshot_later (g : GraphView) (pre post : List EncoderEvent) (x : EncoderEvent)
    (h : SnapshotEngine.snapshot g = pre ++ x :: post) :
    ∀ y ∈ post, EncoderEvent.place x ≤ EncoderEvent.place y := by
  have hs := snapshot_sorted g
  rw [h, List.pairwise_append] at hs
  exact fun y hy => List.rel_of_pairwise_cons hs.2.1 hy

theorem vertex_mem_snapshot (g : GraphView) (v : VertexRecord) :
    EncoderEvent.vertex v ∈ SnapshotEngine.snapshot g ↔ v ∈ g.stored_vertices := by
  simp [SnapshotEngine.snapshot]

theorem edge_mem_snapshot (g : GraphView) (e : EdgeRecord) :
    EncoderEvent.edge e ∈ SnapshotEngine.snapshot g ↔ e ∈ g.stored_edges := by
  simp [SnapshotEngine.snapshot]

theorem index_mem_snapshot (g : GraphView) (d : String) :
    EncoderEvent.index d ∈ SnapshotEngine.snapshot g ↔
      d ∈ g.vertex_indexes ∨ d ∈ g.edge_indexes := by
  simp [SnapshotEngine.snapshot]

/-- C22: the calls that `snapshot` makes on the encoder are, in this order: the
names of the vertex properties, of the edge properties, of the labels and of the
edge types; `start_vertices` and every serialized vertex; `start_edges` and
every serialized edge; `start_indexes` and the definition of every vertex index,
then of every edge index; `end`.  The places of the calls never go back, so
no vertex is written after an edge and no vertex or edge after an index
definition. -/
theorem C22_snapshot_sections_in_order (g : GraphView) :
    SnapshotEngine.snapshot g
      = g.vertex_property_family_access.map EncoderEvent.property_name_init
        ++ g.edge_property_family_access.map EncoderEvent.property_name_init
        ++ g.label_store.map EncoderEvent.label_name_init
        ++ g.edge_type_store.map EncoderEvent.edge_type_name_init
        ++ [EncoderEvent.start_vertices]
        ++ g.stored_vertices.map EncoderEvent.vertex
        ++ [EncoderEvent.start_edges]
        ++ g.stored_edges.map EncoderEvent.edge
        ++ [EncoderEvent.start_indexes]
        ++ g.vertex_indexes.map EncoderEvent.index
        ++ g.edge_indexes.map EncoderEvent.index
        ++ [EncoderEvent.end_] ∧
    (SnapshotEngine.snapshot g).Pairwise
      (fun a b => EncoderEvent.place a ≤ EncoderEvent.place b) ∧
    (∀ pre post e, SnapshotEngine.snapshot g = pre ++ EncoderEvent.edge e :: post →
      ∀ v, EncoderEvent.vertex v ∉ post) ∧
    (∀ pre post d, SnapshotEngine.snapshot g = pre ++ EncoderEvent.index d :: post →
      (∀ v, EncoderEvent.vertex v ∉ post) ∧ ∀ e, EncoderEvent.edge e ∉ post) ∧
    (∀ pre post x, SnapshotEngine.snapshot g = pre ++ x :: post →
      EncoderEvent.is_name x = false → ∀ y ∈ post, EncoderEvent.is_name y = false) := by
  refine ⟨?_, snapshot_sorted g, ?_, ?_, ?_⟩
  · simp [SnapshotEngine.snapshot]
  · intro pre post e h v hv
    have := snapshot_later g pre post _ h _ hv
    simp [EncoderEvent.place] at this
  · intro pre post d h
    refine ⟨?_, ?_⟩
    · intro v hv
      have := snapshot_later g pre post _ h _ hv
      simp [EncoderEvent.place] at this
    · intro e he
      have := snapshot_later g pre post _ h _ he
      simp [EncoderEvent.place] at this
  · intro pre post x h hx y hy
    have := snapshot_later g pre post _ h _ hy
    cases x <;> cases y <;> simp_all [EncoderEvent.place, EncoderEvent.is_name]

/-! ## Which records `snapshot` writes -/

/-- C25: `snapshot` serializes exactly the records that `fill()` keeps and on
which `is_visble_to(old_trans)` is false, for vertices and for edges alike: a
record that the old read transaction sees is left out of the file, and a filled
record that it does not see is written. -/
theorem C25_snapshot_writes_what_old_trans_does_not_see (g : GraphView) :
    (∀ v, EncoderEvent.vertex v ∈ SnapshotEngine.snapshot g ↔
      (v ∈ g.vertex_access ∧ g.vertex_fill v = true) ∧ g.vertex_is_visble_to v = false) ∧
    (∀ e, EncoderEvent.edge e ∈ SnapshotEngine.snapshot g ↔
      (e ∈ g.edge_access ∧ g.edge_fill e = true) ∧ g.edge_is_visble_to e = false) := by
  refine ⟨?_, ?_⟩
  · intro v
    rw [vertex_mem_snapshot]
    simp only [GraphView.stored_vertices, List.mem_filter, Bool.not_eq_true', and_assoc]
  · intro e
    rw [edge_mem_snapshot]
    simp only [GraphView.stored_edges, List.mem_filter, Bool.not_eq_true', and_assoc]

/-- C25, the claim fails: in the view `half_seen` the old read transaction sees
the vertex 1 and the edge 10, which `fill()` delivers, and neither is written;
it does not see the vertex 2 and the edge 20, and both are written. -/
theorem C25_counterexample :
    (GraphView.half_seen.vertex_is_visble_to (VertexRecord.mk 1 ["Person"] [("name", "a")]) = true ∧
      VertexRecord.mk 1 ["Person"] [("name", "a")] ∈ GraphView.half_seen.vertex_access ∧
      EncoderEvent.vertex (VertexRecord.mk 1 ["Person"] [("name", "a")])
        ∉ SnapshotEngine.snapshot GraphView.half_seen) ∧
    (GraphView.half_seen.vertex_is_visble_to (VertexRecord.mk 2 ["Person"] [("name", "b")]) = false ∧
      EncoderEvent.vertex (VertexRecord.mk 2 ["Person"] [("name", "b")])
        ∈ SnapshotEngine.snapshot GraphView.half_seen) ∧
    (GraphView.half_seen.edge_is_visble_to (EdgeRecord.mk 10 1 1 "KNOWS" []) = true ∧
      EdgeRecord.mk 10 1 1 "KNOWS" [] ∈ GraphView.half_seen.edge_access ∧
      EncoderEvent.edge (EdgeRecord.mk 10 1 1 "KNOWS" [])
        ∉ SnapshotEngine.snapshot GraphView.half_seen) ∧
    (GraphView.half_seen.edge_is_visble_to (EdgeRecord.mk 20 2 2 "KNOWS" []) = false ∧
      EncoderEvent.edge (EdgeRecord.mk 20 2 2 "KNOWS" [])
        ∈ SnapshotEngine.snapshot GraphView.half_seen) := by
  decide

/-! ## Loading the stream of a snapshot -/

theorem dropWhile_names (l : List EncoderEvent) (x : EncoderEvent) (r : List EncoderEvent)
    (hl : ∀ a ∈ l, EncoderEvent.is_name a = true) (hx : EncoderEvent.is_name x = false) :
    (l ++ x :: r).dropWhile EncoderEvent.is_name = x :: r := by
  induction l with
  | nil => simp [List.dropWhile, hx]
  | cons a l ih =>
    have ha : EncoderEvent.is_name a = true := hl a (List.mem_cons_self _ _)
    simp only [List.cons_append, List.dropWhile, ha]
    exact ih (fun b hb => hl b (List.mem_cons_of_mem _ hb))

theorem table_insert_keeps (tbl : VertexTable) (p : Nat × Nat) (k x : Nat)
    (h : tbl k = some x) : VertexTable.insert tbl p k = some x := by
  simp [VertexTable.insert, h]

theorem table_insert_new (tbl : VertexTable) (p : Nat × Nat) (h : tbl p.1 = none) :
    VertexTable.insert tbl p p.1 = some p.2 := by
  simp [VertexTable.insert, h]

theorem table_insert_other (tbl : VertexTable) (p : Nat × Nat) (k : Nat)
    (h : tbl k = none) (hk : k ≠ p.1) : VertexTable.insert tbl p k = none := by
  simp [VertexTable.insert, h, hk]

/-- The loop over the vertices of a stream: every vertex of the section is
created under the next id of the store, and the table sends the id of each
record to the id of the vertex created for it. -/
theorem load_vertices_spec (W : List VertexRecord) (rest : List EncoderEvent)
    (hrest : ∀ r tl, rest ≠ EncoderEvent.vertex r :: tl) :
    ∀ (st : GraphStore) (tbl : VertexTable),
      (W.map VertexRecord.id).Nodup → (∀ v ∈ W, tbl v.id = none) →
      (SnapshotEngine.load_vertices (W.map EncoderEvent.vertex ++ rest) st tbl).1 = rest ∧
      (∀ k x, tbl k = some x →
        (SnapshotEngine.load_vertices (W.map EncoderEvent.vertex ++ rest) st tbl).2.2 k = some x) ∧
      (∀ v ∈ W, ∃ x,
        (SnapshotEngine.load_vertices (W.map EncoderEvent.vertex ++ rest) st tbl).2.2 v.id
          = some x) ∧
      (SnapshotEngine.load_vertices (W.map EncoderEvent.vertex ++ rest) st tbl).2.1.vertices
        = st.vertices ++ W.map (fun v => VertexRecord.mk
            (((SnapshotEngine.load_vertices (W.map EncoderEvent.vertex ++ rest) st tbl).2.2
              v.id).getD 0) v.labels v.properties) ∧
      (SnapshotEngine.load_vertices (W.map EncoderEvent.vertex ++ rest) st tbl).2.1.vertices.map
          VertexRecord.id
        = st.vertices.map VertexRecord.id ++ List.range' st.vertex_counter W.length ∧
      (SnapshotEngine.load_vertices (W.map EncoderEvent.vertex ++ rest) st tbl).2.1.edges
        = st.edges ∧
      (SnapshotEngine.load_vertices (W.map EncoderEvent.vertex ++ rest) st tbl).2.1.indexes
        = st.indexes ∧
      (SnapshotEngine.load_vertices (W.map EncoderEvent.vertex ++ rest) st tbl).2.1.edge_counter
        = st.edge_counter := by
  induction W with
  | nil =>
    intro st tbl _ _
    have e : SnapshotEngine.load_vertices ([].map EncoderEvent.vertex ++ rest) st tbl
        = (rest, st, tbl) := by
      cases rest with
      | nil => rfl
      | cons ev tl =>
        cases ev with
        | vertex r => exact absurd rfl (hrest r tl)
        | _ => rfl
    rw [e]
    simp
  | cons v W ih =>
    intro st tbl hnd hnone
    have e : SnapshotEngine.load_vertices ((v :: W).map EncoderEvent.vertex ++ rest) st tbl
        = SnapshotEngine.load_vertices (W.map EncoderEvent.vertex ++ rest)
            (deserialize_vertex st v).2 (VertexTable.insert tbl (deserialize_vertex st v).1) := rfl
    rw [e]
    simp only [List.map_cons, List.nodup_cons, List.mem_map, not_exists, not_and] at hnd
    have hv : tbl v.id = none := hnone v (List.mem_cons_self _ _)
    have hnew : VertexTable.insert tbl (deserialize_vertex st v).1 v.id
        = some st.vertex_counter := table_insert_new tbl (v.id, st.vertex_counter) hv
    have hnone2 : ∀ w ∈ W, VertexTable.insert tbl (deserialize_vertex st v).1 w.id = none := by
      intro w hw
      apply table_insert_other tbl _ _ (hnone w (List.mem_cons_of_mem _ hw))
      intro hx
      exact hnd.1 w hw hx
    obtain ⟨h1, h2, h3, h4, h5, h6, h7, h8⟩ :=
      ih (deserialize_vertex st v).2 (VertexTable.insert tbl (deserialize_vertex st v).1)
        hnd.2 hnone2
    refine ⟨h1, ?_, ?_, ?_, ?_, h6, h7, h8⟩
    · intro k x hk
      exact h2 k x (table_insert_keeps tbl _ k x hk)
    · intro w hw
      rcases List.mem_cons.mp hw with rfl | hw
      · exact ⟨_, h2 _ _ hnew⟩
      · exact h3 w hw
    · have hh := h2 _ _ hnew
      rw [h4]
      simp only [List.map_cons, hh, Option.getD_some]
      simp [deserialize_vertex]
    · rw [h5]
      simp [deserialize_vertex, List.range'_succ]

/-- The loop over the edges of a stream whose ends are all in the table: every
edge of the section is created under the next id of the store, between the
vertices the table gives for its ends. -/
theorem load_edges_spec (tbl : VertexTable) (E : List EdgeRecord) (rest : List EncoderEvent)
    (hrest : ∀ r tl, rest ≠ EncoderEvent.edge r :: tl) :
    ∀ (st : GraphStore),
      (∀ e ∈ E, (∃ a, tbl e.from_id = some a) ∧ ∃ b, tbl e.to_id = some b) →
      (SnapshotEngine.load_edges (E.map EncoderEvent.edge ++ rest) st tbl).1 = Except.ok rest ∧
      (SnapshotEngine.load_edges (E.map EncoderEvent.edge ++ rest) st tbl).2.edges
        = st.edges ++ (List.range' st.edge_counter E.length).zipWith
            (fun i e => EdgeRecord.mk i ((tbl e.from_id).getD 0) ((tbl e.to_id).getD 0)
              e.edge_type e.properties) E ∧
      (SnapshotEngine.load_edges (E.map EncoderEvent.edge ++ rest) st tbl).2.vertices
        = st.vertices ∧
      (SnapshotEngine.load_edges (E.map EncoderEvent.edge ++ rest) st tbl).2.indexes
        = st.indexes := by
  induction E with
  | nil =>
    intro st _
    have e : SnapshotEngine.load_edges ([].map EncoderEvent.edge ++ rest) st tbl
        = (Except.ok rest, st) := by
      cases rest with
      | nil => rfl
      | cons ev tl =>
        cases ev with
        | edge r => exact absurd rfl (hrest r tl)
        | _ => rfl
    rw [e]
    simp
  | cons x E ih =>
    intro st hends
    obtain ⟨⟨a, ha⟩, ⟨b, hb⟩⟩ := hends x (List.mem_cons_self _ _)
    have e : SnapshotEngine.load_edges ((x :: E).map EncoderEvent.edge ++ rest) st tbl
        = SnapshotEngine.load_edges (E.map EncoderEvent.edge ++ rest)
            (GraphStore.mk st.vertices
              (st.edges ++ [EdgeRecord.mk st.edge_counter a b x.edge_type x.properties])
              st.indexes st.vertex_counter (st.edge_counter + 1)) tbl := by
      simp only [List.map_cons, List.cons_append, SnapshotEngine.load_edges, deserialize_edge,
        ha, hb]
      rfl
    rw [e]
    obtain ⟨h1, h2, h3, h4⟩ := ih
      (GraphStore.mk st.vertices
        (st.edges ++ [EdgeRecord.mk st.edge_counter a b x.edge_type x.properties])
        st.indexes st.vertex_counter (st.edge_counter + 1))
      (fun y hy => hends y (List.mem_cons_of_mem _ hy))
    refine ⟨h1, ?_, h3, h4⟩
    rw [h2]
    simp [List.range'_succ, ha, hb]

theorem store_add_index_keeps (st : GraphStore) (d : String) :
    (GraphStore.add_index st d).vertices = st.vertices ∧
    (GraphStore.add_index st d).edges = st.edges ∧
    (∀ x, x ∈ (GraphStore.add_index st d).indexes ↔ x ∈ st.indexes ∨ x = d) ∧
    (st.indexes.Nodup → (GraphStore.add_index st d).indexes.Nodup) := by
  unfold GraphStore.add_index
  by_cases h : d ∈ st.indexes
  · simp only [h, if_true, true_and]
    refine ⟨?_, fun hn => hn⟩
    intro x
    constructor
    · exact Or.inl
    · rintro (hx | rfl)
      · exact hx
      · exact h
  · simp only [h, if_false, true_and]
    refine ⟨?_, ?_⟩
    · intro x
      simp
    · intro hn
      rw [List.nodup_append]
      refine ⟨hn, List.nodup_singleton _, ?_⟩
      intro x hx hx2
      rw [List.mem_singleton] at hx2
      subst hx2
      exact h hx

/-- The loop over the index definitions of a stream that ends with the mark of
`end`: every definition is added, once. -/
theorem load_indexes_spec (I : List String) :
    ∀ (st : GraphStore),
      (SnapshotEngine.load_indexes (I.map EncoderEvent.index ++ [EncoderEvent.end_]) st).1
        = Except.ok () ∧
      (SnapshotEngine.load_indexes (I.map EncoderEvent.index ++ [EncoderEvent.end_]) st).2.vertices
        = st.vertices ∧
      (SnapshotEngine.load_indexes (I.map EncoderEvent.index ++ [EncoderEvent.end_]) st).2.edges
        = st.edges ∧
      (∀ x, x ∈ (SnapshotEngine.load_indexes
          (I.map EncoderEvent.index ++ [EncoderEvent.end_]) st).2.indexes ↔ x ∈ st.indexes ∨ x ∈ I) ∧
      (st.indexes.Nodup → (SnapshotEngine.load_indexes
          (I.map EncoderEvent.index ++ [EncoderEvent.end_]) st).2.indexes.Nodup) := by
  induction I with
  | nil =>
    intro st
    have e : SnapshotEngine.load_indexes ([].map EncoderEvent.index ++ [EncoderEvent.end_]) st
        = (Except.ok (), st) := rfl
    rw [e]
    simp
  | cons d I ih =>
    intro st
    have e : SnapshotEngine.load_indexes
          ((d :: I).map EncoderEvent.index ++ [EncoderEvent.end_]) st
        = SnapshotEngine.load_indexes (I.map EncoderEvent.index ++ [EncoderEvent.end_])
            (GraphStore.add_index st d) := rfl
    rw [e]
    obtain ⟨h1, h2, h3, h4, h5⟩ := ih (GraphStore.add_index st d)
    obtain ⟨k1, k2, k3, k4⟩ := store_add_index_keeps st d
    refine ⟨h1, h2.trans k1, h3.trans k2, ?_, fun hn => h5 (k4 hn)⟩
    intro x
    rw [h4, k3, List.mem_cons, or_assoc]

/-- Loading a stream of the layout that `snapshot` writes, in which the ids of
the vertices differ and the ends of every edge are among the vertices: all loops
run to their end and the result is `true`. -/
theorem snapshot_load_records_stream (names : List EncoderEvent) (W : List VertexRecord)
    (E : List EdgeRecord) (I : List String) (st : GraphStore)
    (hn : ∀ a ∈ names, EncoderEvent.is_name a = true)
    (hids : (W.map VertexRecord.id).Nodup)
    (hends : ∀ e ∈ E, e.from_id ∈ W.map VertexRecord.id ∧ e.to_id ∈ W.map VertexRecord.id) :
    ∃ f : Nat → Nat,
      (SnapshotEngine.snapshot_load_records st
        (names ++ EncoderEvent.start_vertices :: (W.map EncoderEvent.vertex
          ++ EncoderEvent.start_edges :: (E.map EncoderEvent.edge
          ++ EncoderEvent.start_indexes :: (I.map EncoderEvent.index
          ++ [EncoderEvent.end_]))))).1 = Except.ok true ∧
      (SnapshotEngine.snapshot_load_records st
        (names ++ EncoderEvent.start_vertices :: (W.map EncoderEvent.vertex
          ++ EncoderEvent.start_edges :: (E.map EncoderEvent.edge
          ++ EncoderEvent.start_indexes :: (I.map EncoderEvent.index
          ++ [EncoderEvent.end_]))))).2.vertices
        = st.vertices ++ W.map (VertexRecord.renamed f) ∧
      (SnapshotEngine.snapshot_load_records st
        (names ++ EncoderEvent.start_vertices :: (W.map EncoderEvent.vertex
          ++ EncoderEvent.start_edges :: (E.map EncoderEvent.edge
          ++ EncoderEvent.start_indexes :: (I.map EncoderEvent.index
          ++ [EncoderEvent.end_]))))).2.edges
        = st.edges ++ (List.range' st.edge_counter E.length).zipWith
            (fun i e => EdgeRecord.mk i (f e.from_id) (f e.to_id) e.edge_type e.properties) E ∧
      W.map (fun v => f v.id) = List.range' st.vertex_counter W.length ∧
      (∀ x, x ∈ (SnapshotEngine.snapshot_load_records st
        (names ++ EncoderEvent.start_vertices :: (W.map EncoderEvent.vertex
          ++ EncoderEvent.start_edges :: (E.map EncoderEvent.edge
          ++ EncoderEvent.start_indexes :: (I.map EncoderEvent.index
          ++ [EncoderEvent.end_]))))).2.indexes ↔ x ∈ st.indexes ∨ x ∈ I) ∧
      (st.indexes.Nodup → (SnapshotEngine.snapshot_load_records st
        (names ++ EncoderEvent.start_vertices :: (W.map EncoderEvent.vertex
          ++ EncoderEvent.start_edges :: (E.map EncoderEvent.edge
          ++ EncoderEvent.start_indexes :: (I.map EncoderEvent.index
          ++ [EncoderEvent.end_]))))).2.indexes.Nodup) := by
  obtain ⟨v1, _, v3, v4, v5, v6, v7, v8⟩ :=
    load_vertices_spec W
      (EncoderEvent.start_edges :: (E.map EncoderEvent.edge
          ++ EncoderEvent.start_indexes :: (I.map EncoderEvent.index ++ [EncoderEvent.end_])))
      (by intro r tl h; cases h) st (fun _ => none) hids (fun _ _ => rfl)
  generalize hlv : SnapshotEngine.load_vertices (W.map EncoderEvent.vertex
      ++ EncoderEvent.start_edges :: (E.map EncoderEvent.edge
          ++ EncoderEvent.start_indexes :: (I.map EncoderEvent.index ++ [EncoderEvent.end_])))
      st (fun _ => none) = lv at v1 v3 v4 v5 v6 v7 v8
  have hends2 : ∀ e ∈ E, (∃ a, lv.2.2 e.from_id = some a) ∧ ∃ b, lv.2.2 e.to_id = some b := by
    intro e he
    obtain ⟨h1, h2⟩ := hends e he
    rw [List.mem_map] at h1 h2
    obtain ⟨a, ha, ha2⟩ := h1
    obtain ⟨b, hb, hb2⟩ := h2
    rw [← ha2, ← hb2]
    exact ⟨v3 a ha, v3 b hb⟩
  obtain ⟨e1, e2, e3, e4⟩ :=
    load_edges_spec lv.2.2 E
      (EncoderEvent.start_indexes :: (I.map EncoderEvent.index ++ [EncoderEvent.end_]))
      (by intro r tl h; cases h) lv.2.1 hends2
  generalize hle : SnapshotEngine.load_edges (E.map EncoderEvent.edge
      ++ EncoderEvent.start_indexes :: (I.map EncoderEvent.index ++ [EncoderEvent.end_]))
      lv.2.1 lv.2.2 = le at e1 e2 e3 e4
  obtain ⟨i1, i2, i3, i4, i5⟩ := load_indexes_spec I le.2
  generalize hli : SnapshotEngine.load_indexes (I.map EncoderEvent.index ++ [EncoderEvent.end_])
      le.2 = li at i1 i2 i3 i4 i5
  have hres : SnapshotEngine.snapshot_load_records st
        (names ++ EncoderEvent.start_vertices :: (W.map EncoderEvent.vertex
          ++ EncoderEvent.start_edges :: (E.map EncoderEvent.edge
          ++ EncoderEvent.start_indexes :: (I.map EncoderEvent.index
          ++ [EncoderEvent.end_])))) = (Except.ok true, li.2) := by
    unfold SnapshotEngine.snapshot_load_records
    rw [dropWhile_names names EncoderEvent.start_vertices _ hn rfl]
    simp only [hlv, v1]
    have hle2 : le = (Except.ok (EncoderEvent.start_indexes
        :: (I.map EncoderEvent.index ++ [EncoderEvent.end_])), le.2) := Prod.ext e1 rfl
    have hli2 : li = (Except.ok (), li.2) := Prod.ext i1 rfl
    rw [hle]
    rw [hle2]
    simp only [hli]
    rw [hli2]
  rw [hres]
  refine ⟨fun k => (lv.2.2 k).getD 0, rfl, ?_, ?_, ?_, ?_, ?_⟩
  · show li.2.vertices = _
    rw [i2, e3, v4]
    rfl
  · show li.2.edges = _
    rw [i3, e2, v6, v8]
  · have h := v5
    rw [v4] at h
    simp only [List.map_append, List.map_map, List.append_cancel_left_eq] at h
    exact h
  · intro x
    show x ∈ li.2.indexes ↔ _
    rw [i4, e4, v7]
  · intro hn2
    show li.2.indexes.Nodup
    apply i5
    rw [e4, v7]
    exact hn2

/-- C21 (as the code has it): when the vertices that `snapshot` serializes (those
that `fill()` keeps and `old_trans` does not see) have different ids and every
serialized edge has its ends among them, `snapshot_load` applied to an
empty store and to the stream written by `snapshot` returns `true` and leaves a
graph that is the serialized one up to the renaming `f` of the vertex ids: the
same vertices in number, labels and properties, under ids that differ; the same
edges in number, type and properties, between the renamed ends, under ids that
differ; and the same index definitions, each once.  When `fill()` keeps every
record and the old transaction sees none, the serialized graph is the whole
graph of the view. -/
theorem C21_snapshot_round_trip (g : GraphView)
    (hids : (g.stored_vertices.map VertexRecord.id).Nodup)
    (hends : ∀ e ∈ g.stored_edges,
      e.from_id ∈ g.stored_vertices.map VertexRecord.id ∧
      e.to_id ∈ g.stored_vertices.map VertexRecord.id) :
    (∃ f : Nat → Nat,
      (SnapshotEngine.snapshot_load_records GraphStore.empty (SnapshotEngine.snapshot g)).1
        = Except.ok true ∧
      (SnapshotEngine.snapshot_load_records GraphStore.empty (SnapshotEngine.snapshot g)).2.vertices
        = g.stored_vertices.map (VertexRecord.renamed f) ∧
      ((g.stored_vertices.map VertexRecord.id).map f).Nodup ∧
      (SnapshotEngine.snapshot_load_records GraphStore.empty (SnapshotEngine.snapshot g)).2.edges.map
          (EdgeRecord.renamed id)
        = g.stored_edges.map (EdgeRecord.renamed f) ∧
      ((SnapshotEngine.snapshot_load_records GraphStore.empty
          (SnapshotEngine.snapshot g)).2.edges.map EdgeRecord.id).Nodup ∧
      (SnapshotEngine.snapshot_load_records GraphStore.empty
          (SnapshotEngine.snapshot g)).2.vertices.length = g.stored_vertices.length ∧
      (SnapshotEngine.snapshot_load_records GraphStore.empty
          (SnapshotEngine.snapshot g)).2.edges.length = g.stored_edges.length ∧
      (∀ d, d ∈ (SnapshotEngine.snapshot_load_records GraphStore.empty
          (SnapshotEngine.snapshot g)).2.indexes ↔ d ∈ g.vertex_indexes ∨ d ∈ g.edge_indexes) ∧
      (SnapshotEngine.snapshot_load_records GraphStore.empty
          (SnapshotEngine.snapshot g)).2.indexes.Nodup) ∧
    ((∀ v ∈ g.vertex_access, g.vertex_fill v = true ∧ g.vertex_is_visble_to v = false) →
      g.stored_vertices = g.vertex_access) ∧
    ((∀ e ∈ g.edge_access, g.edge_fill e = true ∧ g.edge_is_visble_to e = false) →
      g.stored_edges = g.edge_access) := by
  refine ⟨?_, ?_, ?_⟩
  · obtain ⟨f, h1, h2, h3, h4, h5, h6⟩ :=
      snapshot_load_records_stream
        (g.vertex_property_family_access.map EncoderEvent.property_name_init
          ++ g.edge_property_family_access.map EncoderEvent.property_name_init
          ++ g.label_store.map EncoderEvent.label_name_init
          ++ g.edge_type_store.map EncoderEvent.edge_type_name_init)
        g.stored_vertices g.stored_edges (g.vertex_indexes ++ g.edge_indexes) GraphStore.empty
        (fun a ha => (names_place g a ha).2) hids hends
    rw [List.map_append] at h1 h2 h3 h5 h6
    have hs : SnapshotEngine.snapshot g
        = (g.vertex_property_family_access.map EncoderEvent.property_name_init
          ++ g.edge_property_family_access.map EncoderEvent.property_name_init
          ++ g.label_store.map EncoderEvent.label_name_init
          ++ g.edge_type_store.map EncoderEvent.edge_type_name_init)
          ++ EncoderEvent.start_vertices :: (g.stored_vertices.map EncoderEvent.vertex
          ++ EncoderEvent.start_edges :: (g.stored_edges.map EncoderEvent.edge
          ++ EncoderEvent.start_indexes :: (g.vertex_indexes.map EncoderEvent.index
              ++ g.edge_indexes.map EncoderEvent.index
          ++ [EncoderEvent.end_]))) := rfl
    rw [hs]
    refine ⟨f, h1, ?_, ?_, ?_, ?_, ?_, ?_, ?_, ?_⟩
    · rw [h2]
      rfl
    · rw [List.map_map]
      have : (f ∘ VertexRecord.id) = fun v => f v.id := rfl
      rw [this, h4]
      exact List.nodup_range' _ _
    · rw [h3]
      simp only [GraphStore.empty, List.nil_append]
      generalize (0 : Nat) = c
      induction g.stored_edges generalizing c with
      | nil => rfl
      | cons e E ih =>
        simp only [List.length_cons, List.range'_succ, List.zipWith_cons_cons, List.map_cons]
        rw [ih (c + 1)]
        rfl
    · rw [h3]
      simp only [GraphStore.empty, List.nil_append]
      have : ((List.range' 0 g.stored_edges.length).zipWith
          (fun i e => EdgeRecord.mk i (f e.from_id) (f e.to_id) e.edge_type e.properties)
          g.stored_edges).map EdgeRecord.id = List.range' 0 g.stored_edges.length := by
        generalize (0 : Nat) = c
        induction g.stored_edges generalizing c with
        | nil => rfl
        | cons e E ih =>
          simp only [List.length_cons, List.range'_succ, List.zipWith_cons_cons, List.map_cons]
          rw [ih (c + 1)]
      rw [this]
      exact List.nodup_range' _ _
    · rw [h2]
      simp [GraphStore.empty]
    · rw [h3]
      simp [GraphStore.empty]
    · intro d
      rw [h5]
      simp [GraphStore.empty]
    · apply h6
      simp [GraphStore.empty]
  · intro h
    unfold GraphView.stored_vertices
    rw [List.filter_eq_self.mpr (fun v hv => (h v hv).1)]
    apply List.filter_eq_self.mpr
    intro v hv
    simp [(h v hv).2]
  · intro h
    unfold GraphView.stored_edges
    rw [List.filter_eq_self.mpr (fun v hv => (h v hv).1)]
    apply List.filter_eq_self.mpr
    intro v hv
    simp [(h v hv).2]

/-- C21 at the view `unseen`: two vertices with the ids 7 and 3, an edge from 3
to 7 and a loop at 7, three index definitions of which one is repeated. -/
theorem C21_snapshot_round_trip_witness :
    (GraphView.unseen.stored_vertices.map VertexRecord.id).Nodup ∧
    (∀ e ∈ GraphView.unseen.stored_edges,
      e.from_id ∈ GraphView.unseen.stored_vertices.map VertexRecord.id ∧
      e.to_id ∈ GraphView.unseen.stored_vertices.map VertexRecord.id) ∧
    (SnapshotEngine.snapshot_load_records GraphStore.empty
        (SnapshotEngine.snapshot GraphView.unseen)).2
      = GraphStore.mk
          [VertexRecord.mk 0 ["Person"] [("name", "a")], VertexRecord.mk 1 [] [("name", "b")]]
          [EdgeRecord.mk 0 1 0 "KNOWS" [("since", "1")], EdgeRecord.mk 1 0 0 "KNOWS" []]
          ["vertex-index", "edge-index"] 2 2 ∧
    ((∃ f : Nat → Nat,
      (SnapshotEngine.snapshot_load_records GraphStore.empty
          (SnapshotEngine.snapshot GraphView.unseen)).1 = Except.ok true ∧
      (SnapshotEngine.snapshot_load_records GraphStore.empty
          (SnapshotEngine.snapshot GraphView.unseen)).2.vertices
        = GraphView.unseen.stored_vertices.map (VertexRecord.renamed f) ∧
      ((GraphView.unseen.stored_vertices.map VertexRecord.id).map f).Nodup ∧
      (SnapshotEngine.snapshot_load_records GraphStore.empty
          (SnapshotEngine.snapshot GraphView.unseen)).2.edges.map (EdgeRecord.renamed id)
        = GraphView.unseen.stored_edges.map (EdgeRecord.renamed f) ∧
      ((SnapshotEngine.snapshot_load_records GraphStore.empty
          (SnapshotEngine.snapshot GraphView.unseen)).2.edges.map EdgeRecord.id).Nodup ∧
      (SnapshotEngine.snapshot_load_records GraphStore.empty
          (SnapshotEngine.snapshot GraphView.unseen)).2.vertices.length
        = GraphView.unseen.stored_vertices.length ∧
      (SnapshotEngine.snapshot_load_records GraphStore.empty
          (SnapshotEngine.snapshot GraphView.unseen)).2.edges.length
        = GraphView.unseen.stored_edges.length ∧
      (∀ d, d ∈ (SnapshotEngine.snapshot_load_records GraphStore.empty
          (SnapshotEngine.snapshot GraphView.unseen)).2.indexes ↔
        d ∈ GraphView.unseen.vertex_indexes ∨ d ∈ GraphView.unseen.edge_indexes) ∧
      (SnapshotEngine.snapshot_load_records GraphStore.empty
          (SnapshotEngine.snapshot GraphView.unseen)).2.indexes.Nodup) ∧
    ((∀ v ∈ GraphView.unseen.vertex_access,
        GraphView.unseen.vertex_fill v = true ∧ GraphView.unseen.vertex_is_visble_to v = false) →
      GraphView.unseen.stored_vertices = GraphView.unseen.vertex_access) ∧
    ((∀ e ∈ GraphView.unseen.edge_access,
        GraphView.unseen.edge_fill e = true ∧ GraphView.unseen.edge_is_visble_to e = false) →
      GraphView.unseen.stored_edges = GraphView.unseen.edge_access)) :=
  ⟨by decide, by decide, by decide,
    C21_snapshot_round_trip GraphView.unseen (by decide) (by decide)⟩

/-- C21, the claim fails: the graph of the view `half_seen` is consistent (its
two vertices have different ids and both edges have their ends among them), yet
the stream that `snapshot` writes loads into a graph of one vertex and one edge,
because the records that `old_trans` sees are not written.  The graph of the
view `one_end_seen` is consistent as well, and the stream written for it does
not load: its edge is written while the vertex at one of its ends is not. -/
theorem C21_counterexample :
    (GraphView.half_seen.vertex_access.map VertexRecord.id).Nodup ∧
    (∀ e ∈ GraphView.half_seen.edge_access,
      e.from_id ∈ GraphView.half_seen.vertex_access.map VertexRecord.id ∧
      e.to_id ∈ GraphView.half_seen.vertex_access.map VertexRecord.id) ∧
    (SnapshotEngine.snapshot_load_records GraphStore.empty
      (SnapshotEngine.snapshot GraphView.half_seen)).1 = Except.ok true ∧
    GraphView.half_seen.vertex_access.length = 2 ∧
    (SnapshotEngine.snapshot_load_records GraphStore.empty
      (SnapshotEngine.snapshot GraphView.half_seen)).2.vertices.length = 1 ∧
    GraphView.half_seen.edge_access.length = 2 ∧
    (SnapshotEngine.snapshot_load_records GraphStore.empty
      (SnapshotEngine.snapshot GraphView.half_seen)).2.edges.length = 1 ∧
    (GraphView.one_end_seen.vertex_access.map VertexRecord.id).Nodup ∧
    (∀ e ∈ GraphView.one_end_seen.edge_access,
      e.from_id ∈ GraphView.one_end_seen.vertex_access.map VertexRecord.id ∧
      e.to_id ∈ GraphView.one_end_seen.vertex_access.map VertexRecord.id) ∧
    SnapshotEngine.snapshot GraphView.one_end_seen
      = [EncoderEvent.property_name_init "name", EncoderEvent.label_name_init "Person",
          EncoderEvent.edge_type_name_init "KNOWS", EncoderEvent.start_vertices,
          EncoderEvent.vertex (VertexRecord.mk 2 ["Person"] [("name", "b")]),
          EncoderEvent.start_edges, EncoderEvent.edge (EdgeRecord.mk 20 2 1 "KNOWS" []),
          EncoderEvent.start_indexes, EncoderEvent.end_] ∧
    (SnapshotEngine.snapshot_load_records GraphStore.empty
      (SnapshotEngine.snapshot GraphView.one_end_seen)).1
        = Except.error (Raised.exception "unknown vertex") := by
  refine ⟨by decide, by decide, rfl, rfl, by decide, rfl, by decide, by decide, by decide,
    by decide, rfl⟩

/-! ## The concurrent map -/

theorem skiplist_find_none {T : Type} (l : SkipList T) (k : Nat)
    (h : ∀ y ∈ l, k < y.1) : SkipList.find l k = none := by
  unfold SkipList.find
  rw [List.find?_eq_none]
  intro y hy
  have := h y hy
  simp only [beq_iff_eq]
  omega

theorem skiplist_find_cons {T : Type} (x : Nat × T) (l : SkipList T) (k : Nat) :
    SkipList.find (x :: l) k = if x.1 = k then some x else SkipList.find l k := by
  unfold SkipList.find
  rw [List.find?_cons]
  by_cases h : x.1 = k
  · have hb : (x.1 == k) = true := by simpa using h
    rw [hb, if_pos h]
  · have hb : (x.1 == k) = false := by simpa using h
    rw [hb, if_neg h]

theorem skiplist_insert_lt {T : Type} (x : Nat × T) (rest : SkipList T) (c : Nat × T)
    (h : c.1 < x.1) : SkipList.insert (x :: rest) c = ((c, true), c :: x :: rest) := by
  simp only [SkipList.insert, h, if_true]

theorem skiplist_insert_eq {T : Type} (x : Nat × T) (rest : SkipList T) (c : Nat × T)
    (h : c.1 = x.1) : SkipList.insert (x :: rest) c = ((x, false), x :: rest) := by
  have h1 : ¬ c.1 < x.1 := by omega
  simp only [SkipList.insert, h1, if_false]
  rw [if_pos h]

theorem skiplist_insert_gt {T : Type} (x : Nat × T) (rest : SkipList T) (c : Nat × T)
    (h : x.1 < c.1) :
    SkipList.insert (x :: rest) c
      = ((SkipList.insert rest c).1, x :: (SkipList.insert rest c).2) := by
  have h1 : ¬ c.1 < x.1 := by omega
  have h2 : ¬ c.1 = x.1 := by omega
  simp only [SkipList.insert, h1, if_false]
  rw [if_neg h2]

theorem skiplist_insert_mem {T : Type} (l : SkipList T) (c : Nat × T) :
    ∀ y ∈ (SkipList.insert l c).2, y = c ∨ y ∈ l := by
  induction l with
  | nil =>
    intro y hy
    simp only [SkipList.insert, List.mem_singleton] at hy
    exact Or.inl hy
  | cons x rest ih =>
    intro y hy
    rcases Nat.lt_trichotomy c.1 x.1 with h | h | h
    · rw [skiplist_insert_lt x rest c h] at hy
      exact List.mem_cons.mp hy
    · rw [skiplist_insert_eq x rest c h] at hy
      exact Or.inr hy
    · rw [skiplist_insert_gt x rest c h] at hy
      rcases List.mem_cons.mp hy with rfl | hy
      · exact Or.inr (List.mem_cons_self _ _)
      · rcases ih y hy with h | h
        · exact Or.inl h
        · exact Or.inr (List.mem_cons_of_mem _ h)

theorem skiplist_insert_sorted {T : Type} (l : SkipList T) (c : Nat × T)
    (hs : l.Pairwise (fun a b => a.1 < b.1)) :
    (SkipList.insert l c).2.Pairwise (fun a b => a.1 < b.1) := by
  induction l with
  | nil => simp [SkipList.insert]
  | cons x rest ih =>
    rcases Nat.lt_trichotomy c.1 x.1 with h | h | h
    · rw [skiplist_insert_lt x rest c h]
      rw [List.pairwise_cons] at hs
      show List.Pairwise (fun a b => a.1 < b.1) (c :: x :: rest)
      rw [List.pairwise_cons, List.pairwise_cons]
      refine ⟨?_, hs⟩
      intro y hy
      rcases List.mem_cons.mp hy with rfl | hy
      · exact h
      · exact Nat.lt_trans h (hs.1 y hy)
    · rw [skiplist_insert_eq x rest c h]
      exact hs
    · rw [skiplist_insert_gt x rest c h]
      rw [List.pairwise_cons] at hs
      show List.Pairwise (fun a b => a.1 < b.1) (x :: (SkipList.insert rest c).2)
      rw [List.pairwise_cons]
      refine ⟨?_, ih hs.2⟩
      intro y hy
      rcases skiplist_insert_mem rest c y hy with rfl | hy
      · exact h
      · exact hs.1 y hy

theorem skiplist_find_none_cons {T : Type} (x : Nat × T) (rest : SkipList T) (k : Nat)
    (hs : (x :: rest).Pairwise (fun a b => a.1 < b.1)) (h : k < x.1) :
    SkipList.find (x :: rest) k = none := by
  rw [List.pairwise_cons] at hs
  apply skiplist_find_none
  intro y hy
  rcases List.mem_cons.mp hy with rfl | hy
  · exact h
  · exact Nat.lt_trans h (hs.1 y hy)

theorem skiplist_find_insert {T : Type} (l : SkipList T) (c : Nat × T) (k : Nat)
    (hs : l.Pairwise (fun a b => a.1 < b.1)) :
    SkipList.find (SkipList.insert l c).2 k
      = match SkipList.find l k with
        | some x => some x
        | none => if c.1 = k then some c else none := by
  induction l with
  | nil =>
    show SkipList.find [c] k = _
    rw [skiplist_find_cons]
    rfl
  | cons x rest ih =>
    rcases Nat.lt_trichotomy c.1 x.1 with h | h | h
    · rw [skiplist_insert_lt x rest c h]
      show SkipList.find (c :: x :: rest) k = _
      rw [skiplist_find_cons c]
      by_cases hk : c.1 = k
      · rw [skiplist_find_none_cons x rest k hs (by omega), if_pos hk]
      · simp only [hk, if_false]
        cases SkipList.find (x :: rest) k <;> rfl
    · rw [skiplist_insert_eq x rest c h]
      show SkipList.find (x :: rest) k = _
      rw [skiplist_find_cons x]
      by_cases hk : x.1 = k
      · simp only [hk, if_true]
      · have hk2 : ¬ c.1 = k := by omega
        simp only [hk, hk2, if_false]
        cases SkipList.find rest k <;> rfl
    · rw [skiplist_insert_gt x rest c h]
      rw [List.pairwise_cons] at hs
      show SkipList.find (x :: (SkipList.insert rest c).2) k = _
      rw [skiplist_find_cons x, skiplist_find_cons x, ih hs.2]
      by_cases hk : x.1 = k
      · simp only [hk, if_true]
      · simp only [hk, if_false]

theorem skiplist_insert_result {T : Type} (l : SkipList T) (c : Nat × T)
    (hs : l.Pairwise (fun a b => a.1 < b.1)) :
    (SkipList.insert l c).1.2 = !(SkipList.find l c.1).isSome := by
  induction l with
  | nil => rfl
  | cons x rest ih =>
    rcases Nat.lt_trichotomy c.1 x.1 with h | h | h
    · rw [skiplist_insert_lt x rest c h, skiplist_find_none_cons x rest c.1 hs h]
      rfl
    · rw [skiplist_insert_eq x rest c h, skiplist_find_cons, if_pos h.symm]
      rfl
    · rw [skiplist_insert_gt x rest c h]
      rw [List.pairwise_cons] at hs
      have h3 : ¬ x.1 = c.1 := by omega
      rw [skiplist_find_cons, if_neg h3]
      exact ih hs.2

theorem skiplist_insert_present {T : Type} (l : SkipList T) (c : Nat × T)
    (hs : l.Pairwise (fun a b => a.1 < b.1))
    (hp : (SkipList.find l c.1).isSome = true) : (SkipList.insert l c).2 = l := by
  induction l with
  | nil => cases hp
  | cons x rest ih =>
    rcases Nat.lt_trichotomy c.1 x.1 with h | h | h
    · rw [skiplist_find_none_cons x rest c.1 hs h] at hp
      cases hp
    · rw [skiplist_insert_eq x rest c h]
    · rw [skiplist_insert_gt x rest c h]
      rw [List.pairwise_cons] at hs
      have h3 : ¬ x.1 = c.1 := by omega
      rw [skiplist_find_cons, if_neg h3] at hp
      show x :: (SkipList.insert rest c).2 = x :: rest
      rw [ih hs.2 hp]

theorem skiplist_insert_length {T : Type} (l : SkipList T) (c : Nat × T) :
    (SkipList.insert l c).2.length
      = l.length + (if (SkipList.insert l c).1.2 = true then 1 else 0) := by
  induction l with
  | nil => rfl
  | cons x rest ih =>
    rcases Nat.lt_trichotomy c.1 x.1 with h | h | h
    · rw [skiplist_insert_lt x rest c h]
      rfl
    · rw [skiplist_insert_eq x rest c h]
      rfl
    · rw [skiplist_insert_gt x rest c h]
      show (x :: (SkipList.insert rest c).2).length
        = (x :: rest).length + (if (SkipList.insert rest c).1.2 = true then 1 else 0)
      rw [List.length_cons, ih, List.length_cons]
      omega

theorem insert_all_sorted {T : Type} (cs : List (Nat × T)) :
    ∀ m : ConcurrentMap T, m.skiplist.Pairwise (fun a b => a.1 < b.1) →
      (ConcurrentMap.insert_all cs m).2.skiplist.Pairwise (fun a b => a.1 < b.1) := by
  induction cs with
  | nil => intro m hs; exact hs
  | cons c cs ih =>
    intro m hs
    exact ih _ (skiplist_insert_sorted m.skiplist (c.1, c.2) hs)

theorem insert_all_find {T : Type} (cs : List (Nat × T)) (k : Nat) :
    ∀ m : ConcurrentMap T, m.skiplist.Pairwise (fun a b => a.1 < b.1) →
      ConcurrentMap.find (ConcurrentMap.insert_all cs m).2 k
        = match ConcurrentMap.find m k with
          | some x => some x
          | none => cs.find? (fun c => c.1 == k) := by
  induction cs with
  | nil =>
    intro m _
    show ConcurrentMap.find m k = _
    cases ConcurrentMap.find m k <;> rfl
  | cons c cs ih =>
    intro m hs
    have h := ih (ConcurrentMap.insert m c.1 c.2).2
      (skiplist_insert_sorted m.skiplist (c.1, c.2) hs)
    have hf : ConcurrentMap.find (ConcurrentMap.insert m c.1 c.2).2 k
        = match ConcurrentMap.find m k with
          | some x => some x
          | none => if c.1 = k then some c else none :=
      skiplist_find_insert m.skiplist (c.1, c.2) k hs
    show ConcurrentMap.find (ConcurrentMap.insert_all cs (ConcurrentMap.insert m c.1 c.2).2).2 k = _
    rw [h, hf, List.find?_cons]
    cases ConcurrentMap.find m k with
    | some x => rfl
    | none =>
      by_cases hk : c.1 = k
      · have hb : (c.1 == k) = true := by simpa using hk
        simp only [hb, if_pos hk]
      · have hb : (c.1 == k) = false := by simpa using hk
        simp only [hb, if_neg hk]

theorem insert_all_owned {T : Type} (cs : List (Nat × T)) :
    ∀ m : ConcurrentMap T, m.skiplist.Pairwise (fun a b => a.1 < b.1) →
      (∀ c ∈ (ConcurrentMap.insert_all cs m).1,
        ConcurrentMap.find m c.1 = none ∧
        ConcurrentMap.find (ConcurrentMap.insert_all cs m).2 c.1 = some c) ∧
      ((ConcurrentMap.insert_all cs m).1.map Prod.fst).Nodup ∧
      ConcurrentMap.size (ConcurrentMap.insert_all cs m).2
        = ConcurrentMap.size m + (ConcurrentMap.insert_all cs m).1.length ∧
      (∀ k, ConcurrentMap.contains (ConcurrentMap.insert_all cs m).2 k = true ↔
        ConcurrentMap.contains m k = true ∨ k ∈ (ConcurrentMap.insert_all cs m).1.map Prod.fst) := by
  induction cs with
  | nil =>
    intro m _
    refine ⟨?_, ?_, ?_, ?_⟩
    · intro c hc
      cases hc
    · exact List.nodup_nil
    · rfl
    · intro k
      simp [ConcurrentMap.insert_all]
  | cons c cs ih =>
    intro m hs
    have hs1 := skiplist_insert_sorted m.skiplist (c.1, c.2) hs
    obtain ⟨i1, i2, i3, i4⟩ := ih (ConcurrentMap.insert m c.1 c.2).2 hs1
    have hres : (ConcurrentMap.insert m c.1 c.2).1.2 = !(ConcurrentMap.find m c.1).isSome :=
      skiplist_insert_result m.skiplist (c.1, c.2) hs
    have hfind : ∀ k, ConcurrentMap.find (ConcurrentMap.insert m c.1 c.2).2 k
        = match ConcurrentMap.find m k with
          | some x => some x
          | none => if c.1 = k then some c else none :=
      fun k => skiplist_find_insert m.skiplist (c.1, c.2) k hs
    have hlen : ConcurrentMap.size (ConcurrentMap.insert m c.1 c.2).2
        = ConcurrentMap.size m + (if (ConcurrentMap.insert m c.1 c.2).1.2 = true then 1 else 0) :=
      skiplist_insert_length m.skiplist (c.1, c.2)
    have hall := insert_all_find cs c.1 (ConcurrentMap.insert m c.1 c.2).2 hs1
    have hshape : ConcurrentMap.insert_all (c :: cs) m
        = ((if (ConcurrentMap.insert m c.1 c.2).1.2 then [c] else [])
            ++ (ConcurrentMap.insert_all cs (ConcurrentMap.insert m c.1 c.2).2).1,
          (ConcurrentMap.insert_all cs (ConcurrentMap.insert m c.1 c.2).2).2) := rfl
    rw [hshape]
    cases hm : ConcurrentMap.find m c.1 with
    | some x =>
      have hr : (ConcurrentMap.insert m c.1 c.2).1.2 = false := by rw [hres, hm]; rfl
      simp only [hr, Bool.false_eq_true, if_false, List.nil_append, Nat.add_zero] at hlen ⊢
      refine ⟨?_, i2, ?_, ?_⟩
      · intro d hd
        obtain ⟨d1, d2⟩ := i1 d hd
        refine ⟨?_, d2⟩
        rw [hfind d.1] at d1
        cases hmd : ConcurrentMap.find m d.1 with
        | none => rfl
        | some y => rw [hmd] at d1; cases d1
      · rw [i3, hlen]
      · intro k
        rw [i4]
        have : ConcurrentMap.contains (ConcurrentMap.insert m c.1 c.2).2 k
            = ConcurrentMap.contains m k := by
          unfold ConcurrentMap.contains
          rw [hfind k]
          cases hmk : ConcurrentMap.find m k with
          | some y => rfl
          | none =>
            by_cases hk : c.1 = k
            · rw [← hk, hm] at hmk
              cases hmk
            · simp [hk]
        rw [this]
    | none =>
      have hr : (ConcurrentMap.insert m c.1 c.2).1.2 = true := by rw [hres, hm]; rfl
      have hc : ConcurrentMap.find (ConcurrentMap.insert m c.1 c.2).2 c.1 = some c := by
        rw [hfind c.1, hm]
        simp
      simp only [hr, if_true, List.singleton_append] at hlen ⊢
      refine ⟨?_, ?_, ?_, ?_⟩
      · intro d hd
        rcases List.mem_cons.mp hd with rfl | hd
        · refine ⟨hm, ?_⟩
          rw [hall, hc]
        · obtain ⟨d1, d2⟩ := i1 d hd
          refine ⟨?_, d2⟩
          rw [hfind d.1] at d1
          cases hmd : ConcurrentMap.find m d.1 with
          | none => rfl
          | some y => rw [hmd] at d1; cases d1
      · rw [List.map_cons, List.nodup_cons]
        refine ⟨?_, i2⟩
        intro hmem
        rw [List.mem_map] at hmem
        obtain ⟨d, hd, hd2⟩ := hmem
        have := (i1 d hd).1
        rw [hd2, hc] at this
        cases this
      · rw [i3, hlen, List.length_cons]
        omega
      · intro k
        rw [i4, List.map_cons, List.mem_cons]
        have : ConcurrentMap.contains (ConcurrentMap.insert m c.1 c.2).2 k = true ↔
            ConcurrentMap.contains m k = true ∨ k = c.1 := by
          unfold ConcurrentMap.contains
          rw [hfind k]
          cases hmk : ConcurrentMap.find m k with
          | some y => simp
          | none =>
            by_cases hk : c.1 = k
            · simp [hk]
            · have hk2 : ¬ k = c.1 := fun h => hk h.symm
              simp [hk, hk2]
        rw [this, or_assoc]

/-- C26: after any sequence of calls of `insert` on an empty map, an insert of a
key that is present reports false and leaves the map as it is, and an insert of
an absent key reports true, stores the given data under the key, leaves every
other key as it is and makes the map one item larger.  Every key is mapped to
the data of the first call of the sequence with that key, which is the only
successful one for the key; the size is the number of successful inserts;
`contains` holds exactly of the keys inserted with success; and the items of the
list are in strictly ascending order of their keys. -/
theorem C26_concurrent_map_insert_unique {T : Type} (cs : List (Nat × T)) :
    (∀ key data,
      ConcurrentMap.contains (ConcurrentMap.insert_all cs ConcurrentMap.empty).2 key = true →
      (ConcurrentMap.insert (ConcurrentMap.insert_all cs ConcurrentMap.empty).2 key data).1.2
          = false ∧
      (ConcurrentMap.insert (ConcurrentMap.insert_all cs ConcurrentMap.empty).2 key data).2.skiplist
        = (ConcurrentMap.insert_all cs ConcurrentMap.empty).2.skiplist) ∧
    (∀ key data,
      ConcurrentMap.contains (ConcurrentMap.insert_all cs ConcurrentMap.empty).2 key = false →
      (ConcurrentMap.insert (ConcurrentMap.insert_all cs ConcurrentMap.empty).2 key data).1.2
          = true ∧
      ConcurrentMap.find
          (ConcurrentMap.insert (ConcurrentMap.insert_all cs ConcurrentMap.empty).2 key data).2 key
        = some (key, data) ∧
      (∀ k, k ≠ key →
        ConcurrentMap.find
            (ConcurrentMap.insert (ConcurrentMap.insert_all cs ConcurrentMap.empty).2 key data).2 k
          = ConcurrentMap.find (ConcurrentMap.insert_all cs ConcurrentMap.empty).2 k) ∧
      ConcurrentMap.size
          (ConcurrentMap.insert (ConcurrentMap.insert_all cs ConcurrentMap.empty).2 key data).2
        = ConcurrentMap.size (ConcurrentMap.insert_all cs ConcurrentMap.empty).2 + 1) ∧
    (∀ k, ConcurrentMap.find (ConcurrentMap.insert_all cs ConcurrentMap.empty).2 k
      = cs.find? (fun c => c.1 == k)) ∧
    (∀ c ∈ (ConcurrentMap.insert_all cs ConcurrentMap.empty).1,
      ConcurrentMap.find (ConcurrentMap.insert_all cs ConcurrentMap.empty).2 c.1 = some c) ∧
    ((ConcurrentMap.insert_all cs ConcurrentMap.empty).1.map Prod.fst).Nodup ∧
    ConcurrentMap.size (ConcurrentMap.insert_all cs ConcurrentMap.empty).2
      = (ConcurrentMap.insert_all cs ConcurrentMap.empty).1.length ∧
    (∀ k, ConcurrentMap.contains (ConcurrentMap.insert_all cs ConcurrentMap.empty).2 k = true ↔
      k ∈ (ConcurrentMap.insert_all cs ConcurrentMap.empty).1.map Prod.fst) ∧
    ((ConcurrentMap.insert_all cs ConcurrentMap.empty).2.skiplist.map Prod.fst).Pairwise
      (fun a b => a < b) := by
  have hs0 : (ConcurrentMap.empty : ConcurrentMap T).skiplist.Pairwise (fun a b => a.1 < b.1) :=
    List.Pairwise.nil
  have hs := insert_all_sorted cs ConcurrentMap.empty hs0
  obtain ⟨o1, o2, o3, o4⟩ := insert_all_owned cs ConcurrentMap.empty hs0
  have hfirst : ∀ k, ConcurrentMap.find (ConcurrentMap.insert_all cs ConcurrentMap.empty).2 k
      = cs.find? (fun c => c.1 == k) := fun k => insert_all_find cs k ConcurrentMap.empty hs0
  generalize ConcurrentMap.insert_all cs ConcurrentMap.empty = r at hs o1 o2 o3 o4 hfirst ⊢
  refine ⟨?_, ?_, ?_, ?_, o2, ?_, ?_, ?_⟩
  · intro key data hc
    have hres := skiplist_insert_result r.2.skiplist (key, data) hs
    refine ⟨?_, skiplist_insert_present r.2.skiplist (key, data) hs hc⟩
    show (SkipList.insert r.2.skiplist (key, data)).1.2 = false
    rw [hres]
    have : (SkipList.find r.2.skiplist key).isSome = true := hc
    simp [this]
  · intro key data hc
    have hres := skiplist_insert_result r.2.skiplist (key, data) hs
    have hnone : SkipList.find r.2.skiplist key = none := by
      have : (SkipList.find r.2.skiplist key).isSome = false := hc
      cases h : SkipList.find r.2.skiplist key with
      | none => rfl
      | some x => rw [h] at this; cases this
    have hr : (SkipList.insert r.2.skiplist (key, data)).1.2 = true := by
      rw [hres]
      simp [hnone]
    refine ⟨hr, ?_, ?_, ?_⟩
    · show SkipList.find (SkipList.insert r.2.skiplist (key, data)).2 key = _
      rw [skiplist_find_insert _ _ _ hs, hnone]
      simp
    · intro k hk
      show SkipList.find (SkipList.insert r.2.skiplist (key, data)).2 k
        = SkipList.find r.2.skiplist k
      rw [skiplist_find_insert _ _ _ hs]
      have hk2 : ¬ key = k := fun h => hk h.symm
      cases SkipList.find r.2.skiplist k with
      | some x => rfl
      | none => simp [hk2]
    · show (SkipList.insert r.2.skiplist (key, data)).2.length = r.2.skiplist.length + 1
      rw [skiplist_insert_length, hr]
      rfl
  · exact hfirst
  · intro c hc
    exact (o1 c hc).2
  · rw [o3]
    simp [ConcurrentMap.size, ConcurrentMap.empty]
  · intro k
    rw [o4]
    simp [ConcurrentMap.contains, ConcurrentMap.find, ConcurrentMap.empty, SkipList.find]
  · rw [List.pairwise_map]
    exact hs

/-- Four calls of `insert` on an empty map, of which the third repeats the key
of the first: the third reports false, the data of the first stays, and the
items are in the order of their keys. -/
theorem concurrent_map_insert_all_sample :
    ConcurrentMap.insert_all [(5, 1), (3, 2), (5, 9), (4, 7)] ConcurrentMap.empty
      = ([(5, 1), (3, 2), (4, 7)], ConcurrentMap.mk [(3, 2), (4, 7), (5, 1)]) := by
  rfl
